import Mathlib

/-!
Video cache (src/videoCache.js): shallow embedding.

The module keeps one mutable `state` object (`cache : Map`, `loading : Set`,
`queue : Array`) and a constant `CONFIG`.  The embedding passes the state
explicitly.  A JavaScript `Map` is an association list in insertion order with
at most one pair per key, a `Set` is a duplicate-free list in insertion order,
an array is a list.

`loadVideo` is declared `async` but contains no `await`: its whole body,
including the `processQueue()` call at its end, runs synchronously inside the
caller.  The embedding therefore executes it as one step.

Instrumentation that is not part of the JavaScript state (it never influences
a branch of the code):
* `now`       the value `Date.now()` returns; it advances only by `Op.tick`;
* `nextId`    allocation counter giving every object literal its identity;
* `events`    log of the statements that change `state.loading`;
* `queueTier` for each queued key, the priority it was enqueued with.

Further namespaces embed the navigation and prefetch indices of
src/projectPlayer.js (`ProjectPlayer`), the category sort of src/homeHero.js
(`HomeHero`), the grid padding of src/btsPopup.js (`BtsPopup`) and the popup and
overlay state of src/popupManager.js (`PopupManager`).
-/

namespace VideoCache

/-- The integer-valued fields of `CONFIG` (videoCache.js lines 8-19). -/
structure Config where
  maxConcurrentLoads : Nat
  maxCacheSize : Nat
  idleDelay : Nat
  preloadAhead : Nat
  preloadBehind : Nat
  bufferCheckInterval : Nat
  bufferTimeout : Nat
  useBlobCache : Bool
  deriving DecidableEq, Repr

/-- The constant `CONFIG` of the source. -/
def CONFIG : Config :=
  { maxConcurrentLoads := 6
    maxCacheSize := 20
    idleDelay := 500
    preloadAhead := 4
    preloadBehind := 2
    bufferCheckInterval := 30
    bufferTimeout := 1500
    useBlobCache := false }

/-- The `<video>` element built by `loadVideo` (lines 96-102). -/
structure Video where
  src : String
  muted : Bool
  loop : Bool
  playsInline : Bool
  preload : String
  crossOrigin : String
  deriving DecidableEq, Repr

/-- A cache entry object `{ blobUrl, video, status, timestamp }`; `oid` is the
identity of the JavaScript object. -/
structure Entry where
  oid : Nat
  blobUrl : Option String
  video : Option Video
  status : String
  timestamp : Nat
  deriving DecidableEq, Repr

/-- Log record written at each statement that changes `state.loading` inside
`loadVideo`; `inFlight` is `state.loading.size` right after the statement. -/
inductive Event where
  | loadStart (url : String) (inFlight : Nat)
  | loadDone (url : String) (inFlight : Nat)
  deriving DecidableEq, Repr

/-- The size of `state.loading` recorded by an event. -/
def Event.inFlight : Event → Nat
  | .loadStart _ n => n
  | .loadDone _ n => n

/-- The module state (lines 21-28) with the instrumentation fields. -/
structure State where
  cache : List (String × Entry)
  loading : List String
  queue : List String
  idleTimer : Option Nat
  isIdlePreloading : Bool
  lastInteraction : Nat
  now : Nat
  nextId : Nat
  events : List Event
  queueTier : List String
  deriving DecidableEq, Repr

/-- The state at module load: empty map, empty set, empty array. -/
def init : State :=
  { cache := []
    loading := []
    queue := []
    idleTimer := none
    isIdlePreloading := false
    lastInteraction := 0
    now := 0
    nextId := 0
    events := []
    queueTier := [] }

/-! ## Map and Set primitives -/

/-- `Map.prototype.get`. -/
def mapGet : List (String × Entry) → String → Option Entry
  | [], _ => none
  | (k, e) :: rest, url => if k = url then some e else mapGet rest url

/-- `Map.prototype.set`: an existing key keeps its position. -/
def mapSet : List (String × Entry) → String → Entry → List (String × Entry)
  | [], url, e => [(url, e)]
  | (k, v) :: rest, url, e =>
      if k = url then (k, e) :: rest else (k, v) :: mapSet rest url e

/-- `Map.prototype.delete`. -/
def mapDelete (m : List (String × Entry)) (url : String) : List (String × Entry) :=
  m.filter (fun p => decide (p.1 ≠ url))

/-- `Set.prototype.add`. -/
def setAdd (l : List String) (url : String) : List String :=
  if url ∈ l then l else l ++ [url]

/-- `Set.prototype.delete`. -/
def setDelete (l : List String) (url : String) : List String :=
  l.filter (fun u => decide (u ≠ url))

/-! ## Core caching functions -/

/-- `isCached` (lines 34-36). -/
def isCached (s : State) (url : String) : Bool :=
  match mapGet s.cache url with
  | some e => decide (e.status = "ready")
  | none => false

/-- `isLoading` (lines 38-40). -/
def isLoading (s : State) (url : String) : Bool :=
  decide (url ∈ s.loading)

/-- `isQueued` (lines 42-44). -/
def isQueued (s : State) (url : String) : Bool :=
  decide (url ∈ s.queue)

/-- `getCachedUrl` (lines 46-49): `entry?.blobUrl || url`. -/
def getCachedUrl (s : State) (url : String) : String :=
  match mapGet s.cache url with
  | some e =>
      match e.blobUrl with
      | some b => if b = "" then url else b
      | none => url
  | none => url

/-- `getCachedVideo` (lines 51-54). -/
def getCachedVideo (s : State) (url : String) : Option Video :=
  match mapGet s.cache url with
  | some e => e.video
  | none => none

/-- `updateTimestamp` (lines 147-152): the entry object is mutated in place. -/
def updateTimestamp (s : State) (url : String) : State :=
  match mapGet s.cache url with
  | some e => { s with cache := mapSet s.cache url { e with timestamp := s.now } }
  | none => s

/-- What the promise returned by `cacheVideo` holds when the call returns:
`null`, resolved with `state.cache.get(url)`, or still polling in
`waitForCache(url)`. -/
inductive Outcome where
  | null
  | resolved (entry : Option Entry)
  | waiting (url : String)
  deriving DecidableEq, Repr

/-- One run of `check` inside `waitForCache` (lines 125-136): resolve with the
cache entry when `isCached(url)`, otherwise poll again after 100 ms. -/
def waitForCache (s : State) (url : String) : Outcome :=
  if isCached s url then .resolved (mapGet s.cache url) else .waiting url

/-- The element created and configured in `loadVideo` (lines 96-102). -/
def createVideo (url : String) : Video :=
  { src := url
    muted := true
    loop := true
    playsInline := true
    preload := "auto"
    crossOrigin := "anonymous" }

/-- `loadVideo` lines 85-92: `state.loading.add(url)` and the placeholder
entry with status `'loading'`. -/
def loadVideoBegin (s : State) (url : String) : State :=
  let loading := setAdd s.loading url
  { s with
    loading := loading
    cache := mapSet s.cache url
      { oid := s.nextId, blobUrl := none, video := none, status := "loading",
        timestamp := s.now }
    nextId := s.nextId + 1
    events := s.events ++ [Event.loadStart url loading.length] }

/-- `loadVideo` lines 96-118: the element, the ready entry,
`state.cache.set(url, entry)` and `state.loading.delete(url)`. -/
def loadVideoReady (s : State) (url : String) : State × Entry :=
  let entry : Entry :=
    { oid := s.nextId, blobUrl := some url, video := some (createVideo url),
      status := "ready", timestamp := s.now }
  let loading := setDelete s.loading url
  ({ s with
     cache := mapSet s.cache url entry
     loading := loading
     nextId := s.nextId + 1
     events := s.events ++ [Event.loadDone url loading.length] }, entry)

/-- `loadVideo` up to, but not including, its final `processQueue()` call. -/
def loadVideoCore (s : State) (url : String) : State × Entry :=
  loadVideoReady (loadVideoBegin s url) url

/-- `loadVideo` with the drain it ends with passed as `drain`. -/
def loadVideoWith (drain : State → Option State) (s : State) (url : String) :
    Option (State × Entry) :=
  let r := loadVideoCore s url
  match drain r.1 with
  | some t => some (t, r.2)
  | none => none

/-- `state.queue.shift()` (line 140); the tier record moves with the queue. -/
def shiftQueue (s : State) : State :=
  { s with queue := s.queue.tail, queueTier := s.queueTier.tail }

/-- `processQueue` (lines 138-145) with a bound on the number of loop
iterations and nested calls; `none` when the bound is used up. -/
def processQueueFuel (cfg : Config) : Nat → State → Option State
  | 0, _ => none
  | fuel + 1, s =>
      match s.queue with
      | [] => some s
      | url :: _ =>
          if s.loading.length < cfg.maxConcurrentLoads then
            let s1 := shiftQueue s
            if !isCached s1 url && !isLoading s1 url then
              match loadVideoWith (processQueueFuel cfg fuel) s1 url with
              | some r => processQueueFuel cfg fuel r.1
              | none => none
            else processQueueFuel cfg fuel s1
          else some s

/-- `processQueue` (lines 138-145).  The bound `queue.length + 1` is always
enough (`processQueueFuel_total`). -/
def processQueue (cfg : Config) (s : State) : State :=
  (processQueueFuel cfg (s.queue.length + 1) s).getD s

/-- `loadVideo` (lines 84-123). -/
def loadVideo (cfg : Config) (s : State) (url : String) : State × Entry :=
  let r := loadVideoCore s url
  (processQueue cfg r.1, r.2)

/-- The enqueue of `cacheVideo` (lines 73-77): `unshift` for `'high'`, `push`
for every other priority. -/
def enqueue (s : State) (url : String) (priority : String) : State :=
  if priority = "high" then
    { s with queue := url :: s.queue, queueTier := priority :: s.queueTier }
  else
    { s with queue := s.queue ++ [url], queueTier := s.queueTier ++ [priority] }

/-- `cacheVideo` (lines 56-82).  A falsy `url` is the empty string. -/
def cacheVideo (cfg : Config) (s : State) (url : String) (priority : String) :
    State × Outcome :=
  if url = "" then (s, .null)
  else if isCached s url then
    let s1 := updateTimestamp s url
    (s1, .resolved (mapGet s1.cache url))
  else if isLoading s url then (s, waitForCache s url)
  else if isQueued s url then (s, waitForCache s url)
  else if s.loading.length ≥ cfg.maxConcurrentLoads then
    let s1 := enqueue s url priority
    (s1, waitForCache s1 url)
  else
    let r := loadVideo cfg s url
    (r.1, .resolved (some r.2))

/-- Ascending stable sort of the map entries by `timestamp`
(`entries.sort((a, b) => a[1].timestamp - b[1].timestamp)`). -/
def sortByTimestamp (entries : List (String × Entry)) : List (String × Entry) :=
  entries.insertionSort (fun a b => a.2.timestamp ≤ b.2.timestamp)

/-- The `toRemove` of `enforceCacheLimit` (line 160): the first
`size - maxCacheSize` entries in ascending timestamp order. -/
def toRemove (cfg : Config) (s : State) : List (String × Entry) :=
  (sortByTimestamp s.cache).take (s.cache.length - cfg.maxCacheSize)

/-- `enforceCacheLimit` (lines 154-175).  The calls on the removed entries'
video elements do not touch `state`. -/
def enforceCacheLimit (cfg : Config) (s : State) : State :=
  if s.cache.length ≤ cfg.maxCacheSize then s
  else
    (toRemove cfg s).foldl (fun st ue => { st with cache := mapDelete st.cache ue.1 }) s

/-- `preloadMultiple` (lines 249-258). -/
def preloadMultiple (cfg : Config) (s : State) (urls : List String) (priority : String) :
    State :=
  let validUrls := urls.filter
    (fun url => decide (url ≠ "") && !isCached s url && !isLoading s url && !isQueued s url)
  if validUrls.length > 0 then
    validUrls.foldl (fun st url => (cacheVideo cfg st url priority).1) s
  else s

/-- `clearCache` (lines 356-370). -/
def clearCache (s : State) : State :=
  { s with cache := [], loading := [], queue := [], queueTier := [] }

/-! ## Runs of the public operations -/

/-- One call from outside the module, or `ms` milliseconds passing. -/
inductive Op where
  | cacheVideo (url : String) (priority : String)
  | preloadMultiple (urls : List String) (priority : String)
  | processQueue
  | clearCache
  | tick (ms : Nat)
  deriving DecidableEq, Repr

/-- The state after one operation. -/
def Op.apply (cfg : Config) (s : State) : Op → State
  | .cacheVideo url priority => (VideoCache.cacheVideo cfg s url priority).1
  | .preloadMultiple urls priority => VideoCache.preloadMultiple cfg s urls priority
  | .processQueue => VideoCache.processQueue cfg s
  | .clearCache => VideoCache.clearCache s
  | .tick ms => { s with now := s.now + ms }

/-- The state after a sequence of operations, first operation first. -/
def run (cfg : Config) (ops : List Op) (s : State) : State :=
  ops.foldl (Op.apply cfg) s

/-- The keys for which `loadVideo` was started, in start order. -/
def loads (s : State) : List String :=
  s.events.filterMap (fun e => match e with
    | .loadStart url _ => some url
    | .loadDone _ _ => none)

/-- A state property kept by each state-changing step the calls are made of:
the timestamp refresh of a cache hit, the enqueue, the dequeue and the body of
a guarded `loadVideo`. -/
structure CallInvariant (cfg : Config) (P : State → Prop) : Prop where
  timestamp : ∀ s u, P s → isCached s u = true → P (updateTimestamp s u)
  enqueue : ∀ s u p, P s → u ≠ "" → isCached s u = false → isLoading s u = false →
    isQueued s u = false → cfg.maxConcurrentLoads ≤ s.loading.length → P (enqueue s u p)
  shift : ∀ s url rest, P s → s.queue = url :: rest →
    s.loading.length < cfg.maxConcurrentLoads → P (shiftQueue s)
  load : ∀ s url, P s → s.loading.length < cfg.maxConcurrentLoads →
    isCached s url = false → isLoading s url = false → P (loadVideoCore s url).1

/-- The budget is respected now and was respected at every logged change of
`state.loading`. -/
def BoundInv (cfg : Config) (s : State) : Prop :=
  s.loading.length ≤ cfg.maxConcurrentLoads ∧
    ∀ e ∈ s.events, e.inFlight ≤ cfg.maxConcurrentLoads

/-- Nothing is in flight, nothing is queued and every entry is ready with a
video element: the state between two calls. -/
def Settled (s : State) : Prop :=
  s.loading = [] ∧ s.queue = [] ∧ s.queueTier = [] ∧
    ∀ p ∈ s.cache, p.2.status = "ready" ∧ p.2.video ≠ none

/-- A state property kept, in settled states, by the two things a call for a
key satisfying `K` can do there (refresh a timestamp, run a load), and by the
passing of time. -/
structure SettledInvariant (K : String → Prop) (P : State → Prop) : Prop where
  timestamp : ∀ s u, K u → Settled s → P s → isCached s u = true →
    P (updateTimestamp s u)
  load : ∀ s u, K u → Settled s → P s → u ≠ "" → isCached s u = false →
    P (loadVideoCore s u).1
  tick : ∀ s ms, P s → P { s with now := s.now + ms }

/-- The keys an operation asks the cache for. -/
def Op.keys : Op → List String
  | .cacheVideo url _ => [url]
  | .preloadMultiple urls _ => urls
  | .processQueue => []
  | .clearCache => []
  | .tick _ => []

/-- The operation is `clearCache()`. -/
def Op.isClear : Op → Bool
  | .clearCache => true
  | _ => false

/-- A series of `cacheVideo(k, p)` calls, each preceded by other operations;
the final state and what each of the calls returned. -/
def issue (cfg : Config) (k : String) : List (List Op × String) → State → State × List Outcome
  | [], s => (s, [])
  | (pre, p) :: rest, s =>
      let r := cacheVideo cfg (run cfg pre s) k p
      let rr := issue cfg k rest r.1
      (rr.1, r.2 :: rr.2)

/-- No entry for `k` and no load of `k` so far. -/
def Unloaded (k : String) (s : State) : Prop :=
  mapGet s.cache k = none ∧ (loads s).count k = 0

/-- The object with identity `i` is a ready entry for `k` carrying the video
element of `k`. -/
def IsEntryOf (k : String) (i : Nat) (e : Entry) : Prop :=
  e.oid = i ∧ e.status = "ready" ∧ e.video = some (createVideo k) ∧ e.blobUrl = some k

/-- The cache holds the entry object `i` for `k`, and `k` was loaded once. -/
def Loaded (k : String) (i : Nat) (s : State) : Prop :=
  (∃ e, mapGet s.cache k = some e ∧ IsEntryOf k i e) ∧ (loads s).count k = 1

/-- The call returned the entry object `i` of `k`. -/
def Outcome.Yields (k : String) (i : Nat) : Outcome → Prop
  | .resolved (some e) => IsEntryOf k i e
  | _ => False

/-- The test of `processQueue` line 141: the dequeued key gets loaded. -/
def wouldLoad (s : State) (url : String) : Bool :=
  !isCached s url && !isLoading s url

/-- No key is queued twice and no queued key is in flight. -/
def QueueInv (s : State) : Prop :=
  s.queue.Nodup ∧ ∀ k ∈ s.queue, k ∉ s.loading

/-- A series of `cacheVideo` calls, each with its key and priority. -/
def requestAll (cfg : Config) (reqs : List (String × String)) (s : State) : State :=
  reqs.foldl (fun st r => (cacheVideo cfg st r.1 r.2).1) s

/-- Six loads in flight: the budget of `CONFIG` is used up. -/
def saturated : State :=
  { init with loading := ["l1", "l2", "l3", "l4", "l5", "l6"] }

/-- Every queued key has its tier recorded, no key is queued twice, and no
key of another tier sits before a key enqueued with `'high'`. -/
def TierInv (s : State) : Prop :=
  s.queueTier.length = s.queue.length ∧ s.queue.Nodup ∧
    s.queueTier.Pairwise (fun a b => b = "high" → a = "high")

/-- The queue states reached from an empty queue through `cacheVideo` calls
and `processQueue` drains, while loads that are in flight may complete or
start in between (any change of `state.loading` and `state.cache`). -/
inductive QueueReach (cfg : Config) : State → Prop where
  | start (s : State) : s.queue = [] → s.queueTier = [] → QueueReach cfg s
  | request (s : State) (url priority : String) :
      QueueReach cfg s → QueueReach cfg (cacheVideo cfg s url priority).1
  | drain (s : State) : QueueReach cfg s → QueueReach cfg (processQueue cfg s)
  | inFlight (s : State) (loading : List String) (cache : List (String × Entry)) :
      QueueReach cfg s → QueueReach cfg { s with loading := loading, cache := cache }

/-- With the budget used up `n` was enqueued with `'normal'`, then `h` with
`'high'`; then the loads in flight completed. -/
def tierExample : State :=
  { (cacheVideo CONFIG (cacheVideo CONFIG saturated "n" "normal").1 "h" "high").1 with
    loading := [], cache := [] }

/-- Twenty-one distinct keys, one more than `CONFIG.maxCacheSize`. -/
def keys21 : List String :=
  ["v1", "v2", "v3", "v4", "v5", "v6", "v7", "v8", "v9", "v10", "v11", "v12", "v13",
   "v14", "v15", "v16", "v17", "v18", "v19", "v20", "v21"]

/-- A ready entry as `loadVideo` stores it on completion (lines 110-115). -/
def readyAt (oid : Nat) (url : String) (timestamp : Nat) : String × Entry :=
  (url, { oid := oid, blobUrl := some url, video := some (createVideo url),
          status := "ready", timestamp := timestamp })

/-- A placeholder entry as `loadVideo` stores it on start (lines 87-92). -/
def loadingAt (oid : Nat) (url : String) (timestamp : Nat) : String × Entry :=
  (url, { oid := oid, blobUrl := none, video := none, status := "loading",
          timestamp := timestamp })

/-- The cache `{x: t=1, y: t=5, z: t=3}`, all ready. -/
def xyz : State :=
  { init with cache := [readyAt 0 "x" 1, readyAt 1 "y" 5, readyAt 2 "z" 3] }

/-- Twenty-one entries: `v1` is still loading and has the smallest
timestamp, the others are ready. -/
def overfull : State :=
  { init with
    cache := (loadingAt 0 "v1" 0 ::
      keys21.tail.enum.map (fun p => readyAt (p.1 + 1) p.2 (p.1 + 1))) }

/-! ## Batch preloading around an index -/

/-- The array read `urls[index]`: `undefined` outside `0 .. length - 1`. -/
def arrayAt (urls : List String) (index : Int) : Option String :=
  if 0 ≤ index then urls[index.toNat]? else none

/-- Truthiness of an array element: `undefined` and `''` are falsy. -/
def truthy : Option String → Bool
  | some u => decide (u ≠ "")
  | none => false

/-- The first loop of `preloadAround` (lines 264-269), `i` from 1 to `ahead`. -/
def aheadKeys (urls : List String) (currentIndex : Int) (ahead : Nat) : List String :=
  (List.range' 1 ahead).filterMap (fun (i : Nat) =>
    let index := currentIndex + (i : Int)
    if index < (urls.length : Int) ∧ truthy (arrayAt urls index) = true then arrayAt urls index
    else none)

/-- The second loop of `preloadAround` (lines 271-276), `i` from 1 to
`behind`. -/
def behindKeys (urls : List String) (currentIndex : Int) (behind : Nat) : List String :=
  (List.range' 1 behind).filterMap (fun (i : Nat) =>
    let index := currentIndex - (i : Int)
    if 0 ≤ index ∧ truthy (arrayAt urls index) = true then arrayAt urls index else none)

/-- The array `toPreload` that `preloadAround` hands to `preloadMultiple`. -/
def toPreload (urls : List String) (currentIndex : Int) (ahead behind : Nat) : List String :=
  aheadKeys urls currentIndex ahead ++ behindKeys urls currentIndex behind

/-- `preloadAround` (lines 260-279); `preloadMultiple(toPreload)` runs with the
default priority `'normal'`. -/
def preloadAround (cfg : Config) (s : State) (urls : List String) (currentIndex : Int)
    (ahead behind : Nat) : State :=
  preloadMultiple cfg s (toPreload urls currentIndex ahead behind) "normal"

/-! ## Buffer readiness -/

/-- What `hasEnoughBuffer` and `waitForBuffer` read from a video element at
one moment: `currentTime` (`none` when unset), `buffered` (`none` when the
element has no such property) as a list of `(start, end)` pairs, and
`readyState`.  `α` is the number type of the times. -/
structure Media (α : Type) where
  currentTime : Option α
  buffered : Option (List (α × α))
  readyState : Nat

/-- The `for` loop of `hasEnoughBuffer` (lines 188-195). -/
def bufferLoop {α : Type} [LE α] [DecidableRel (fun a b : α => a ≤ b)] [Add α]
    (currentTime minSeconds : α) : List (α × α) → Bool
  | [] => false
  | (start, stop) :: rest =>
      if start ≤ currentTime ∧ currentTime + minSeconds ≤ stop then true
      else bufferLoop currentTime minSeconds rest

/-- `hasEnoughBuffer` (lines 181-198); `video` is `none` for a null handle. -/
def hasEnoughBuffer {α : Type} [LE α] [DecidableRel (fun a b : α => a ≤ b)] [Add α] [Zero α]
    (video : Option (Media α)) (minSeconds : α) : Bool :=
  match video with
  | none => false
  | some v =>
      match v.buffered with
      | none => false
      | some ranges =>
          if ranges.length = 0 then false
          else bufferLoop (v.currentTime.getD 0) minSeconds ranges

/-- What the promise of `waitForBuffer` / `ensureReady` holds: resolved with
a value at a clock reading, still polling, or still awaiting `cacheVideo`. -/
inductive Readiness where
  | resolved (value : Bool) (time : Nat)
  | pending
  | awaitingCache
  deriving DecidableEq, Repr

/-- The runs of `check` (lines 217-229), one per element of the list: the
reading of `Date.now()` and the state of the element at that run. -/
def checkPolls {α : Type} [LE α] [DecidableRel (fun a b : α => a ≤ b)] [Add α] [Zero α]
    (cfg : Config) (minSeconds : α) (startTime : Nat) : List (Nat × Media α) → Readiness
  | [] => .pending
  | (now, video) :: rest =>
      if (now : Int) - (startTime : Int) > (cfg.bufferTimeout : Int) then .resolved false now
      else if hasEnoughBuffer (some video) minSeconds || decide (video.readyState ≥ 3) then
        .resolved true now
      else checkPolls cfg minSeconds startTime rest

/-- `waitForBuffer` (lines 200-233).  `media` is the state of the element
during the call, `polls` are the later runs of `check` started by
`setTimeout`. -/
def waitForBuffer {α : Type} [LE α] [DecidableRel (fun a b : α => a ≤ b)] [Add α] [Zero α]
    (cfg : Config) (s : State) (url : String) (minSeconds : α) (media : Media α)
    (polls : List (Nat × Media α)) : Readiness :=
  match getCachedVideo s url with
  | none => .resolved false s.now
  | some _ =>
      if hasEnoughBuffer (some media) minSeconds then .resolved true s.now
      else checkPolls cfg minSeconds s.now ((s.now, media) :: polls)

/-- `ensureReady` (lines 235-243). -/
def ensureReady {α : Type} [LE α] [DecidableRel (fun a b : α => a ≤ b)] [Add α] [Zero α]
    (cfg : Config) (s : State) (url : String) (minSeconds : α) (media : Media α)
    (polls : List (Nat × Media α)) : State × Readiness :=
  if url = "" then (s, .resolved false s.now)
  else if !isCached s url then
    let r := cacheVideo cfg s url "high"
    match r.2 with
    | .waiting _ => (r.1, .awaitingCache)
    | _ => (r.1, waitForBuffer cfg r.1 url minSeconds media polls)
  else (s, waitForBuffer cfg s url minSeconds media polls)

/-- The call `ensureReady(url, minSeconds, timeoutMs)`: the function declares
two parameters, so the third argument is dropped. -/
def ensureReadyWithTimeout {α : Type} [LE α] [DecidableRel (fun a b : α => a ≤ b)] [Add α]
    [Zero α] (cfg : Config) (s : State) (url : String) (minSeconds : α) (_timeoutMs : Nat)
    (media : Media α) (polls : List (Nat × Media α)) : State × Readiness :=
  ensureReady cfg s url minSeconds media polls

/-- The keys of a list that `preloadMultiple` is to request, in the words of
the description: non-empty and neither cached, nor loading, nor queued in
`s`. -/
def needsRequest (s : State) (k : String) : Bool :=
  decide (k ≠ "" ∧ isCached s k = false ∧ isLoading s k = false ∧ isQueued s k = false)

/-- The entries `loadVideo` passes to `state.cache.set`, in order: the
placeholder of line 87 and the entry of line 117. -/
def storedEntries (s : State) (url : String) : List Entry :=
  (mapGet (loadVideoBegin s url).cache url).toList ++ [(loadVideoCore s url).2]

/-- An element that never buffers: no buffered range, `readyState` 0. -/
def neverBuffers : Media ℚ :=
  { currentTime := none, buffered := some [], readyState := 0 }

/-- Polls every `bufferCheckInterval` (30 ms) after a wait begun at clock
reading 0, the element never buffering: the first `n` of them. -/
def pollsEvery30 (n : Nat) : List (Nat × Media ℚ) :=
  (List.range n).map (fun j => (30 * (j + 1), neverBuffers))

/-! ## Idle preloading and timers -/

/-- What a pending timer runs: `startIdlePreload`, or the closure of lines
308-312 for one url. -/
inductive Callback where
  | startIdlePreload
  | submission (url : String)
  deriving DecidableEq, Repr

/-- A pending `setTimeout`: its id, the clock reading at which it is due and
its callback. -/
structure Timer where
  id : Nat
  due : Nat
  callback : Callback
  deriving DecidableEq, Repr

/-- The module state together with the pending timers and
`window.projectVideoRegistry` (the urls of its values, `none` when it is not
defined).  `submitted` logs the `cacheVideo` calls made by fired
submissions. -/
structure World where
  state : State
  timers : List Timer
  nextTimerId : Nat
  registry : Option (List String)
  submitted : List String
  deriving DecidableEq, Repr

/-- `setTimeout(callback, delay)`: the new world and the id returned. -/
def setTimeout (w : World) (callback : Callback) (delay : Nat) : World × Nat :=
  ({ w with
     timers := w.timers ++ [{ id := w.nextTimerId, due := w.state.now + delay,
                              callback := callback }]
     nextTimerId := w.nextTimerId + 1 }, w.nextTimerId)

/-- `clearTimeout(id)`. -/
def clearTimeout (w : World) (id : Nat) : World :=
  { w with timers := w.timers.filter (fun t => decide (t.id ≠ id)) }

/-- `markInteraction` (lines 285-294). -/
def markInteraction (cfg : Config) (w : World) : World :=
  let w1 : World :=
    { w with state := { w.state with lastInteraction := w.state.now,
                                     isIdlePreloading := false } }
  let w2 : World :=
    match w1.state.idleTimer with
    | some id => if id ≠ 0 then clearTimeout w1 id else w1
    | none => w1
  let r := setTimeout w2 Callback.startIdlePreload cfg.idleDelay
  { r.1 with state := { r.1.state with idleTimer := some r.2 } }

/-- The `forEach` of lines 307-313: one timer per url, `index * 500` ms
out. -/
def scheduleSubmissions (w : World) (uncached : List String) : World :=
  uncached.enum.foldl (fun v p => (setTimeout v (Callback.submission p.2) (p.1 * 500)).1) w

/-- `startIdlePreload` (lines 296-314). -/
def startIdlePreload (w : World) : World :=
  if w.state.isIdlePreloading then w
  else
    let w1 : World := { w with state := { w.state with isIdlePreloading := true } }
    match w1.registry with
    | none => w1
    | some allUrls =>
        let uncached := allUrls.filter
          (fun url => !isCached w1.state url && !isLoading w1.state url)
        if uncached.length = 0 then w1 else scheduleSubmissions w1 uncached

/-- The body of a timer callback. -/
def runCallback (cfg : Config) (w : World) : Callback → World
  | .startIdlePreload => startIdlePreload w
  | .submission url =>
      if w.state.isIdlePreloading && !isCached w.state url then
        { w with state := (cacheVideo cfg w.state url "normal").1
                 submitted := w.submitted ++ [url] }
      else w

/-- What can happen to the module: an activity event, a pending timer that is
due fires, a call of the public interface, or `preloadAround`. -/
inductive Step where
  | markInteraction
  | fire (t : Timer)
  | call (op : Op)
  | preloadAround (urls : List String) (currentIndex : Int) (ahead behind : Nat)
  deriving DecidableEq, Repr

/-- The world after one step.  A timer fires only if it is pending and due. -/
def Step.apply (cfg : Config) (w : World) : Step → World
  | .markInteraction => VideoCache.markInteraction cfg w
  | .fire t =>
      if t ∈ w.timers ∧ t.due ≤ w.state.now then
        runCallback cfg { w with timers := w.timers.erase t } t.callback
      else w
  | .call op => { w with state := op.apply cfg w.state }
  | .preloadAround urls currentIndex ahead behind =>
      { w with state := VideoCache.preloadAround cfg w.state urls currentIndex ahead behind }

/-- The world after a sequence of steps, first step first. -/
def runSteps (cfg : Config) (steps : List Step) (w : World) : World :=
  steps.foldl (Step.apply cfg) w

/-- The world when `init()` has run (lines 376-409): `setupIdleDetection` has
started the first idle countdown. -/
def World.init (cfg : Config) (registry : Option (List String)) : World :=
  { state := { VideoCache.init with idleTimer := some 1 }
    timers := [{ id := 1, due := cfg.idleDelay, callback := Callback.startIdlePreload }]
    nextTimerId := 2
    registry := registry
    submitted := [] }

/-- The step is the expiry of an idle countdown. -/
def Step.isIdleExpiry : Step → Bool
  | .fire t => decide (t.callback = Callback.startIdlePreload)
  | _ => false

/-- Every stored `blobUrl` is null or the key it is stored under. -/
def BlobInv (s : State) : Prop :=
  ∀ p ∈ s.cache, p.2.blobUrl = none ∨ p.2.blobUrl = some p.1

/-- The steps of the stale-submission run, registry `[a, b, c]`.  At 500 ms
the first countdown expires and schedules `a`, `b`, `c` (timers 2, 3, 4); an
interaction follows at once (timer 5); the timers of `a` and `b` fire while
the scheduler is active; at 1000 ms the countdown expires again and schedules
anew (timers 6, 7, 8), and the new timer of `a` fires. -/
def staleRun : List Step :=
  [Step.call (Op.tick 500),
   Step.fire { id := 1, due := 500, callback := Callback.startIdlePreload },
   Step.markInteraction,
   Step.fire { id := 2, due := 500, callback := Callback.submission "a" },
   Step.call (Op.tick 500),
   Step.fire { id := 3, due := 1000, callback := Callback.submission "b" },
   Step.fire { id := 5, due := 1000, callback := Callback.startIdlePreload },
   Step.fire { id := 6, due := 1000, callback := Callback.submission "a" },
   Step.call (Op.tick 500)]

/-- The timer scheduled for `c` by the first expiry, before the
interaction. -/
def staleTimer : Timer :=
  { id := 4, due := 1500, callback := Callback.submission "c" }

end VideoCache

namespace ProjectPlayer

/-! ## Project player (src/projectPlayer.js): navigation and prefetch -/

/-- `CONFIG.preload` (projectPlayer.js lines 9-13). -/
structure Preload where
  ahead : Nat
  behind : Nat
  backgroundDelay : Nat
  deriving DecidableEq, Repr

/-- `CONFIG` of projectPlayer.js (lines 4-14). -/
structure Config where
  projectBasePath : String
  controlsTimeout : Nat
  autoplayWithSound : Bool
  unmuteDelay : Nat
  preload : Preload
  deriving DecidableEq, Repr

/-- The constant `CONFIG` of projectPlayer.js. -/
def CONFIG : Config :=
  { projectBasePath := "/projects"
    controlsTimeout := 1700
    autoplayWithSound := true
    unmuteDelay := 50
    preload := { ahead := 3, behind := 1, backgroundDelay := 100 } }

/-- `projects.indexOf(slug)`: the first position, `-1` when absent. -/
def indexOf (projects : List String) (slug : String) : Int :=
  if slug ∈ projects then (projects.indexOf slug : Int) else -1

/-- The template `${CONFIG.projectBasePath}/${slug}` with `slug` read from the
array; an `undefined` slug prints as `undefined`. -/
def pageUrl (cfg : Config) (slug : Option String) : String :=
  cfg.projectBasePath ++ "/" ++ slug.getD "undefined"

/-- `prevIndex` of `setupNavigation` (line 689). -/
def prevIndex (currentIndex length : Int) : Int :=
  if currentIndex > 0 then currentIndex - 1 else length - 1

/-- `nextIndex` of `setupNavigation` (line 698). -/
def nextIndex (currentIndex length : Int) : Int :=
  if currentIndex < length - 1 then currentIndex + 1 else 0

/-- The hrefs `setupNavigation` gives the previous and the next button, both
present, for a current index; `none` when the buttons are hidden. -/
def navHrefs (cfg : Config) (projects : List String) (currentIndex : Int) :
    Option String × Option String :=
  if projects.length = 0 ∨ currentIndex = -1 then (none, none)
  else
    (some (pageUrl cfg (VideoCache.arrayAt projects (prevIndex currentIndex projects.length))),
     some (pageUrl cfg (VideoCache.arrayAt projects (nextIndex currentIndex projects.length))))

/-- `setupNavigation` (lines 673-705). -/
def setupNavigation (cfg : Config) (projects : List String) (currentSlug : String) :
    Option String × Option String :=
  navHrefs cfg projects (indexOf projects currentSlug)

/-- The index of the ahead loop of `preloadAdjacentProjects` (line 762); `%`
is the remainder of JavaScript, with the sign of the dividend. -/
def aheadIndex (currentIndex length : Int) (i : Nat) : Int :=
  (currentIndex + (i : Int)).tmod length

/-- The index of the behind loop of `preloadAdjacentProjects` (line 775). -/
def behindIndex (currentIndex length : Int) (i : Nat) : Int :=
  (currentIndex - (i : Int) + length).tmod length

/-- The indices the two loops compute, ahead loop first. -/
def loopIndices (cfg : Config) (currentIndex length : Int) : List Int :=
  (List.range' 1 cfg.preload.ahead).map (fun (i : Nat) => aheadIndex currentIndex length i) ++
    (List.range' 1 cfg.preload.behind).map (fun (i : Nat) => behindIndex currentIndex length i)

/-- The array `pagesToPrefetch` of `preloadAdjacentProjects` (lines 750-789)
for a current index: every element is passed to `prefetchPage`. -/
def pagesFor (cfg : Config) (projects : List String) (currentIndex : Int) : List String :=
  if currentIndex = -1 ∨ projects.length = 0 then []
  else
    (loopIndices cfg currentIndex projects.length).map
      (fun index => pageUrl cfg (VideoCache.arrayAt projects index))

/-- `pagesToPrefetch` as `preloadAdjacentProjects` computes it from the
current slug. -/
def pagesToPrefetch (cfg : Config) (projects : List String) (currentSlug : String) :
    List String :=
  pagesFor cfg projects (indexOf projects currentSlug)

end ProjectPlayer

namespace HomeHero

/-! ## Home hero (src/homeHero.js): category sort order -/

/-- A project item of the list: `el` is the identity of the DOM element,
`dataset` its `data-*` attributes by property name. -/
structure Item where
  el : Nat
  dataset : List (String × String)
  deriving DecidableEq, Repr

/-- The read `item.dataset[attrName]`: `undefined` when the attribute is not
there. -/
def datasetGet (item : Item) (attrName : String) : Option String :=
  item.dataset.lookup attrName

/-- `getProjectOrder` (lines 816-826).  The two string builtins it goes through
are arguments: `getOrderAttributeName` (lines 809-814, `toLowerCase`, `replace`
and `toUpperCase` on the tag) and `parseInt(·, 10)`, which gives `none` for
`NaN`.  A missing or empty value gives 9999, and so does `parseInt(..) || 9999`
when the number is `NaN` or 0. -/
def getProjectOrder (getOrderAttributeName : String → String)
    (parseInt : String → Option Int) (item : Item) (filterTag : String) : Int :=
  let attrName := getOrderAttributeName filterTag
  match datasetGet item attrName with
  | none => 9999
  | some orderValue =>
    if orderValue = "" then 9999
    else
      match parseInt orderValue with
      | none => 9999
      | some n => if n = 0 then 9999 else n

/-- The comparator of `sortProjectsByOrder` says "a before or equal b" when
`orderA - orderB <= 0`. -/
def orderLe (getOrderAttributeName : String → String) (parseInt : String → Option Int)
    (filterTag : String) (a b : Item) : Prop :=
  getProjectOrder getOrderAttributeName parseInt a filterTag
    - getProjectOrder getOrderAttributeName parseInt b filterTag ≤ 0

instance (g : String → String) (p : String → Option Int) (tag : String) :
    DecidableRel (orderLe g p tag) :=
  fun _ _ => inferInstanceAs (Decidable (_ ≤ _))

/-- `Array.prototype.sort(compare)`: sorts the receiver in place, stably, and
returns it.  The pair is (the receiver afterwards, the array returned). -/
def arraySort {α : Type} (le : α → α → Prop) [DecidableRel le] (receiver : List α) :
    List α × List α :=
  (receiver.insertionSort le, receiver.insertionSort le)

/-- What `sortProjectsByOrder` leaves and returns. -/
structure Sorted where
  /-- The caller's array after the call. -/
  projects : List Item
  /-- The array returned. -/
  result : List Item
  deriving DecidableEq, Repr

/-- `sortProjectsByOrder` (lines 828-834): `[...projects]` is a fresh array and
it is that array which `sort` receives. -/
def sortProjectsByOrder (getOrderAttributeName : String → String)
    (parseInt : String → Option Int) (projects : List Item) (filterTag : String) : Sorted :=
  let copy := projects
  { projects := projects
    result := (arraySort (orderLe getOrderAttributeName parseInt filterTag) copy).2 }

/-- The white space of ECMAScript, which `\s` matches and `parseInt` skips:
tab, line feed, vertical tab, form feed, carriage return, space, U+00A0,
U+1680, U+2000 to U+200A, U+2028, U+2029, U+202F, U+205F, U+3000, U+FEFF. -/
def jsWhiteSpace (c : Char) : Bool :=
  let n := c.toNat
  (decide (9 ≤ n) && decide (n ≤ 13)) || n == 32 || n == 160 || n == 5760
    || (decide (8192 ≤ n) && decide (n ≤ 8202)) || n == 8232 || n == 8233 || n == 8239
    || n == 8287 || n == 12288 || n == 65279

/-- `s.replace(/\s+/g, '-')` on a list of characters: every run of white space
becomes one `-`; `inRun` says that the character before was white space. -/
def replaceSpaces (inRun : Bool) : List Char → List Char
  | [] => []
  | c :: cs =>
    if jsWhiteSpace c then
      if inRun then replaceSpaces true cs else '-' :: replaceSpaces true cs
    else c :: replaceSpaces false cs

/-- `getOrderAttributeName` (lines 809-814) on a tag whose letters are ASCII
(`toLowerCase` and `toUpperCase` change only `A`-`Z` and `a`-`z` here). -/
def asciiOrderAttributeName (filterTag : String) : String :=
  let normalized := replaceSpaces false (filterTag.data.map Char.toLower)
  String.mk ("order".data ++
    (match normalized with
     | [] => []
     | c :: cs => c.toUpper :: cs))

/-- The value of a list of decimal digits. -/
def digitsValue (ds : List Char) : Nat :=
  ds.foldl (fun n c => 10 * n + (c.toNat - 48)) 0

/-- `parseInt(s, 10)`: leading white space, an optional sign, the longest run
of digits; `none` (`NaN`) when there is no digit.  The value is the exact
integer, which is what `parseInt` returns as long as a double holds it exactly
(up to 2^53 in size). -/
def parseIntDecimal (s : String) : Option Int :=
  let cs := s.data.dropWhile jsWhiteSpace
  let signed : Bool × List Char :=
    match cs with
    | '-' :: rest => (true, rest)
    | '+' :: rest => (false, rest)
    | rest => (false, rest)
  let ds := signed.2.takeWhile Char.isDigit
  if ds = [] then none
  else if signed.1 then some (-(digitsValue ds : Int)) else some (digitsValue ds : Int)

/-- A project with no order attribute. -/
def itemUnordered : Item := { el := 1, dataset := [("projectName", "a")] }

/-- A project with `data-order-selected="10000"`. -/
def itemLate : Item := { el := 2, dataset := [("orderSelected", "10000")] }

/-- A project with `data-order-selected="2"`. -/
def itemSecond : Item := { el := 3, dataset := [("orderSelected", "2")] }

/-- A project with `data-order-selected="0"`. -/
def itemZero : Item := { el := 4, dataset := [("orderSelected", "0")] }

end HomeHero

namespace BtsPopup

/-! ## Behind-the-scenes popup (src/btsPopup.js): the grid of `populateGrid` -/

/-- The fields of `CONFIG` (btsPopup.js lines 4-13) that `populateGrid` reads;
the others are animation settings. -/
structure Config where
  columns : Nat
  minImages : Nat
  deriving DecidableEq, Repr

/-- The constant `CONFIG` of btsPopup.js. -/
def CONFIG : Config := { columns := 5, minImages := 15 }

/-- The `for` loop of `populateGrid` (lines 75-81) from its index `i` on:
`rest` is `sourceImages` from position `i`.  Each round pushes one image and
breaks when the length is at least `minImages` and a multiple of `columns`. -/
def forLoop {α : Type} (cfg : Config) : List α → List α → List α
  | [], imagesToUse => imagesToUse
  | img :: rest, imagesToUse =>
    let pushed := imagesToUse ++ [img]
    if cfg.minImages ≤ pushed.length ∧ pushed.length % cfg.columns = 0 then pushed
    else forLoop cfg rest pushed

/-- The `while` loop of `populateGrid` (lines 74-82); `fuel` bounds the number
of times its condition is tested, `none` when that is not enough. -/
def whileLoop {α : Type} (cfg : Config) (sourceImages : List α) :
    Nat → List α → Option (List α)
  | 0, _ => none
  | fuel + 1, imagesToUse =>
    if imagesToUse.length < cfg.minImages ∨ imagesToUse.length % cfg.columns ≠ 0 then
      whileLoop cfg sourceImages fuel (forLoop cfg sourceImages imagesToUse)
    else some imagesToUse

/-- The array `imagesToUse` of `populateGrid` after the padding (lines 72-82):
it starts as the copy `[...sourceImages]`. -/
def imagesToUse {α : Type} (cfg : Config) (sourceImages : List α) (fuel : Nat) :
    Option (List α) :=
  whileLoop cfg sourceImages fuel sourceImages

/-- The length test of the `break`: at least `minImages` and a multiple of
`columns`. -/
def fullGrid (cfg : Config) (len : Nat) : Prop :=
  cfg.minImages ≤ len ∧ len % cfg.columns = 0

/-- Position `i` of `imagesToUse` holds the source image at `i mod n`. -/
def Cyclic {α : Type} (sourceImages imagesToUse : List α) : Prop :=
  ∀ i, i < imagesToUse.length → imagesToUse[i]? = sourceImages[i % sourceImages.length]?

end BtsPopup

namespace PopupManager

/-! ## Popup manager (src/popupManager.js): popups, overlay and transition timers -/

/-- `CONFIG` of popupManager.js (lines 4-7). -/
structure Config where
  transitionDuration : Nat
  closeText : String
  deriving DecidableEq, Repr

/-- The constant `CONFIG` of popupManager.js. -/
def CONFIG : Config := { transitionDuration := 150, closeText := "Close" }

/-- What the code looks up in the document: the names that have an element
`[data-popup-target="name"]`, and whether `elements.overlay` is an element. -/
structure Page where
  popupTargets : List String
  overlay : Bool
  deriving DecidableEq, Repr

/-- The callback handed to `setTimeout` by `openPopup` (lines 206-208) and by
`closePopup` (lines 239-247, it captures `isSwitch`). -/
inductive Callback where
  | opened
  | closed (isSwitch : Bool)
  deriving DecidableEq, Repr

/-- The `state` object (lines 9-17) with the class `is-active` of the overlay
element and the pending transition timers.  All timers have the delay
`CONFIG.transitionDuration`, so they expire in the sequence they were set.
A toggle element is its identity; `none` is `null`. -/
structure State where
  activePopup : Option String
  isAnimating : Bool
  activeToggleElement : Option Nat
  mobileMenuToggle : Option Nat
  overlayActive : Bool
  timers : List Callback
  deriving DecidableEq, Repr

/-- The state after `init()` on a page whose overlay is hidden. -/
def init : State :=
  { activePopup := none, isAnimating := false, activeToggleElement := none,
    mobileMenuToggle := none, overlayActive := false, timers := [] }

/-- Truthiness of `state.activePopup`: `null` and the empty string are falsy. -/
def truthy : Option String → Bool
  | none => false
  | some s => s != ""

/-- Whether `getPopupTarget(name)` (lines 41-43) finds an element. -/
def getPopupTarget (page : Page) (name : String) : Bool :=
  decide (name ∈ page.popupTargets)

/-- `showOverlay` (lines 86-91), the class of the overlay. -/
def showOverlay (page : Page) (s : State) : State :=
  if page.overlay then { s with overlayActive := true } else s

/-- `hideOverlay` (lines 93-98), the class of the overlay. -/
def hideOverlay (page : Page) (s : State) : State :=
  if page.overlay then { s with overlayActive := false } else s

/-- `openPopup(name, toggle, isSwitch)` (lines 151-209). -/
def openPopup (page : Page) (s : State) (name : String) (toggle : Option Nat)
    (isSwitch : Bool) : State :=
  if s.isAnimating then s
  else if s.activePopup = some name then s
  else if !getPopupTarget page name then s
  else
    let previousPopup := s.activePopup
    let s1 : State :=
      { s with
        isAnimating := true
        activePopup := some name
        activeToggleElement := toggle
        mobileMenuToggle := if name = "mobile-menu" then toggle else s.mobileMenuToggle }
    let needsOverlay : Bool := name != "bts"
    let previousHadOverlay : Bool := truthy previousPopup && previousPopup != some "bts"
    let s2 : State :=
      if isSwitch then
        if needsOverlay && !previousHadOverlay then showOverlay page s1
        else if !needsOverlay && previousHadOverlay then hideOverlay page s1
        else s1
      else
        if needsOverlay then showOverlay page s1 else s1
    { s2 with timers := s2.timers ++ [Callback.opened] }

/-- `closePopup(name, isSwitch)` (lines 211-248). -/
def closePopup (page : Page) (s : State) (name : String) (isSwitch : Bool) : State :=
  if s.isAnimating then s
  else if !getPopupTarget page name then s
  else
    let s1 : State := { s with isAnimating := true }
    let s2 : State :=
      if !isSwitch then
        if name != "bts" then hideOverlay page s1 else s1
      else s1
    { s2 with timers := s2.timers ++ [Callback.closed isSwitch] }

/-- `closeActivePopup` (lines 250-254). -/
def closeActivePopup (page : Page) (s : State) : State :=
  match s.activePopup with
  | some name => if truthy (some name) then closePopup page s name false else s
  | none => s

/-- `togglePopup(name, newToggle)` (lines 256-280). -/
def togglePopup (page : Page) (s : State) (name : String) (newToggle : Option Nat) :
    State :=
  if s.activePopup = some name then closePopup page s name false
  else if truthy s.activePopup then openPopup page s name newToggle true
  else openPopup page s name newToggle false

/-- The body of a timer callback. -/
def runCallback (s : State) : Callback → State
  | Callback.opened => { s with isAnimating := false }
  | Callback.closed isSwitch =>
    let s1 : State :=
      if !isSwitch then
        { s with activePopup := none, activeToggleElement := none, mobileMenuToggle := none }
      else s
    { s1 with isAnimating := false }

/-- What can happen to the popup manager: a call of `togglePopup`, a call of
`closeActivePopup`, the expiry of the oldest pending transition timer. -/
inductive Event where
  | togglePopup (name : String) (newToggle : Option Nat)
  | closeActivePopup
  | expire
  deriving DecidableEq, Repr

/-- One event. -/
def step (page : Page) (s : State) : Event → State
  | Event.togglePopup name newToggle => togglePopup page s name newToggle
  | Event.closeActivePopup => closeActivePopup page s
  | Event.expire =>
    match s.timers with
    | [] => s
    | callback :: rest => runCallback { s with timers := rest } callback

/-- A sequence of events from a state. -/
def run (page : Page) (s : State) (events : List Event) : State :=
  events.foldl (step page) s

/-- A page with an overlay and three popups, one of which has the empty
name (`data-popup-target=""`). -/
def emptyNamePage : Page := { popupTargets := ["", "bts", "info"], overlay := true }

/-- A page with two popups and no overlay element (`elements.overlay` is
`null`). -/
def noOverlayPage : Page := { popupTargets := ["bts", "info"], overlay := false }

/-- A page with two popups and an overlay element. -/
def overlayPage : Page := { popupTargets := ["bts", "info"], overlay := true }

/-- Open the popup with the empty name, let the transition end, toggle `bts`,
let the transition end. -/
def emptyNameRun : List Event :=
  [Event.togglePopup "" (some 1), Event.expire, Event.togglePopup "bts" (some 2), Event.expire]

/-- The overlay matches the popup, and the transition timers match
`state.isAnimating`: nothing pending when idle, one `opened` timer after
`openPopup`, one `closed` timer (with the overlay already hidden) after
`closePopup`. -/
def OverlayInv (s : State) : Prop :=
  s.activePopup ≠ some ""
    ∧ ((s.isAnimating = false ∧ s.timers = []
          ∧ (s.overlayActive = true ↔ ∃ n, s.activePopup = some n ∧ n ≠ "bts"))
      ∨ (s.isAnimating = true ∧ s.timers = [Callback.opened]
          ∧ (s.overlayActive = true ↔ ∃ n, s.activePopup = some n ∧ n ≠ "bts"))
      ∨ (s.isAnimating = true ∧ s.timers = [Callback.closed false]
          ∧ s.overlayActive = false))

end PopupManager

namespace VideoCache

/-! ## Map and Set facts -/

theorem mapGet_mapSet_self (m : List (String × Entry)) (k : String) (e : Entry) :
    mapGet (mapSet m k e) k = some e := by
  induction m with
  | nil => simp [mapSet, mapGet]
  | cons p rest ih =>
    obtain ⟨a, v⟩ := p
    by_cases h : a = k
    · simp [mapSet, mapGet, h]
    · simp [mapSet, mapGet, h, ih]

theorem mapGet_mapSet_ne (m : List (String × Entry)) (k u : String) (e : Entry)
    (h : k ≠ u) : mapGet (mapSet m k e) u = mapGet m u := by
  induction m with
  | nil => simp [mapSet, mapGet, h]
  | cons p rest ih =>
    obtain ⟨a, v⟩ := p
    by_cases h1 : a = k
    · subst h1
      simp [mapSet, mapGet, h]
    · by_cases h2 : a = u
      · subst h2
        simp [mapSet, mapGet, h1]
      · simp [mapSet, mapGet, h1, h2, ih]

theorem mapGet_eq_none_iff (m : List (String × Entry)) (k : String) :
    mapGet m k = none ↔ k ∉ m.map Prod.fst := by
  induction m with
  | nil => simp [mapGet]
  | cons p rest ih =>
    obtain ⟨a, v⟩ := p
    by_cases h : a = k
    · simp [mapGet, h]
    · have h' : ¬ k = a := fun hh => h hh.symm
      simp [mapGet, h, h', ih]

theorem mapGet_some_mem {m : List (String × Entry)} {k : String} {e : Entry}
    (h : mapGet m k = some e) : (k, e) ∈ m := by
  induction m with
  | nil => simp [mapGet] at h
  | cons p rest ih =>
    obtain ⟨a, v⟩ := p
    by_cases h1 : a = k
    · simp [mapGet, h1] at h
      simp [h1, h]
    · simp [mapGet, h1] at h
      exact List.mem_cons_of_mem _ (ih h)

theorem mem_mapGet_of_nodup {m : List (String × Entry)} {k : String} {e : Entry}
    (hn : (m.map Prod.fst).Nodup) (h : (k, e) ∈ m) : mapGet m k = some e := by
  induction m with
  | nil => simp at h
  | cons p rest ih =>
    obtain ⟨a, v⟩ := p
    simp only [List.map_cons, List.nodup_cons] at hn
    rcases List.mem_cons.1 h with h1 | h1
    · cases h1
      simp [mapGet]
    · have hne : a ≠ k := by
        intro hak
        subst hak
        exact hn.1 (List.mem_map.2 ⟨(a, e), h1, rfl⟩)
      simp [mapGet, hne, ih hn.2 h1]

theorem mapSet_keys_of_mem (m : List (String × Entry)) (k : String) (e : Entry)
    (h : k ∈ m.map Prod.fst) : (mapSet m k e).map Prod.fst = m.map Prod.fst := by
  induction m with
  | nil => simp at h
  | cons p rest ih =>
    obtain ⟨a, v⟩ := p
    by_cases h1 : a = k
    · simp [mapSet, h1]
    · have : k ∈ rest.map Prod.fst := by
        simp only [List.map_cons, List.mem_cons] at h
        rcases h with h | h
        · exact absurd h.symm h1
        · exact h
      simp [mapSet, h1, ih this]

theorem mapSet_of_not_mem (m : List (String × Entry)) (k : String) (e : Entry)
    (h : k ∉ m.map Prod.fst) : mapSet m k e = m ++ [(k, e)] := by
  induction m with
  | nil => simp [mapSet]
  | cons p rest ih =>
    obtain ⟨a, v⟩ := p
    simp only [List.map_cons, List.mem_cons, not_or] at h
    have h1 : a ≠ k := fun hh => h.1 hh.symm
    simp [mapSet, h1, ih h.2]

theorem mapSet_mapSet (m : List (String × Entry)) (k : String) (e1 e2 : Entry) :
    mapSet (mapSet m k e1) k e2 = mapSet m k e2 := by
  induction m with
  | nil => simp [mapSet]
  | cons p rest ih =>
    obtain ⟨a, v⟩ := p
    by_cases h1 : a = k
    · simp [mapSet, h1]
    · simp [mapSet, h1, ih]

theorem mem_mapSet {m : List (String × Entry)} {k : String} {e : Entry}
    {p : String × Entry} (h : p ∈ mapSet m k e) : p ∈ m ∨ p = (k, e) := by
  induction m with
  | nil => simpa [mapSet] using h
  | cons q rest ih =>
    obtain ⟨a, v⟩ := q
    by_cases h1 : a = k
    · simp only [mapSet, h1, if_true, List.mem_cons] at h
      rcases h with h | h
      · exact Or.inr h
      · exact Or.inl (List.mem_cons_of_mem _ h)
    · simp only [mapSet, h1, if_false, List.mem_cons] at h
      rcases h with h | h
      · exact Or.inl (by simp [h])
      · rcases ih h with h2 | h2
        · exact Or.inl (List.mem_cons_of_mem _ h2)
        · exact Or.inr h2

theorem setDelete_setAdd (l : List String) (u : String) (h : u ∉ l) :
    setDelete (setAdd l u) u = l := by
  simp only [setAdd, h, if_false, setDelete, List.filter_append]
  have : l.filter (fun x => decide (x ≠ u)) = l := by
    apply List.filter_eq_self.2
    intro a ha
    simp only [ne_eq, decide_not, Bool.not_eq_eq_eq_not, Bool.not_true, decide_eq_false_iff_not]
    exact fun hh => h (hh ▸ ha)
  simp only [this, List.filter_cons, List.filter_nil]
  simp

theorem setAdd_length_le (l : List String) (u : String) :
    (setAdd l u).length ≤ l.length + 1 := by
  unfold setAdd
  split <;> simp

theorem setDelete_length_le (l : List String) (u : String) :
    (setDelete l u).length ≤ l.length := by
  unfold setDelete
  exact List.length_filter_le _ _

theorem setDelete_setAdd_length_le (l : List String) (u : String) :
    (setDelete (setAdd l u) u).length ≤ l.length := by
  by_cases h : u ∈ l
  · simp only [setAdd, h, if_true]
    exact setDelete_length_le l u
  · rw [setDelete_setAdd l u h]

/-! ## `loadVideo` without its final drain -/

/-- The ready entry `loadVideo` stores and returns. -/
theorem loadVideoCore_entry (s : State) (u : String) :
    (loadVideoCore s u).2 =
      { oid := s.nextId + 1, blobUrl := some u, video := some (createVideo u),
        status := "ready", timestamp := s.now } := rfl

theorem loadVideoCore_queue (s : State) (u : String) :
    (loadVideoCore s u).1.queue = s.queue := rfl

theorem loadVideoCore_queueTier (s : State) (u : String) :
    (loadVideoCore s u).1.queueTier = s.queueTier := rfl

theorem loadVideoCore_now (s : State) (u : String) :
    (loadVideoCore s u).1.now = s.now := rfl

theorem loadVideoCore_nextId (s : State) (u : String) :
    (loadVideoCore s u).1.nextId = s.nextId + 2 := rfl

theorem loadVideoCore_loading (s : State) (u : String) :
    (loadVideoCore s u).1.loading = setDelete (setAdd s.loading u) u := rfl

theorem loadVideoCore_events (s : State) (u : String) :
    (loadVideoCore s u).1.events =
      s.events ++ [Event.loadStart u (setAdd s.loading u).length,
        Event.loadDone u (setDelete (setAdd s.loading u) u).length] := by
  simp [loadVideoCore, loadVideoReady, loadVideoBegin]

theorem loadVideoCore_cache (s : State) (u : String) :
    (loadVideoCore s u).1.cache = mapSet s.cache u (loadVideoCore s u).2 := by
  simp [loadVideoCore, loadVideoReady, loadVideoBegin, mapSet_mapSet]

theorem loadVideoCore_loading_of_not_mem (s : State) (u : String) (h : u ∉ s.loading) :
    (loadVideoCore s u).1.loading = s.loading := by
  rw [loadVideoCore_loading, setDelete_setAdd _ _ h]

theorem loadVideoCore_isCached (s : State) (u : String) :
    isCached (loadVideoCore s u).1 u = true := by
  simp [isCached, loadVideoCore_cache, mapGet_mapSet_self, loadVideoCore_entry]

theorem loadVideoCore_mapGet_ne (s : State) (u v : String) (h : u ≠ v) :
    mapGet (loadVideoCore s u).1.cache v = mapGet s.cache v := by
  rw [loadVideoCore_cache, mapGet_mapSet_ne _ _ _ _ h]

theorem loadVideoCore_isCached_ne (s : State) (u v : String) (h : u ≠ v) :
    isCached (loadVideoCore s u).1 v = isCached s v := by
  simp [isCached, loadVideoCore_mapGet_ne s u v h]

theorem loads_loadVideoCore (s : State) (u : String) :
    loads (loadVideoCore s u).1 = loads s ++ [u] := by
  simp [loads, loadVideoCore_events, List.filterMap_append]

/-! ## The drain terminates -/

theorem loadVideoWith_eq_some {drain : State → Option State} {s : State} {u : String}
    {r : State × Entry} (h : loadVideoWith drain s u = some r) :
    drain (loadVideoCore s u).1 = some r.1 ∧ r.2 = (loadVideoCore s u).2 := by
  unfold loadVideoWith at h
  cases hd : drain (loadVideoCore s u).1 with
  | none => simp [hd] at h
  | some t =>
    simp only [hd, Option.some.injEq] at h
    subst h
    exact ⟨rfl, rfl⟩

theorem loadVideoWith_of_some {drain : State → Option State} {s t : State} {u : String}
    (h : drain (loadVideoCore s u).1 = some t) :
    loadVideoWith drain s u = some (t, (loadVideoCore s u).2) := by
  simp [loadVideoWith, h]

/-- Unfolding of one round of the bounded drain. -/
theorem processQueueFuel_succ (cfg : Config) (fuel : Nat) (s : State) :
    processQueueFuel cfg (fuel + 1) s =
      match s.queue with
      | [] => some s
      | url :: _ =>
          if s.loading.length < cfg.maxConcurrentLoads then
            let s1 := shiftQueue s
            if !isCached s1 url && !isLoading s1 url then
              match loadVideoWith (processQueueFuel cfg fuel) s1 url with
              | some r => processQueueFuel cfg fuel r.1
              | none => none
            else processQueueFuel cfg fuel s1
          else some s := rfl

/-- A property kept by dequeuing and by each guarded load is kept by the
whole drain. -/
theorem processQueueFuel_preserves (cfg : Config) (P : State → Prop)
    (hshift : ∀ s url rest, P s → s.queue = url :: rest →
      s.loading.length < cfg.maxConcurrentLoads →
      P (shiftQueue s))
    (hload : ∀ s url, P s → s.loading.length < cfg.maxConcurrentLoads →
      isCached s url = false → isLoading s url = false → P (loadVideoCore s url).1) :
    ∀ (fuel : Nat) (s t : State), processQueueFuel cfg fuel s = some t → P s → P t := by
  intro fuel
  induction fuel with
  | zero => intro s t h; simp [processQueueFuel] at h
  | succ fuel ih =>
    intro s t h hP
    rw [processQueueFuel_succ] at h
    cases hq : s.queue with
    | nil =>
      simp only [hq, Option.some.injEq] at h
      exact h ▸ hP
    | cons url rest =>
      simp only [hq] at h
      by_cases hlt : s.loading.length < cfg.maxConcurrentLoads
      · simp only [hlt, if_true] at h
        have hP1 := hshift s url rest hP hq hlt
        split at h
        · rename_i hguard
          simp only [Bool.and_eq_true, Bool.not_eq_true'] at hguard
          cases hl : loadVideoWith (processQueueFuel cfg fuel)
              (shiftQueue s) url with
          | none => simp [hl] at h
          | some r =>
            simp only [hl] at h
            have h2 := (loadVideoWith_eq_some hl).1
            have hP2 := hload _ url hP1 hlt hguard.1 hguard.2
            exact ih _ _ h (ih _ _ h2 hP2)
        · exact ih _ _ h hP1
      · simp only [hlt, if_false, Option.some.injEq] at h
        exact h ▸ hP

/-- With more iterations allowed than the queue has elements the drain
returns, and the queue it leaves is no longer than before. -/
theorem processQueueFuel_isSome (cfg : Config) :
    ∀ (fuel : Nat) (s : State), s.queue.length < fuel →
      ∃ t, processQueueFuel cfg fuel s = some t ∧ t.queue.length ≤ s.queue.length := by
  intro fuel
  induction fuel with
  | zero => intro s h; exact absurd h (Nat.not_lt_zero _)
  | succ fuel ih =>
    intro s hlen
    rw [processQueueFuel_succ]
    cases hq : s.queue with
    | nil => exact ⟨s, rfl, by simp [hq]⟩
    | cons url rest =>
      have hsq : (shiftQueue s).queue = rest := by simp [shiftQueue, hq]
      have hrest : (shiftQueue s).queue.length < fuel := by
        rw [hsq]
        rw [hq] at hlen
        simpa using hlen
      have hstep : (shiftQueue s).queue.length ≤ rest.length + 1 := by
        rw [hsq]
        exact Nat.le_succ _
      by_cases hlt : s.loading.length < cfg.maxConcurrentLoads
      · simp only [hlt, if_true]
        split
        · obtain ⟨t1, ht1, hlen1⟩ := ih
            (loadVideoCore (shiftQueue s) url).1
            (by rw [loadVideoCore_queue]; exact hrest)
          rw [loadVideoCore_queue] at hlen1
          rw [loadVideoWith_of_some ht1]
          obtain ⟨t2, ht2, hlen2⟩ := ih t1 (lt_of_le_of_lt hlen1 hrest)
          refine ⟨t2, ht2, ?_⟩
          simp only [List.length_cons]
          exact le_trans hlen2 (le_trans hlen1 hstep)
        · obtain ⟨t1, ht1, hlen1⟩ := ih
            (shiftQueue s) hrest
          refine ⟨t1, ht1, ?_⟩
          simp only [List.length_cons]
          exact le_trans hlen1 hstep
      · simp only [hlt, if_false]
        exact ⟨s, rfl, by simp [hq]⟩

/-- A result of the bounded drain does not change when more iterations are
allowed. -/
theorem processQueueFuel_mono (cfg : Config) :
    ∀ (fuel : Nat) (s t : State), processQueueFuel cfg fuel s = some t →
      processQueueFuel cfg (fuel + 1) s = some t := by
  intro fuel
  induction fuel with
  | zero => intro s t h; simp [processQueueFuel] at h
  | succ fuel ih =>
    intro s t h
    rw [processQueueFuel_succ] at h
    rw [processQueueFuel_succ]
    cases hq : s.queue with
    | nil => simpa [hq] using h
    | cons url rest =>
      simp only [hq] at h ⊢
      by_cases hlt : s.loading.length < cfg.maxConcurrentLoads
      · simp only [hlt, if_true] at h ⊢
        split at h
        · rename_i hguard
          rw [if_pos hguard]
          cases hl : loadVideoWith (processQueueFuel cfg fuel)
              (shiftQueue s) url with
          | none => simp [hl] at h
          | some r =>
            simp only [hl] at h
            have h2 := ih _ _ (loadVideoWith_eq_some hl).1
            rw [loadVideoWith_of_some h2]
            exact ih _ _ h
        · rename_i hguard
          rw [if_neg hguard]
          exact ih _ _ h
      · simpa only [hlt, if_false] using h

theorem processQueueFuel_mono_le (cfg : Config) (s t : State) :
    ∀ (fuel fuel2 : Nat), fuel ≤ fuel2 → processQueueFuel cfg fuel s = some t →
      processQueueFuel cfg fuel2 s = some t := by
  intro fuel fuel2 hle h
  induction hle with
  | refl => exact h
  | step _ ih => exact processQueueFuel_mono cfg _ s t ih

/-- Totality of `processQueue`: every bound above the queue length yields
the state `processQueue` returns. -/
theorem processQueueFuel_total (cfg : Config) (fuel : Nat) (s : State)
    (h : s.queue.length < fuel) :
    processQueueFuel cfg fuel s = some (processQueue cfg s) := by
  obtain ⟨t, ht, _⟩ := processQueueFuel_isSome cfg (s.queue.length + 1) s (Nat.lt_succ_self _)
  have : processQueue cfg s = t := by simp [processQueue, ht]
  rw [this]
  exact processQueueFuel_mono_le cfg s t _ _ h ht

theorem processQueue_queue_length_le (cfg : Config) (s : State) :
    (processQueue cfg s).queue.length ≤ s.queue.length := by
  obtain ⟨t, ht, hlen⟩ := processQueueFuel_isSome cfg (s.queue.length + 1) s (Nat.lt_succ_self _)
  have : processQueue cfg s = t := by simp [processQueue, ht]
  rw [this]
  exact hlen

/-- The property-preservation principle for the total `processQueue`. -/
theorem processQueue_preserves (cfg : Config) (P : State → Prop)
    (hshift : ∀ s url rest, P s → s.queue = url :: rest →
      s.loading.length < cfg.maxConcurrentLoads →
      P (shiftQueue s))
    (hload : ∀ s url, P s → s.loading.length < cfg.maxConcurrentLoads →
      isCached s url = false → isLoading s url = false → P (loadVideoCore s url).1)
    (s : State) (hP : P s) : P (processQueue cfg s) :=
  processQueueFuel_preserves cfg P hshift hload _ s _
    (processQueueFuel_total cfg _ s (Nat.lt_succ_self _)) hP

/-- When `processQueue` returns, the queue is empty or the budget is used up. -/
theorem processQueueFuel_exit (cfg : Config) :
    ∀ (fuel : Nat) (s t : State), processQueueFuel cfg fuel s = some t →
      t.queue = [] ∨ ¬ t.loading.length < cfg.maxConcurrentLoads := by
  intro fuel
  induction fuel with
  | zero => intro s t h; simp [processQueueFuel] at h
  | succ fuel ih =>
    intro s t h
    rw [processQueueFuel_succ] at h
    cases hq : s.queue with
    | nil =>
      simp only [hq, Option.some.injEq] at h
      exact Or.inl (h ▸ hq)
    | cons url rest =>
      simp only [hq] at h
      by_cases hlt : s.loading.length < cfg.maxConcurrentLoads
      · simp only [hlt, if_true] at h
        split at h
        · cases hl : loadVideoWith (processQueueFuel cfg fuel)
              (shiftQueue s) url with
          | none => simp [hl] at h
          | some r =>
            simp only [hl] at h
            exact ih _ _ h
        · exact ih _ _ h
      · simp only [hlt, if_false, Option.some.injEq] at h
        exact Or.inr (h ▸ hlt)

theorem processQueue_exit (cfg : Config) (s : State) :
    (processQueue cfg s).queue = [] ∨
      ¬ (processQueue cfg s).loading.length < cfg.maxConcurrentLoads :=
  processQueueFuel_exit cfg _ s _ (processQueueFuel_total cfg _ s (Nat.lt_succ_self _))

theorem processQueue_of_queue_nil (cfg : Config) (s : State) (h : s.queue = []) :
    processQueue cfg s = s := by
  simp [processQueue, processQueueFuel, h]

theorem processQueue_of_saturated (cfg : Config) (s : State)
    (h : ¬ s.loading.length < cfg.maxConcurrentLoads) : processQueue cfg s = s := by
  unfold processQueue
  rw [processQueueFuel_succ]
  cases hq : s.queue with
  | nil => rfl
  | cons url rest => simp [h]

/-! ## Properties kept by every call -/

theorem callInvariant_processQueue {cfg : Config} {P : State → Prop}
    (h : CallInvariant cfg P) (s : State) (hP : P s) : P (processQueue cfg s) :=
  processQueue_preserves cfg P h.shift h.load s hP

theorem callInvariant_loadVideo {cfg : Config} {P : State → Prop}
    (h : CallInvariant cfg P) (s : State) (u : String) (hP : P s)
    (hlt : s.loading.length < cfg.maxConcurrentLoads)
    (hc : isCached s u = false) (hl : isLoading s u = false) :
    P (loadVideo cfg s u).1 :=
  callInvariant_processQueue h _ (h.load s u hP hlt hc hl)

theorem callInvariant_cacheVideo {cfg : Config} {P : State → Prop}
    (h : CallInvariant cfg P) (s : State) (u p : String) (hP : P s) :
    P (cacheVideo cfg s u p).1 := by
  unfold VideoCache.cacheVideo
  by_cases h0 : u = ""
  · simpa [h0] using hP
  · rw [if_neg h0]
    cases hc : isCached s u with
    | true => simpa using h.timestamp s u hP hc
    | false =>
      cases hl : isLoading s u with
      | true => simpa using hP
      | false =>
        cases hq : isQueued s u with
        | true => simpa using hP
        | false =>
          by_cases hsat : s.loading.length ≥ cfg.maxConcurrentLoads
          · simpa [hsat] using h.enqueue s u p hP h0 hc hl hq hsat
          · simpa [hsat] using callInvariant_loadVideo h s u hP (Nat.lt_of_not_ge hsat) hc hl

theorem callInvariant_foldl_cacheVideo {cfg : Config} {P : State → Prop}
    (h : CallInvariant cfg P) (p : String) (urls : List String) :
    ∀ s : State, P s →
      P (urls.foldl (fun st url => (VideoCache.cacheVideo cfg st url p).1) s) := by
  induction urls with
  | nil => intro s hP; exact hP
  | cons u rest ih => intro s hP; exact ih _ (callInvariant_cacheVideo h s u p hP)

theorem callInvariant_preloadMultiple {cfg : Config} {P : State → Prop}
    (h : CallInvariant cfg P) (s : State) (urls : List String) (p : String) (hP : P s) :
    P (preloadMultiple cfg s urls p) := by
  unfold VideoCache.preloadMultiple
  simp only
  split
  · exact callInvariant_foldl_cacheVideo h p _ s hP
  · exact hP

theorem callInvariant_apply {cfg : Config} {P : State → Prop}
    (h : CallInvariant cfg P) (hclear : ∀ s, P s → P (clearCache s))
    (htick : ∀ s ms, P s → P { s with now := s.now + ms })
    (s : State) (op : Op) (hP : P s) : P (op.apply cfg s) := by
  cases op with
  | cacheVideo u p => exact callInvariant_cacheVideo h s u p hP
  | preloadMultiple urls p => exact callInvariant_preloadMultiple h s urls p hP
  | processQueue => exact callInvariant_processQueue h s hP
  | clearCache => exact hclear s hP
  | tick ms => exact htick s ms hP

theorem callInvariant_run {cfg : Config} {P : State → Prop}
    (h : CallInvariant cfg P) (hclear : ∀ s, P s → P (clearCache s))
    (htick : ∀ s ms, P s → P { s with now := s.now + ms })
    (ops : List Op) : ∀ s : State, P s → P (run cfg ops s) := by
  induction ops with
  | nil => intro s hP; exact hP
  | cons op rest ih => intro s hP; exact ih _ (callInvariant_apply h hclear htick s op hP)

/-! ## Field effects of the elementary steps -/

theorem updateTimestamp_loading (s : State) (u : String) :
    (updateTimestamp s u).loading = s.loading := by
  unfold updateTimestamp; split <;> rfl

theorem updateTimestamp_queue (s : State) (u : String) :
    (updateTimestamp s u).queue = s.queue := by
  unfold updateTimestamp; split <;> rfl

theorem updateTimestamp_queueTier (s : State) (u : String) :
    (updateTimestamp s u).queueTier = s.queueTier := by
  unfold updateTimestamp; split <;> rfl

theorem updateTimestamp_events (s : State) (u : String) :
    (updateTimestamp s u).events = s.events := by
  unfold updateTimestamp; split <;> rfl

theorem updateTimestamp_now (s : State) (u : String) :
    (updateTimestamp s u).now = s.now := by
  unfold updateTimestamp; split <;> rfl

theorem enqueue_loading (s : State) (u p : String) : (enqueue s u p).loading = s.loading := by
  unfold enqueue; split <;> rfl

theorem enqueue_events (s : State) (u p : String) : (enqueue s u p).events = s.events := by
  unfold enqueue; split <;> rfl

theorem enqueue_cache (s : State) (u p : String) : (enqueue s u p).cache = s.cache := by
  unfold enqueue; split <;> rfl

theorem enqueue_queue (s : State) (u p : String) :
    (enqueue s u p).queue = if p = "high" then u :: s.queue else s.queue ++ [u] := by
  unfold enqueue; split <;> rfl

theorem enqueue_queueTier (s : State) (u p : String) :
    (enqueue s u p).queueTier =
      if p = "high" then p :: s.queueTier else s.queueTier ++ [p] := by
  unfold enqueue; split <;> rfl

/-! ## The concurrency bound -/

theorem boundInv_callInvariant (cfg : Config) : CallInvariant cfg (BoundInv cfg) where
  timestamp := by
    intro s u h _
    simpa [BoundInv, updateTimestamp_loading, updateTimestamp_events] using h
  enqueue := by
    intro s u p h _ _ _ _ _
    simpa [BoundInv, enqueue_loading, enqueue_events] using h
  shift := by
    intro s url rest h _ _
    exact h
  load := by
    intro s url h hlt _ _
    refine ⟨?_, ?_⟩
    · rw [loadVideoCore_loading]
      exact le_trans (setDelete_setAdd_length_le _ _) h.1
    · intro e he
      rw [loadVideoCore_events] at he
      rcases List.mem_append.1 he with he | he
      · exact h.2 e he
      · simp only [List.mem_cons, List.mem_singleton, List.not_mem_nil, or_false] at he
        rcases he with he | he
        · subst he
          exact le_trans (setAdd_length_le _ _) hlt
        · subst he
          exact le_trans (setDelete_setAdd_length_le _ _) h.1

theorem boundInv_run (cfg : Config) (ops : List Op) (s : State) (h : BoundInv cfg s) :
    BoundInv cfg (run cfg ops s) :=
  callInvariant_run (boundInv_callInvariant cfg)
    (fun _ hs => ⟨Nat.zero_le _, hs.2⟩) (fun _ _ hs => hs) ops s h

/-- C2: from the initial state, after any sequence of calls, `state.loading`
holds at most `maxConcurrentLoads` keys, and it held at most that many right
after every `state.loading.add` and `state.loading.delete` executed so far,
those inside `loadVideo` and inside the drains of `processQueue` included. -/
theorem concurrency_bound (cfg : Config) (ops : List Op) :
    (run cfg ops init).loading.length ≤ cfg.maxConcurrentLoads ∧
      ∀ e ∈ (run cfg ops init).events, e.inFlight ≤ cfg.maxConcurrentLoads :=
  boundInv_run cfg ops init ⟨Nat.zero_le _, by simp [init]⟩

/-! ## Settled states -/

theorem settled_init : Settled init := by
  simp [Settled, init]

theorem settled_isLoading {s : State} (h : Settled s) (u : String) : isLoading s u = false := by
  simp [isLoading, h.1]

theorem settled_isQueued {s : State} (h : Settled s) (u : String) : isQueued s u = false := by
  simp [isQueued, h.2.1]

theorem settled_updateTimestamp {s : State} (h : Settled s) (u : String) :
    Settled (updateTimestamp s u) := by
  refine ⟨by rw [updateTimestamp_loading]; exact h.1,
    by rw [updateTimestamp_queue]; exact h.2.1,
    by rw [updateTimestamp_queueTier]; exact h.2.2.1, ?_⟩
  intro p hp
  unfold updateTimestamp at hp
  cases hg : mapGet s.cache u with
  | none =>
    rw [hg] at hp
    exact h.2.2.2 p hp
  | some e =>
    rw [hg] at hp
    rcases mem_mapSet hp with hp | hp
    · exact h.2.2.2 p hp
    · subst hp
      exact h.2.2.2 (u, e) (mapGet_some_mem hg)

theorem settled_loadVideoCore {s : State} (h : Settled s) (u : String) :
    Settled (loadVideoCore s u).1 := by
  refine ⟨?_, h.2.1, h.2.2.1, ?_⟩
  · rw [loadVideoCore_loading_of_not_mem s u (by simp [h.1])]
    exact h.1
  · intro p hp
    rw [loadVideoCore_cache] at hp
    rcases mem_mapSet hp with hp | hp
    · exact h.2.2.2 p hp
    · subst hp
      simp [loadVideoCore_entry]

theorem loadVideo_of_queue_nil (cfg : Config) (s : State) (u : String) (h : s.queue = []) :
    loadVideo cfg s u = loadVideoCore s u := by
  unfold loadVideo
  simp only
  rw [processQueue_of_queue_nil cfg _ (by rw [loadVideoCore_queue]; exact h)]

/-- What `cacheVideo` does in a settled state. -/
theorem settled_cacheVideo (cfg : Config) (hcfg : 1 ≤ cfg.maxConcurrentLoads)
    {s : State} (h : Settled s) (u p : String) :
    cacheVideo cfg s u p =
      if u = "" then (s, Outcome.null)
      else if isCached s u then
        (updateTimestamp s u, Outcome.resolved (mapGet (updateTimestamp s u).cache u))
      else ((loadVideoCore s u).1, Outcome.resolved (some (loadVideoCore s u).2)) := by
  unfold cacheVideo
  by_cases h0 : u = ""
  · simp [h0]
  · rw [if_neg h0, if_neg h0]
    cases hc : isCached s u with
    | true => simp
    | false =>
      have hsat : ¬ s.loading.length ≥ cfg.maxConcurrentLoads := by
        rw [h.1]
        simp only [List.length_nil, ge_iff_le, Nat.le_zero_eq]
        omega
      simp [settled_isLoading h, settled_isQueued h, hsat, loadVideo_of_queue_nil cfg s u h.2.1]

theorem settled_cacheVideo_settled (cfg : Config) (hcfg : 1 ≤ cfg.maxConcurrentLoads)
    {s : State} (h : Settled s) (u p : String) : Settled (cacheVideo cfg s u p).1 := by
  rw [settled_cacheVideo cfg hcfg h]
  split
  · exact h
  · split
    · exact settled_updateTimestamp h u
    · exact settled_loadVideoCore h u

theorem settledInvariant_cacheVideo {K : String → Prop} {P : State → Prop}
    (hP : SettledInvariant K P) (cfg : Config) (hcfg : 1 ≤ cfg.maxConcurrentLoads)
    {s : State} (h : Settled s) (u p : String) (hK : K u) (hs : P s) :
    P (cacheVideo cfg s u p).1 := by
  rw [settled_cacheVideo cfg hcfg h]
  by_cases h0 : u = ""
  · simpa [h0] using hs
  · rw [if_neg h0]
    cases hc : isCached s u with
    | true => simpa using hP.timestamp s u hK h hs hc
    | false => simpa using hP.load s u hK h hs h0 hc

theorem settledInvariant_foldl_cacheVideo {K : String → Prop} {P : State → Prop}
    (hP : SettledInvariant K P) (cfg : Config) (hcfg : 1 ≤ cfg.maxConcurrentLoads)
    (p : String) (urls : List String) (hK : ∀ u ∈ urls, K u) :
    ∀ s : State, Settled s → P s →
      Settled (urls.foldl (fun st url => (VideoCache.cacheVideo cfg st url p).1) s) ∧
      P (urls.foldl (fun st url => (VideoCache.cacheVideo cfg st url p).1) s) := by
  induction urls with
  | nil => intro s h hs; exact ⟨h, hs⟩
  | cons u rest ih =>
    intro s h hs
    exact ih (fun v hv => hK v (List.mem_cons_of_mem _ hv)) _
      (settled_cacheVideo_settled cfg hcfg h u p)
      (settledInvariant_cacheVideo hP cfg hcfg h u p (hK u (List.mem_cons_self _ _)) hs)

theorem settledInvariant_preloadMultiple {K : String → Prop} {P : State → Prop}
    (hP : SettledInvariant K P) (cfg : Config) (hcfg : 1 ≤ cfg.maxConcurrentLoads)
    {s : State} (h : Settled s) (urls : List String) (p : String) (hK : ∀ u ∈ urls, K u)
    (hs : P s) :
    Settled (preloadMultiple cfg s urls p) ∧ P (preloadMultiple cfg s urls p) := by
  unfold VideoCache.preloadMultiple
  simp only
  split
  · exact settledInvariant_foldl_cacheVideo hP cfg hcfg p _
      (fun u hu => hK u (List.mem_of_mem_filter hu)) s h hs
  · exact ⟨h, hs⟩

/-- One operation on a settled state: the state stays settled and the
property is kept, provided `clearCache` keeps it when it is the operation. -/
theorem settledInvariant_apply {K : String → Prop} {P : State → Prop}
    (hP : SettledInvariant K P) (cfg : Config) (hcfg : 1 ≤ cfg.maxConcurrentLoads)
    {s : State} (h : Settled s) (op : Op) (hK : ∀ u ∈ op.keys, K u)
    (hclear : op.isClear = true → P (clearCache s)) (hs : P s) :
    Settled (op.apply cfg s) ∧ P (op.apply cfg s) := by
  cases op with
  | cacheVideo u p =>
    exact ⟨settled_cacheVideo_settled cfg hcfg h u p,
      settledInvariant_cacheVideo hP cfg hcfg h u p (hK u (by simp [Op.keys])) hs⟩
  | preloadMultiple urls p => exact settledInvariant_preloadMultiple hP cfg hcfg h urls p hK hs
  | processQueue =>
    simp only [Op.apply]
    rw [processQueue_of_queue_nil cfg s h.2.1]
    exact ⟨h, hs⟩
  | clearCache =>
    refine ⟨?_, hclear rfl⟩
    simp [Op.apply, VideoCache.clearCache, Settled]
  | tick ms => exact ⟨h, hP.tick s ms hs⟩

theorem settledInvariant_run {K : String → Prop} {P : State → Prop}
    (hP : SettledInvariant K P) (cfg : Config) (hcfg : 1 ≤ cfg.maxConcurrentLoads)
    (hclear : ∀ s, P s → P (clearCache s)) (ops : List Op)
    (hK : ∀ op ∈ ops, ∀ u ∈ op.keys, K u) :
    ∀ s : State, Settled s → P s → Settled (run cfg ops s) ∧ P (run cfg ops s) := by
  induction ops with
  | nil => intro s h hs; exact ⟨h, hs⟩
  | cons op rest ih =>
    intro s h hs
    have h1 := settledInvariant_apply hP cfg hcfg h op (hK op (List.mem_cons_self _ _))
      (fun _ => hclear s hs) hs
    exact ih (fun o ho => hK o (List.mem_cons_of_mem _ ho)) _ h1.1 h1.2

theorem settledInvariant_run_noClear {K : String → Prop} {P : State → Prop}
    (hP : SettledInvariant K P) (cfg : Config) (hcfg : 1 ≤ cfg.maxConcurrentLoads)
    (ops : List Op) (hK : ∀ op ∈ ops, ∀ u ∈ op.keys, K u)
    (hnc : ∀ op ∈ ops, op.isClear = false) :
    ∀ s : State, Settled s → P s → Settled (VideoCache.run cfg ops s) ∧ P (VideoCache.run cfg ops s) := by
  induction ops with
  | nil => intro s h hs; exact ⟨h, hs⟩
  | cons op rest ih =>
    intro s h hs
    have hop := hnc op (List.mem_cons_self _ _)
    have h1 := settledInvariant_apply hP cfg hcfg h op (hK op (List.mem_cons_self _ _))
      (fun hc => by rw [hop] at hc; exact absurd hc (by decide)) hs
    exact ih (fun o ho => hK o (List.mem_cons_of_mem _ ho))
      (fun o ho => hnc o (List.mem_cons_of_mem _ ho)) _ h1.1 h1.2

/-- Every state reached from the initial state is settled. -/
theorem settled_run (cfg : Config) (hcfg : 1 ≤ cfg.maxConcurrentLoads) (ops : List Op) :
    Settled (run cfg ops init) :=
  ((settledInvariant_run (K := fun _ => True) (P := fun _ => True)
    ⟨fun _ _ _ _ _ _ => trivial, fun _ _ _ _ _ _ _ => trivial, fun _ _ _ => trivial⟩
    cfg hcfg (fun _ _ => trivial) ops (fun _ _ _ _ => trivial)) init settled_init trivial).1

/-! ## Deduplication -/

theorem updateTimestamp_mapGet_ne (s : State) (u v : String) (h : u ≠ v) :
    mapGet (updateTimestamp s u).cache v = mapGet s.cache v := by
  unfold updateTimestamp
  cases hg : mapGet s.cache u with
  | none => rfl
  | some e => exact mapGet_mapSet_ne _ _ _ _ h

theorem updateTimestamp_mapGet_self (s : State) (u : String) (e : Entry)
    (h : mapGet s.cache u = some e) :
    mapGet (updateTimestamp s u).cache u = some { e with timestamp := s.now } := by
  unfold updateTimestamp
  rw [h]
  exact mapGet_mapSet_self _ _ _

theorem loads_updateTimestamp (s : State) (u : String) :
    loads (updateTimestamp s u) = loads s := by
  simp [loads, updateTimestamp_events]

theorem isCached_of_mapGet_none {s : State} {k : String} (h : mapGet s.cache k = none) :
    isCached s k = false := by
  simp [isCached, h]

theorem count_loads_loadVideoCore_ne (s : State) (u k : String) (h : u ≠ k) :
    (loads (loadVideoCore s u).1).count k = (loads s).count k := by
  rw [loads_loadVideoCore, List.count_append]
  simp [List.count_cons, h]

theorem unloaded_settledInvariant (k : String) :
    SettledInvariant (fun u => u ≠ k) (Unloaded k) where
  timestamp := by
    intro s u hu _ h _
    exact ⟨by rw [updateTimestamp_mapGet_ne s u k hu]; exact h.1,
      by rw [loads_updateTimestamp]; exact h.2⟩
  load := by
    intro s u hu _ h _ _
    exact ⟨by rw [loadVideoCore_mapGet_ne s u k hu]; exact h.1,
      by rw [count_loads_loadVideoCore_ne s u k hu]; exact h.2⟩
  tick := fun _ _ h => h

theorem loaded_isCached {k : String} {i : Nat} {s : State} (h : Loaded k i s) :
    isCached s k = true := by
  obtain ⟨⟨e, he, hi⟩, _⟩ := h
  simp [isCached, he, hi.2.1]

theorem loaded_updateTimestamp {k : String} {i : Nat} {s : State} (h : Loaded k i s)
    (u : String) : Loaded k i (updateTimestamp s u) := by
  obtain ⟨⟨e, he, hi⟩, hc⟩ := h
  refine ⟨?_, by rw [loads_updateTimestamp]; exact hc⟩
  by_cases hu : u = k
  · subst hu
    exact ⟨_, updateTimestamp_mapGet_self s u e he, hi⟩
  · exact ⟨e, by rw [updateTimestamp_mapGet_ne s u k hu]; exact he, hi⟩

theorem loaded_loadVideoCore {k : String} {i : Nat} {s : State} (h : Loaded k i s)
    (u : String) (hc : isCached s u = false) : Loaded k i (loadVideoCore s u).1 := by
  have hu : u ≠ k := by
    intro hh
    subst hh
    rw [loaded_isCached h] at hc
    exact absurd hc (by decide)
  obtain ⟨⟨e, he, hi⟩, hcount⟩ := h
  exact ⟨⟨e, by rw [loadVideoCore_mapGet_ne s u k hu]; exact he, hi⟩,
    by rw [count_loads_loadVideoCore_ne s u k hu]; exact hcount⟩

theorem unloaded_loadVideoCore {k : String} {s : State} (h : Unloaded k s) :
    Loaded k (s.nextId + 1) (loadVideoCore s k).1 ∧
      IsEntryOf k (s.nextId + 1) (loadVideoCore s k).2 := by
  have hi : IsEntryOf k (s.nextId + 1) (loadVideoCore s k).2 := by
    simp [IsEntryOf, loadVideoCore_entry]
  refine ⟨⟨⟨_, ?_, hi⟩, ?_⟩, hi⟩
  · rw [loadVideoCore_cache]
    exact mapGet_mapSet_self _ _ _
  · rw [loads_loadVideoCore, List.count_append, h.2]
    simp

theorem loaded_settledInvariant (k : String) (i : Nat) :
    SettledInvariant (fun _ => True) (Loaded k i) where
  timestamp := fun _ u _ _ h _ => loaded_updateTimestamp h u
  load := fun _ u _ _ h _ hc => loaded_loadVideoCore h u hc
  tick := fun _ _ h => h

theorem phase_settledInvariant (k : String) :
    SettledInvariant (fun _ => True) (fun s => Unloaded k s ∨ ∃ i, Loaded k i s) where
  timestamp := by
    intro s u _ hs h hc
    rcases h with h | ⟨i, h⟩
    · have hu : u ≠ k := by
        intro hh
        subst hh
        rw [isCached_of_mapGet_none h.1] at hc
        exact absurd hc (by decide)
      exact Or.inl ((unloaded_settledInvariant k).timestamp s u hu hs h hc)
    · exact Or.inr ⟨i, loaded_updateTimestamp h u⟩
  load := by
    intro s u _ hs h h0 hc
    rcases h with h | ⟨i, h⟩
    · by_cases hu : u = k
      · subst hu
        exact Or.inr ⟨_, (unloaded_loadVideoCore h).1⟩
      · exact Or.inl ((unloaded_settledInvariant k).load s u hu hs h h0 hc)
    · exact Or.inr ⟨i, loaded_loadVideoCore h u hc⟩
  tick := fun _ _ h => h

/-- A call for `k` in a settled state where the entry object `i` is cached
returns that object and starts no load. -/
theorem loaded_cacheVideo (cfg : Config) (hcfg : 1 ≤ cfg.maxConcurrentLoads) {k : String}
    (hk : k ≠ "") {i : Nat} {s : State} (hs : Settled s) (h : Loaded k i s) (p : String) :
    Settled (cacheVideo cfg s k p).1 ∧ Loaded k i (cacheVideo cfg s k p).1 ∧
      (cacheVideo cfg s k p).2.Yields k i := by
  refine ⟨settled_cacheVideo_settled cfg hcfg hs k p, ?_⟩
  rw [settled_cacheVideo cfg hcfg hs, if_neg hk, loaded_isCached h]
  simp only [if_true]
  have h2 := loaded_updateTimestamp h k
  refine ⟨h2, ?_⟩
  obtain ⟨⟨e, he, hi⟩, _⟩ := h2
  rw [he]
  exact hi

/-- The first call for `k` in a settled state runs the load and returns the
entry object it stores. -/
theorem unloaded_cacheVideo (cfg : Config) (hcfg : 1 ≤ cfg.maxConcurrentLoads) {k : String}
    (hk : k ≠ "") {s : State} (hs : Settled s) (h : Unloaded k s) (p : String) :
    Settled (cacheVideo cfg s k p).1 ∧ Loaded k (s.nextId + 1) (cacheVideo cfg s k p).1 ∧
      (cacheVideo cfg s k p).2.Yields k (s.nextId + 1) := by
  refine ⟨settled_cacheVideo_settled cfg hcfg hs k p, ?_⟩
  rw [settled_cacheVideo cfg hcfg hs, if_neg hk, isCached_of_mapGet_none h.1]
  simp only [Bool.false_eq_true, if_false]
  exact unloaded_loadVideoCore h

theorem issue_loaded (cfg : Config) (hcfg : 1 ≤ cfg.maxConcurrentLoads) {k : String}
    (hk : k ≠ "") (i : Nat) (calls : List (List Op × String))
    (hnc : ∀ c ∈ calls, ∀ op ∈ c.1, op.isClear = false) :
    ∀ s : State, Settled s → Loaded k i s →
      Settled (issue cfg k calls s).1 ∧ Loaded k i (issue cfg k calls s).1 ∧
        ∀ o ∈ (issue cfg k calls s).2, o.Yields k i := by
  induction calls with
  | nil =>
    intro s hs h
    exact ⟨hs, h, by simp [issue]⟩
  | cons c rest ih =>
    intro s hs h
    obtain ⟨pre, p⟩ := c
    have h1 := settledInvariant_run_noClear (loaded_settledInvariant k i) cfg hcfg pre
      (fun _ _ _ _ => trivial) (hnc (pre, p) (List.mem_cons_self _ _)) s hs h
    have h2 := loaded_cacheVideo cfg hcfg hk h1.1 h1.2 p
    have h3 := ih (fun c hc => hnc c (List.mem_cons_of_mem _ hc)) _ h2.1 h2.2.1
    refine ⟨h3.1, h3.2.1, ?_⟩
    intro o ho
    simp only [issue, List.mem_cons] at ho
    rcases ho with ho | ho
    · subst ho
      exact h2.2.2
    · exact h3.2.2 o ho

theorem issue_unloaded (cfg : Config) (hcfg : 1 ≤ cfg.maxConcurrentLoads) {k : String}
    (hk : k ≠ "") (calls : List (List Op × String)) (hne : calls ≠ [])
    (hnc : ∀ c ∈ calls, ∀ op ∈ c.1, op.isClear = false)
    (s : State) (hs : Settled s) (h : Unloaded k s) :
    ∃ i, Loaded k i (issue cfg k calls s).1 ∧
      ∀ o ∈ (issue cfg k calls s).2, o.Yields k i := by
  cases calls with
  | nil => exact absurd rfl hne
  | cons c rest =>
    obtain ⟨pre, p⟩ := c
    have h1 := settledInvariant_run_noClear (phase_settledInvariant k) cfg hcfg pre
      (fun _ _ _ _ => trivial) (hnc (pre, p) (List.mem_cons_self _ _)) s hs (Or.inl h)
    have hrest : ∀ c ∈ rest, ∀ op ∈ c.1, op.isClear = false :=
      fun c hc => hnc c (List.mem_cons_of_mem _ hc)
    have key : ∃ i, Settled (cacheVideo cfg (run cfg pre s) k p).1 ∧
        Loaded k i (cacheVideo cfg (run cfg pre s) k p).1 ∧
        (cacheVideo cfg (run cfg pre s) k p).2.Yields k i := by
      rcases h1.2 with hu | ⟨i, hl⟩
      · exact ⟨_, unloaded_cacheVideo cfg hcfg hk h1.1 hu p⟩
      · exact ⟨i, loaded_cacheVideo cfg hcfg hk h1.1 hl p⟩
    obtain ⟨i, h2⟩ := key
    have h3 := issue_loaded cfg hcfg hk i rest hrest _ h2.1 h2.2.1
    refine ⟨i, h3.2.1, ?_⟩
    intro o ho
    simp only [issue, List.mem_cons] at ho
    rcases ho with ho | ho
    · subst ho
      exact h2.2.2
    · exact h3.2.2 o ho

theorem unloaded_run (cfg : Config) (hcfg : 1 ≤ cfg.maxConcurrentLoads) (k : String)
    (ops : List Op) (hnever : ∀ op ∈ ops, k ∉ op.keys) :
    Settled (run cfg ops init) ∧ Unloaded k (run cfg ops init) := by
  refine settledInvariant_run (unloaded_settledInvariant k) cfg hcfg ?_ ops ?_ init settled_init ?_
  · intro s h
    exact ⟨rfl, h.2⟩
  · intro op hop u hu hh
    exact hnever op hop (hh ▸ hu)
  · simp [Unloaded, init, mapGet, loads]

/-- C1: let `k` be a non-empty key that no operation of the run `ops` from the
initial state has requested.  Issue `cacheVideo(k, p)` one or more times, with
any priorities and with any operations other than `clearCache` in between.
Then `loadVideo` was started for `k` exactly once in total, and there is one
entry object `i`, the one stored under `k` at the end, that every one of
the calls returned. -/
theorem cacheVideo_dedup (cfg : Config) (hcfg : 1 ≤ cfg.maxConcurrentLoads) (k : String)
    (hk : k ≠ "") (ops : List Op) (hnever : ∀ op ∈ ops, k ∉ op.keys)
    (calls : List (List Op × String)) (hne : calls ≠ [])
    (hnc : ∀ c ∈ calls, ∀ op ∈ c.1, op.isClear = false) :
    (loads (run cfg ops init)).count k = 0 ∧
      (loads (issue cfg k calls (run cfg ops init)).1).count k = 1 ∧
      ∃ i, (∃ e, mapGet (issue cfg k calls (run cfg ops init)).1.cache k = some e ∧
              IsEntryOf k i e) ∧
        ∀ o ∈ (issue cfg k calls (run cfg ops init)).2, o.Yields k i := by
  have h0 := unloaded_run cfg hcfg k ops hnever
  obtain ⟨i, hl, hy⟩ := issue_unloaded cfg hcfg hk calls hne hnc _ h0.1 h0.2
  exact ⟨h0.2.2, hl.2, i, hl.1, hy⟩

/-- C1 at the shipped configuration: after two unrelated loads, three calls
for `"k"` with mixed priorities, a clock tick and another request between
them start exactly one load of `"k"`. -/
theorem cacheVideo_dedup_witness :
    (loads (issue CONFIG "k"
      [([], "normal"), ([Op.tick 7, Op.cacheVideo "c" "high"], "high"), ([], "normal")]
      (run CONFIG [Op.cacheVideo "a" "normal", Op.preloadMultiple ["b", "a"] "high"]
        init)).1).count "k" = 1 :=
  (cacheVideo_dedup CONFIG (by decide) "k" (by decide)
    [Op.cacheVideo "a" "normal", Op.preloadMultiple ["b", "a"] "high"] (by decide)
    [([], "normal"), ([Op.tick 7, Op.cacheVideo "c" "high"], "high"), ([], "normal")]
    (by decide) (by decide)).2.1

/-! ## The order in which a drain starts loads -/

/-- A property kept by each kind of loop iteration of `processQueue` (dequeue
and skip, dequeue and load) is kept by the whole drain. -/
theorem processQueueFuel_iterate (cfg : Config) (P : State → Prop)
    (hskip : ∀ s url rest, P s → s.queue = url :: rest →
      s.loading.length < cfg.maxConcurrentLoads → wouldLoad s url = false →
      P (shiftQueue s))
    (hload : ∀ s url rest, P s → s.queue = url :: rest →
      s.loading.length < cfg.maxConcurrentLoads → wouldLoad s url = true →
      P (loadVideoCore (shiftQueue s) url).1) :
    ∀ (fuel : Nat) (s t : State), processQueueFuel cfg fuel s = some t → P s → P t := by
  intro fuel
  induction fuel with
  | zero => intro s t h; simp [processQueueFuel] at h
  | succ fuel ih =>
    intro s t h hP
    rw [processQueueFuel_succ] at h
    cases hq : s.queue with
    | nil =>
      simp only [hq, Option.some.injEq] at h
      exact h ▸ hP
    | cons url rest =>
      simp only [hq] at h
      by_cases hlt : s.loading.length < cfg.maxConcurrentLoads
      · simp only [hlt, if_true] at h
        split at h
        · rename_i hguard
          cases hl : loadVideoWith (processQueueFuel cfg fuel) (shiftQueue s) url with
          | none => simp [hl] at h
          | some r =>
            simp only [hl] at h
            have h2 := (loadVideoWith_eq_some hl).1
            exact ih _ _ h (ih _ _ h2 (hload s url rest hP hq hlt hguard))
        · rename_i hguard
          have hg : wouldLoad s url = false := by
            simpa [wouldLoad] using hguard
          exact ih _ _ h (hskip s url rest hP hq hlt hg)
      · simp only [hlt, if_false, Option.some.injEq] at h
        exact h ▸ hP

theorem processQueue_iterate (cfg : Config) (P : State → Prop)
    (hskip : ∀ s url rest, P s → s.queue = url :: rest →
      s.loading.length < cfg.maxConcurrentLoads → wouldLoad s url = false →
      P (shiftQueue s))
    (hload : ∀ s url rest, P s → s.queue = url :: rest →
      s.loading.length < cfg.maxConcurrentLoads → wouldLoad s url = true →
      P (loadVideoCore (shiftQueue s) url).1)
    (s : State) (hP : P s) : P (processQueue cfg s) :=
  processQueueFuel_iterate cfg P hskip hload _ s _
    (processQueueFuel_total cfg _ s (Nat.lt_succ_self _)) hP

theorem wouldLoad_loadVideoCore_shift (s : State) (url u : String)
    (hl : isLoading s url = false) (hne : url ≠ u) :
    wouldLoad (loadVideoCore (shiftQueue s) url).1 u = wouldLoad s u := by
  have h1 : url ∉ (shiftQueue s).loading := by
    simpa [isLoading, shiftQueue] using hl
  unfold wouldLoad isLoading
  rw [loadVideoCore_isCached_ne _ _ _ hne, loadVideoCore_loading_of_not_mem _ _ h1]
  rfl

/-- With budget left and no key queued twice, `processQueue` empties the
queue, leaves `state.loading` as it was and starts, in queue order, exactly
the queued keys that are neither cached nor in flight. -/
theorem processQueue_loads (cfg : Config) (t : State)
    (hlt : t.loading.length < cfg.maxConcurrentLoads) (hnd : t.queue.Nodup) :
    loads (processQueue cfg t) = loads t ++ t.queue.filter (wouldLoad t) ∧
      (processQueue cfg t).queue = [] ∧ (processQueue cfg t).loading = t.loading := by
  have key := processQueue_iterate cfg
    (fun x => loads x ++ x.queue.filter (wouldLoad x) = loads t ++ t.queue.filter (wouldLoad t)
      ∧ x.queue.Nodup ∧ x.loading = t.loading)
    (by
      intro s url rest h hq _ hg
      have hsq : (shiftQueue s).queue = rest := by simp [shiftQueue, hq]
      refine ⟨?_, ?_, h.2.2⟩
      · rw [← h.1, hsq, hq, List.filter_cons]
        have : wouldLoad (shiftQueue s) = wouldLoad s := rfl
        rw [this, hg]
        simp only [Bool.false_eq_true, if_false]
        rfl
      · rw [hsq]
        have := h.2.1
        rw [hq] at this
        exact (List.nodup_cons.1 this).2)
    (by
      intro s url rest h hq _ hg
      have hnd' := h.2.1
      rw [hq] at hnd'
      have hl : isLoading s url = false := by
        simp only [wouldLoad, Bool.and_eq_true, Bool.not_eq_true'] at hg
        exact hg.2
      have hsq : (loadVideoCore (shiftQueue s) url).1.queue = rest := by
        rw [loadVideoCore_queue]
        simp [shiftQueue, hq]
      refine ⟨?_, ?_, ?_⟩
      · rw [← h.1, hsq, hq, List.filter_cons, hg, loads_loadVideoCore]
        have hcongr : rest.filter (wouldLoad (loadVideoCore (shiftQueue s) url).1) =
            rest.filter (wouldLoad s) := by
          apply List.filter_congr
          intro u hu
          apply wouldLoad_loadVideoCore_shift s url u hl
          intro hh
          subst hh
          exact (List.nodup_cons.1 hnd').1 hu
        rw [hcongr]
        have : loads (shiftQueue s) = loads s := rfl
        rw [this]
        simp
      · rw [hsq]
        exact (List.nodup_cons.1 hnd').2
      · rw [loadVideoCore_loading_of_not_mem _ _ (by simpa [isLoading, shiftQueue] using hl)]
        exact h.2.2)
    t ⟨rfl, hnd, rfl⟩
  have hq : (processQueue cfg t).queue = [] := by
    rcases processQueue_exit cfg t with h | h
    · exact h
    · rw [key.2.2] at h
      exact absurd hlt h
  refine ⟨?_, hq, key.2.2⟩
  have := key.1
  rw [hq] at this
  simpa using this

/-- When, in addition, no queued key is cached or in flight, the drain
starts the queued keys in queue order. -/
theorem processQueue_loads_all (cfg : Config) (t : State)
    (hlt : t.loading.length < cfg.maxConcurrentLoads) (hnd : t.queue.Nodup)
    (hfresh : ∀ u ∈ t.queue, isCached t u = false ∧ isLoading t u = false) :
    loads (processQueue cfg t) = loads t ++ t.queue := by
  rw [(processQueue_loads cfg t hlt hnd).1]
  congr 1
  apply List.filter_eq_self.2
  intro u hu
  simp [wouldLoad, (hfresh u hu).1, (hfresh u hu).2]

/-! ## Queue uniqueness -/

theorem queueInv_callInvariant (cfg : Config) : CallInvariant cfg QueueInv where
  timestamp := by
    intro s u h _
    simpa [QueueInv, updateTimestamp_loading, updateTimestamp_queue] using h
  enqueue := by
    intro s u p h _ _ hl hq _
    have hl' : u ∉ s.loading := by simpa [isLoading] using hl
    have hq' : u ∉ s.queue := by simpa [isQueued] using hq
    unfold QueueInv
    rw [enqueue_loading, enqueue_queue]
    split
    · refine ⟨List.nodup_cons.2 ⟨hq', h.1⟩, ?_⟩
      intro k hk
      rcases List.mem_cons.1 hk with hk | hk
      · exact hk ▸ hl'
      · exact h.2 k hk
    · refine ⟨List.Nodup.append h.1 (List.nodup_singleton u) ?_, ?_⟩
      · intro a ha hb
        rw [List.mem_singleton] at hb
        exact hq' (hb ▸ ha)
      · intro k hk
        rcases List.mem_append.1 hk with hk | hk
        · exact h.2 k hk
        · rw [List.mem_singleton] at hk
          exact hk ▸ hl'
  shift := by
    intro s url rest h hq _
    have hsq : (shiftQueue s).queue = rest := by simp [shiftQueue, hq]
    have hnd := h.1
    rw [hq] at hnd
    refine ⟨by rw [hsq]; exact (List.nodup_cons.1 hnd).2, ?_⟩
    intro k hk
    rw [hsq] at hk
    exact h.2 k (by rw [hq]; exact List.mem_cons_of_mem _ hk)
  load := by
    intro s url h _ _ hl
    have hl' : url ∉ s.loading := by simpa [isLoading] using hl
    unfold QueueInv
    rw [loadVideoCore_queue, loadVideoCore_loading_of_not_mem s url hl']
    exact h

theorem queueInv_run (cfg : Config) (ops : List Op) (s : State) (h : QueueInv s) :
    QueueInv (run cfg ops s) :=
  callInvariant_run (queueInv_callInvariant cfg)
    (fun _ _ => ⟨List.nodup_nil, fun _ hk => absurd hk (List.not_mem_nil _)⟩)
    (fun _ _ hs => hs) ops s h

/-- C6: in every state reached from the initial state through `cacheVideo`,
`preloadMultiple` (with any list, repeated keys included), `processQueue` and
`clearCache`, for every configuration, `state.queue` holds no key twice and no
queued key is in `state.loading`. -/
theorem queue_unique (cfg : Config) (ops : List Op) :
    (run cfg ops init).queue.Nodup ∧
      ∀ k ∈ (run cfg ops init).queue, k ∉ (run cfg ops init).loading :=
  queueInv_run cfg ops init
    ⟨List.nodup_nil, fun _ hk => absurd hk (List.not_mem_nil _)⟩

/-! ## Requests while the budget is used up -/

theorem isCached_enqueue (s : State) (u p v : String) :
    isCached (enqueue s u p) v = isCached s v := by
  simp [isCached, enqueue_cache]

/-- A request for a new key while the budget is used up only enqueues it. -/
theorem saturated_cacheVideo_new (cfg : Config) (s : State) (u p : String)
    (hsat : cfg.maxConcurrentLoads ≤ s.loading.length) (h0 : u ≠ "")
    (hc : isCached s u = false) (hl : isLoading s u = false) (hq : isQueued s u = false) :
    cacheVideo cfg s u p = (enqueue s u p, Outcome.waiting u) := by
  unfold cacheVideo
  have hge : s.loading.length ≥ cfg.maxConcurrentLoads := hsat
  simp [h0, hc, hl, hq, hge, waitForCache, isCached_enqueue]

/-- While the budget is used up a request keeps `state.loading` and only
ever adds to the queue. -/
theorem saturated_cacheVideo (cfg : Config) (s : State) (u p : String)
    (hsat : cfg.maxConcurrentLoads ≤ s.loading.length) :
    (cacheVideo cfg s u p).1.loading = s.loading ∧
      s.queue.Sublist (cacheVideo cfg s u p).1.queue := by
  unfold cacheVideo
  by_cases h0 : u = ""
  · simp [h0]
  · rw [if_neg h0]
    cases hc : isCached s u with
    | true => simp [updateTimestamp_loading, updateTimestamp_queue]
    | false =>
      cases hl : isLoading s u with
      | true => simp
      | false =>
        cases hq : isQueued s u with
        | true => simp
        | false =>
          have hge : s.loading.length ≥ cfg.maxConcurrentLoads := hsat
          simp only [hge, if_true, Bool.false_eq_true, if_false, enqueue_loading,
            enqueue_queue, true_and]
          split
          · exact List.sublist_cons_self _ _
          · exact List.sublist_append_left _ _

theorem saturated_requestAll (cfg : Config) (reqs : List (String × String)) :
    ∀ s : State, cfg.maxConcurrentLoads ≤ s.loading.length →
      (requestAll cfg reqs s).loading = s.loading ∧
        s.queue.Sublist (requestAll cfg reqs s).queue := by
  induction reqs with
  | nil => intro s _; exact ⟨rfl, List.Sublist.refl _⟩
  | cons r rest ih =>
    intro s hsat
    have h1 := saturated_cacheVideo cfg s r.1 r.2 hsat
    have h2 := ih (cacheVideo cfg s r.1 r.2).1 (by rw [h1.1]; exact hsat)
    exact ⟨h2.1.trans h1.1, h1.2.trans h2.2⟩

/-- C3: with the budget used up, a request for a non-empty key `c` that is
not cached, not loading and not queued turns the queue into `c` followed by
the old queue when the priority is `'high'` and into the old queue followed
by `c` when it is `'normal'`.  After the high-priority request, a drain that
runs on that queue once budget is free dequeues `c` first: the loads it
starts are, in this order, `c` and the keys of the old queue, each unless it
is cached or in flight by then. -/
theorem priority_placement (cfg : Config) (s : State) (c : String)
    (hsat : cfg.maxConcurrentLoads ≤ s.loading.length) (h0 : c ≠ "")
    (hc : isCached s c = false) (hl : isLoading s c = false) (hq : isQueued s c = false) :
    (cacheVideo cfg s c "high").1.queue = c :: s.queue ∧
      (cacheVideo cfg s c "normal").1.queue = s.queue ++ [c] ∧
      ∀ t : State, t.queue = (cacheVideo cfg s c "high").1.queue →
        t.loading.length < cfg.maxConcurrentLoads → s.queue.Nodup →
        loads (processQueue cfg t) = loads t ++ (c :: s.queue).filter (wouldLoad t) := by
  have hhigh : (cacheVideo cfg s c "high").1.queue = c :: s.queue := by
    rw [saturated_cacheVideo_new cfg s c "high" hsat h0 hc hl hq, enqueue_queue]
    simp
  refine ⟨hhigh, ?_, ?_⟩
  · rw [saturated_cacheVideo_new cfg s c "normal" hsat h0 hc hl hq, enqueue_queue]
    simp
  · intro t ht hlt hnd
    rw [hhigh] at ht
    have hq' : c ∉ s.queue := by simpa [isQueued] using hq
    have hnd' : t.queue.Nodup := by
      rw [ht]
      exact List.nodup_cons.2 ⟨hq', hnd⟩
    rw [(processQueue_loads cfg t hlt hnd').1, ht]

/-- C3 on the queue `[a, b]` of the claim: the drain starts `c`, `a`, `b`. -/
theorem priority_placement_witness :
    loads (processQueue CONFIG { init with queue := ["c", "a", "b"] }) = ["c", "a", "b"] :=
  ((priority_placement CONFIG { saturated with queue := ["a", "b"] } "c"
    (by decide) (by decide) (by decide) (by decide) (by decide)).2.2
    { init with queue := ["c", "a", "b"] } (by decide) (by decide) (by decide)).trans
    (by decide)

/-! ## Order inside one priority tier -/

/-- C4, counterexample: with the budget used up, `k1` and then `k2` are
requested with priority `'high'`; the queue becomes `[k2, k1]` and the drain
that runs once budget is free starts `k2` before `k1`. -/
theorem fifo_high_counterexample :
    (cacheVideo CONFIG (cacheVideo CONFIG saturated "k1" "high").1 "k2" "high").1.queue
        = ["k2", "k1"] ∧
      loads (processQueue CONFIG
        { (cacheVideo CONFIG (cacheVideo CONFIG saturated "k1" "high").1 "k2" "high").1 with
          loading := [] }) = ["k2", "k1"] ∧
      ¬ List.Sublist ["k1", "k2"] (loads (processQueue CONFIG
        { (cacheVideo CONFIG (cacheVideo CONFIG saturated "k1" "high").1 "k2" "high").1 with
          loading := [] })) := by
  decide

/-- C4 as amended: with the budget used up, `k1` is enqueued and later, after
any further requests, `k2` is enqueued with the same priority `p`, and any
requests follow.  If `p` is not `'high'`, `k1` sits before `k2` in the queue;
if `p` is `'high'`, `k2` sits before `k1`.  A drain that runs on that queue
once budget is free starts the queued keys in queue order, each unless it is
cached or in flight by then. -/
theorem fifo_within_tier (cfg : Config) (s : State) (k1 k2 p : String)
    (mid post : List (String × String))
    (hsat : cfg.maxConcurrentLoads ≤ s.loading.length)
    (h1 : k1 ≠ "") (hc1 : isCached s k1 = false) (hl1 : isLoading s k1 = false)
    (hq1 : isQueued s k1 = false)
    (h2 : k2 ≠ "")
    (hc2 : isCached (requestAll cfg mid (cacheVideo cfg s k1 p).1) k2 = false)
    (hl2 : isLoading (requestAll cfg mid (cacheVideo cfg s k1 p).1) k2 = false)
    (hq2 : isQueued (requestAll cfg mid (cacheVideo cfg s k1 p).1) k2 = false) :
    (p ≠ "high" → List.Sublist [k1, k2] (requestAll cfg post
        (cacheVideo cfg (requestAll cfg mid (cacheVideo cfg s k1 p).1) k2 p).1).queue) ∧
      (p = "high" → List.Sublist [k2, k1] (requestAll cfg post
        (cacheVideo cfg (requestAll cfg mid (cacheVideo cfg s k1 p).1) k2 p).1).queue) ∧
      ∀ t : State, t.queue = (requestAll cfg post
          (cacheVideo cfg (requestAll cfg mid (cacheVideo cfg s k1 p).1) k2 p).1).queue →
        t.loading.length < cfg.maxConcurrentLoads → t.queue.Nodup →
        loads (processQueue cfg t) = loads t ++ t.queue.filter (wouldLoad t) := by
  have e1 := saturated_cacheVideo cfg s k1 p hsat
  have hmem1 : k1 ∈ (cacheVideo cfg s k1 p).1.queue := by
    rw [saturated_cacheVideo_new cfg s k1 p hsat h1 hc1 hl1 hq1, enqueue_queue]
    split <;> simp
  have hsat1 : cfg.maxConcurrentLoads ≤ (cacheVideo cfg s k1 p).1.loading.length := by
    rw [e1.1]; exact hsat
  have e2 := saturated_requestAll cfg mid _ hsat1
  have hsat2 : cfg.maxConcurrentLoads ≤
      (requestAll cfg mid (cacheVideo cfg s k1 p).1).loading.length := by
    rw [e2.1]; exact hsat1
  have hmem2 : k1 ∈ (requestAll cfg mid (cacheVideo cfg s k1 p).1).queue :=
    e2.2.subset hmem1
  have e3 := saturated_cacheVideo cfg _ k2 p hsat2
  have hsat3 : cfg.maxConcurrentLoads ≤
      (cacheVideo cfg (requestAll cfg mid (cacheVideo cfg s k1 p).1) k2 p).1.loading.length := by
    rw [e3.1]; exact hsat2
  have e4 := saturated_requestAll cfg post _ hsat3
  have hq3 : (cacheVideo cfg (requestAll cfg mid (cacheVideo cfg s k1 p).1) k2 p).1.queue =
      if p = "high" then k2 :: (requestAll cfg mid (cacheVideo cfg s k1 p).1).queue
      else (requestAll cfg mid (cacheVideo cfg s k1 p).1).queue ++ [k2] := by
    rw [saturated_cacheVideo_new cfg _ k2 p hsat2 h2 hc2 hl2 hq2, enqueue_queue]
  have hs1 : List.Sublist [k1] (requestAll cfg mid (cacheVideo cfg s k1 p).1).queue :=
    List.singleton_sublist.2 hmem2
  refine ⟨?_, ?_, ?_⟩
  · intro hp
    refine List.Sublist.trans ?_ e4.2
    rw [hq3, if_neg hp]
    exact List.Sublist.append hs1 (List.Sublist.refl [k2])
  · intro hp
    refine List.Sublist.trans ?_ e4.2
    rw [hq3, if_pos hp]
    exact List.Sublist.cons₂ k2 hs1
  · intro t _ hlt hnd
    exact (processQueue_loads cfg t hlt hnd).1

/-- C4 as amended, at the shipped configuration: two `'normal'` requests with
a `'high'` request for another key between them. -/
theorem fifo_within_tier_witness :
    List.Sublist ["k1", "k2"] (requestAll CONFIG [("z", "normal")]
      (cacheVideo CONFIG (requestAll CONFIG [("y", "high")]
        (cacheVideo CONFIG saturated "k1" "normal").1) "k2" "normal").1).queue :=
  (fifo_within_tier CONFIG saturated "k1" "k2" "normal" [("y", "high")] [("z", "normal")]
    (by decide) (by decide) (by decide) (by decide) (by decide) (by decide) (by decide)
    (by decide) (by decide)).1 (by decide)

/-! ## High priority drains first -/

theorem tierInv_callInvariant (cfg : Config) : CallInvariant cfg TierInv where
  timestamp := by
    intro s u h _
    simpa [TierInv, updateTimestamp_queueTier, updateTimestamp_queue] using h
  enqueue := by
    intro s u p h _ _ _ hq _
    have hq' : u ∉ s.queue := by simpa [isQueued] using hq
    unfold TierInv
    rw [enqueue_queue, enqueue_queueTier]
    by_cases hp : p = "high"
    · simp only [hp, if_true, List.length_cons, h.1, List.nodup_cons, List.pairwise_cons,
        true_and]
      exact ⟨⟨hq', h.2.1⟩, fun _ _ _ => trivial, h.2.2⟩
    · simp only [hp, if_false, List.length_append, h.1, List.length_singleton, true_and]
      refine ⟨List.Nodup.append h.2.1 (List.nodup_singleton u) ?_, ?_⟩
      · intro a ha hb
        rw [List.mem_singleton] at hb
        exact hq' (hb ▸ ha)
      · rw [List.pairwise_append]
        refine ⟨h.2.2, List.pairwise_singleton _ _, ?_⟩
        intro a _ b hb hbh
        rw [List.mem_singleton] at hb
        exact absurd (hb ▸ hbh) hp
  shift := by
    intro s url rest h hq _
    refine ⟨?_, ?_, ?_⟩
    · simp [shiftQueue, h.1]
    · have hnd := h.2.1
      rw [hq] at hnd
      simpa [shiftQueue, hq] using (List.nodup_cons.1 hnd).2
    · exact List.Pairwise.sublist (List.tail_sublist _) h.2.2
  load := by
    intro s url h _ _ _
    exact h

theorem tierInv_of_queueReach {cfg : Config} {s : State} (h : QueueReach cfg s) :
    TierInv s := by
  induction h with
  | start s hq ht => simp [TierInv, hq, ht]
  | request s u p _ ih => exact callInvariant_cacheVideo (tierInv_callInvariant cfg) s u p ih
  | drain s _ ih => exact callInvariant_processQueue (tierInv_callInvariant cfg) s ih
  | inFlight s l c _ ih => exact ih

theorem sublist_pair_of_getElem? {l : List String} :
    ∀ {i j : Nat} {a b : String}, l[i]? = some a → l[j]? = some b → i < j →
      List.Sublist [a, b] l := by
  induction l with
  | nil => intro i j a b hi; simp at hi
  | cons x xs ih =>
    intro i j a b hi hj hij
    cases j with
    | zero => exact absurd hij (Nat.not_lt_zero _)
    | succ j =>
      rw [List.getElem?_cons_succ] at hj
      cases i with
      | zero =>
        simp only [List.getElem?_cons_zero, Option.some.injEq] at hi
        subst hi
        exact List.Sublist.cons₂ _ (List.singleton_sublist.2 (List.getElem?_mem hj))
      | succ i =>
        rw [List.getElem?_cons_succ] at hi
        exact List.Sublist.cons _ (ih hi hj (Nat.lt_of_succ_lt_succ hij))

theorem pairwise_getElem? {R : String → String → Prop} {l : List String}
    (h : l.Pairwise R) :
    ∀ {i j : Nat} {a b : String}, l[i]? = some a → l[j]? = some b → i < j → R a b := by
  induction h with
  | nil => intro i j a b hi; simp at hi
  | cons hx _ ih =>
    intro i j a b hi hj hij
    cases j with
    | zero => exact absurd hij (Nat.not_lt_zero _)
    | succ j =>
      rw [List.getElem?_cons_succ] at hj
      cases i with
      | zero =>
        simp only [List.getElem?_cons_zero, Option.some.injEq] at hi
        subst hi
        exact hx _ (List.getElem?_mem hj)
      | succ i =>
        rw [List.getElem?_cons_succ] at hi
        exact ih hi hj (Nat.lt_of_succ_lt_succ hij)

/-- C5: in every queue state reached through `cacheVideo` calls with any
priorities and `processQueue` drains, a key enqueued with `'high'` (at
position `i`) sits before every key enqueued with another priority (at
position `j`); and when the drain runs with budget left and starts both, it
starts the high-priority key first. -/
theorem high_before_normal (cfg : Config) (t : State) (h : QueueReach cfg t)
    (i j : Nat) (kh kn p : String)
    (hi : t.queue[i]? = some kh) (hti : t.queueTier[i]? = some "high")
    (hj : t.queue[j]? = some kn) (htj : t.queueTier[j]? = some p) (hp : p ≠ "high") :
    i < j ∧
      (t.loading.length < cfg.maxConcurrentLoads →
        wouldLoad t kh = true → wouldLoad t kn = true →
        ∃ started, loads (processQueue cfg t) = loads t ++ started ∧
          List.Sublist [kh, kn] started) := by
  have hT := tierInv_of_queueReach h
  have hij : i < j := by
    rcases Nat.lt_trichotomy i j with hlt | heq | hgt
    · exact hlt
    · subst heq
      rw [hti] at htj
      exact absurd (Option.some.inj htj).symm hp
    · exact absurd (pairwise_getElem? hT.2.2 htj hti hgt rfl) hp
  refine ⟨hij, ?_⟩
  intro hlt hwh hwn
  refine ⟨t.queue.filter (wouldLoad t), (processQueue_loads cfg t hlt hT.2.1).1, ?_⟩
  have hsub := (sublist_pair_of_getElem? hi hj hij).filter (wouldLoad t)
  simpa [List.filter_cons, hwh, hwn] using hsub

/-- C5 at the shipped configuration: `n` is enqueued with `'normal'`, then
`h` with `'high'`; once the loads in flight are done the drain starts `h`
before `n`. -/
theorem high_before_normal_witness :
    ∃ started, loads (processQueue CONFIG tierExample) = loads tierExample ++ started ∧
      List.Sublist ["h", "n"] started :=
  (high_before_normal CONFIG tierExample
    (QueueReach.inFlight _ [] []
      (QueueReach.request _ "h" "high"
        (QueueReach.request _ "n" "normal" (QueueReach.start saturated rfl rfl))))
    0 1 "h" "n" "normal" (by decide) (by decide) (by decide) (by decide) (by decide)).2
    (by decide) (by decide) (by decide)

/-! ## Admission -/

theorem processQueue_events_extend (cfg : Config) (s : State) :
    ∃ later, (processQueue cfg s).events = s.events ++ later :=
  processQueue_preserves cfg (fun x => ∃ later, x.events = s.events ++ later)
    (fun _ _ _ h _ _ => h)
    (fun x url h _ _ _ => by
      obtain ⟨later, hl⟩ := h
      exact ⟨later ++ [Event.loadStart url (setAdd x.loading url).length,
        Event.loadDone url (setDelete (setAdd x.loading url) url).length], by
        rw [loadVideoCore_events, hl, List.append_assoc]⟩)
    s ⟨[], by simp⟩

theorem processQueue_isCached (cfg : Config) (s : State) (k : String)
    (h : isCached s k = true) : isCached (processQueue cfg s) k = true :=
  processQueue_preserves cfg (fun x => isCached x k = true)
    (fun _ _ _ h _ _ => h)
    (fun x url h _ hc _ => by
      have hne : url ≠ k := by
        intro hh
        subst hh
        rw [h] at hc
        exact absurd hc (by decide)
      simpa [loadVideoCore_isCached_ne x url k hne] using h)
    s h

theorem processQueue_queue_suffix (cfg : Config) (s : State) :
    (processQueue cfg s).queue <:+ s.queue :=
  processQueue_preserves cfg (fun x => x.queue <:+ s.queue)
    (fun x _ _ h _ _ => (List.tail_suffix x.queue).trans h)
    (fun _ _ h _ _ _ => h)
    s (List.suffix_refl _)

/-- C7, counterexample: with six loads in flight the request for `k` leaves
the cache without any entry for `k`, so none with status Queued exists; and
with budget left and `a` queued, the request for `k` does not leave the queue
unchanged. -/
theorem admission_counterexample :
    mapGet (cacheVideo CONFIG saturated "k" "normal").1.cache "k" = none ∧
      (cacheVideo CONFIG { init with queue := ["a"] } "k" "normal").1.queue ≠ ["a"] := by
  decide

/-- C7 as amended: for a non-empty key `k` with no cache entry, not loading
and not queued.  With budget left, `cacheVideo(k, p)` starts the load of `k`
at once, `k` is cached when the call returns, the call returns the ready
entry, and the queue left by the drain at the end of `loadVideo` is a suffix
of the old queue (unchanged when the old queue was empty).  With the budget
used up it starts no load, puts `k` in the queue exactly once, at the front
for `'high'` and at the back otherwise, leaves the cache unchanged, so
no entry for `k` exists, and returns a promise polling `waitForCache`. -/
theorem admission (cfg : Config) (s : State) (k p : String) (hk : k ≠ "")
    (hnone : mapGet s.cache k = none) (hl : isLoading s k = false)
    (hq : isQueued s k = false) :
    (s.loading.length < cfg.maxConcurrentLoads →
      (∃ later, (cacheVideo cfg s k p).1.events =
        s.events ++ Event.loadStart k (s.loading.length + 1) ::
          Event.loadDone k s.loading.length :: later) ∧
      isCached (cacheVideo cfg s k p).1 k = true ∧
      (cacheVideo cfg s k p).2.Yields k (s.nextId + 1) ∧
      (cacheVideo cfg s k p).1.queue <:+ s.queue ∧
      (s.queue = [] → (cacheVideo cfg s k p).1.queue = s.queue)) ∧
    (cfg.maxConcurrentLoads ≤ s.loading.length →
      (cacheVideo cfg s k p).1.events = s.events ∧
      (cacheVideo cfg s k p).1.loading = s.loading ∧
      (cacheVideo cfg s k p).1.queue = (if p = "high" then k :: s.queue else s.queue ++ [k]) ∧
      (cacheVideo cfg s k p).1.queue.count k = 1 ∧
      (cacheVideo cfg s k p).1.cache = s.cache ∧
      mapGet (cacheVideo cfg s k p).1.cache k = none ∧
      (cacheVideo cfg s k p).2 = Outcome.waiting k) := by
  have hc : isCached s k = false := isCached_of_mapGet_none hnone
  have hl' : k ∉ s.loading := by simpa [isLoading] using hl
  have hq' : k ∉ s.queue := by simpa [isQueued] using hq
  constructor
  · intro hlt
    have hsat : ¬ s.loading.length ≥ cfg.maxConcurrentLoads := Nat.not_le.2 hlt
    have hcv : cacheVideo cfg s k p =
        (processQueue cfg (loadVideoCore s k).1, Outcome.resolved (some (loadVideoCore s k).2)) := by
      unfold cacheVideo
      simp [hk, hc, hl, hq, hsat, loadVideo]
    rw [hcv]
    refine ⟨?_, ?_, ?_, ?_, ?_⟩
    · obtain ⟨later, hlater⟩ := processQueue_events_extend cfg (loadVideoCore s k).1
      refine ⟨later, ?_⟩
      rw [hlater, loadVideoCore_events, setDelete_setAdd _ _ hl']
      simp [setAdd, hl']
    · exact processQueue_isCached cfg _ k (loadVideoCore_isCached s k)
    · simp [Outcome.Yields, IsEntryOf, loadVideoCore_entry]
    · have := processQueue_queue_suffix cfg (loadVideoCore s k).1
      rwa [loadVideoCore_queue] at this
    · intro hnil
      have := processQueue_queue_suffix cfg (loadVideoCore s k).1
      rw [loadVideoCore_queue, hnil] at this
      rw [hnil]
      exact List.suffix_nil.1 this
  · intro hsat
    rw [saturated_cacheVideo_new cfg s k p hsat hk hc hl hq]
    refine ⟨enqueue_events s k p, enqueue_loading s k p, enqueue_queue s k p, ?_,
      enqueue_cache s k p, by rw [enqueue_cache]; exact hnone, rfl⟩
    rw [enqueue_queue]
    split
    · simp [List.count_cons, List.count_eq_zero_of_not_mem hq']
    · simp [List.count_append, List.count_eq_zero_of_not_mem hq']

/-- C7 as amended, at the shipped configuration, in both branches. -/
theorem admission_witness :
    isCached (cacheVideo CONFIG init "k" "normal").1 "k" = true ∧
      (cacheVideo CONFIG saturated "k" "high").1.queue.count "k" = 1 :=
  ⟨((admission CONFIG init "k" "normal" (by decide) (by decide) (by decide) (by decide)).1
      (by decide)).2.1,
   ((admission CONFIG saturated "k" "high" (by decide) (by decide) (by decide) (by decide)).2
      (by decide)).2.2.2.1⟩

/-! ## The cache grows past `maxCacheSize` -/

/-- C8, evaluation at the failing input: after `cacheVideo` has been called
for twenty-one distinct keys from the initial state, every load has completed
and the cache holds twenty-one entries, more than `CONFIG.maxCacheSize`. -/
theorem cache_exceeds_maxCacheSize :
    (run CONFIG (keys21.map (fun k => Op.cacheVideo k "normal")) init).cache.length = 21 ∧
      (run CONFIG (keys21.map (fun k => Op.cacheVideo k "normal")) init).loading = [] ∧
      CONFIG.maxCacheSize = 20 := by
  decide

/-! ## Eviction -/

theorem foldl_mapDelete_cache (l : List (String × Entry)) :
    ∀ s : State,
      (l.foldl (fun st ue => { st with cache := mapDelete st.cache ue.1 }) s).cache =
        s.cache.filter (fun p => decide (p.1 ∉ l.map Prod.fst)) := by
  induction l with
  | nil => intro s; simp
  | cons a rest ih =>
    intro s
    rw [List.foldl_cons, ih]
    simp only [mapDelete, List.filter_filter, List.map_cons, List.mem_cons, not_or]
    apply List.filter_congr
    intro p _
    by_cases h1 : p.1 = a.1 <;> by_cases h2 : p.1 ∈ rest.map Prod.fst <;> simp [h1, h2]

theorem eq_of_fst_eq_of_nodup {l : List (String × Entry)} (hn : (l.map Prod.fst).Nodup)
    {p q : String × Entry} (hp : p ∈ l) (hq : q ∈ l) (h : p.1 = q.1) : p = q := by
  have h1 := mem_mapGet_of_nodup hn (show (p.1, p.2) ∈ l from hp)
  have h2 := mem_mapGet_of_nodup hn (show (q.1, q.2) ∈ l from hq)
  rw [h, h2] at h1
  exact Prod.ext h (Option.some.inj h1).symm

theorem toRemove_subset (cfg : Config) (s : State) {p : String × Entry}
    (h : p ∈ toRemove cfg s) : p ∈ s.cache := by
  have := List.mem_of_mem_take h
  simpa [sortByTimestamp] using this

/-- The state `enforceCacheLimit` leaves when the cache is over its limit:
exactly the entries of `toRemove` are gone. -/
theorem enforceCacheLimit_cache (cfg : Config) (s : State)
    (hwf : (s.cache.map Prod.fst).Nodup) :
    (enforceCacheLimit cfg s).cache =
      s.cache.filter (fun p => decide (p ∉ toRemove cfg s)) := by
  unfold enforceCacheLimit
  split
  · rename_i hle
    have : toRemove cfg s = [] := by
      simp [toRemove, Nat.sub_eq_zero_of_le hle]
    simp [this]
  · rw [foldl_mapDelete_cache]
    apply List.filter_congr
    intro p hp
    have : p.1 ∈ (toRemove cfg s).map Prod.fst ↔ p ∈ toRemove cfg s := by
      constructor
      · intro h
        obtain ⟨q, hq, hqp⟩ := List.mem_map.1 h
        have := eq_of_fst_eq_of_nodup hwf (toRemove_subset cfg s hq) hp hqp
        exact this ▸ hq
      · intro h
        exact List.mem_map.2 ⟨p, h, rfl⟩
    simp [this]

theorem sortByTimestamp_perm (l : List (String × Entry)) : (sortByTimestamp l).Perm l :=
  List.perm_insertionSort _ l

theorem sortByTimestamp_sorted (l : List (String × Entry)) :
    (sortByTimestamp l).Pairwise (fun a b => a.2.timestamp ≤ b.2.timestamp) := by
  haveI : IsTotal (String × Entry) (fun a b => a.2.timestamp ≤ b.2.timestamp) :=
    ⟨fun a b => Nat.le_total _ _⟩
  haveI : IsTrans (String × Entry) (fun a b => a.2.timestamp ≤ b.2.timestamp) :=
    ⟨fun _ _ _ h1 h2 => Nat.le_trans h1 h2⟩
  exact List.sorted_insertionSort _ l

theorem sortByTimestamp_nodup {l : List (String × Entry)} (hwf : (l.map Prod.fst).Nodup) :
    (sortByTimestamp l).Nodup :=
  (sortByTimestamp_perm l).nodup_iff.2 (List.Nodup.of_map _ hwf)

/-- The entries kept are, up to order, the tail of the sorted entry list. -/
theorem enforceCacheLimit_perm (cfg : Config) (s : State)
    (hwf : (s.cache.map Prod.fst).Nodup) :
    (enforceCacheLimit cfg s).cache.Perm
      ((sortByTimestamp s.cache).drop (s.cache.length - cfg.maxCacheSize)) := by
  rw [enforceCacheLimit_cache cfg s hwf]
  have hnd := sortByTimestamp_nodup hwf
  have hperm := (sortByTimestamp_perm s.cache).symm.filter
    (fun p => decide (p ∉ toRemove cfg s))
  refine hperm.trans ?_
  have hsplit := List.take_append_drop (s.cache.length - cfg.maxCacheSize)
    (sortByTimestamp s.cache)
  have hdisj := List.disjoint_take_drop hnd (Nat.le_refl (s.cache.length - cfg.maxCacheSize))
  have h1 : (sortByTimestamp s.cache).filter (fun p => decide (p ∉ toRemove cfg s)) =
      (sortByTimestamp s.cache).drop (s.cache.length - cfg.maxCacheSize) := by
    conv_lhs => rw [← hsplit]
    rw [List.filter_append]
    have ha : ((sortByTimestamp s.cache).take (s.cache.length - cfg.maxCacheSize)).filter
        (fun p => decide (p ∉ toRemove cfg s)) = [] := by
      apply List.filter_eq_nil_iff.2
      intro a ha
      simpa [toRemove] using ha
    have hb : ((sortByTimestamp s.cache).drop (s.cache.length - cfg.maxCacheSize)).filter
        (fun p => decide (p ∉ toRemove cfg s)) =
        (sortByTimestamp s.cache).drop (s.cache.length - cfg.maxCacheSize) := by
      apply List.filter_eq_self.2
      intro a ha
      have : a ∉ toRemove cfg s := fun h => hdisj h ha
      simpa using this
    rw [ha, hb, List.nil_append]
  rw [h1]

/-- C9: for every cache (a map: no key twice), whatever the statuses, so in
particular when all entries are ready.  With at most `maxCacheSize` entries
`enforceCacheLimit` changes nothing.  With more, it leaves exactly
`maxCacheSize` entries, each an unchanged entry of the old cache, it removes
exactly `size - maxCacheSize` entries, and every removed entry has a
timestamp less than or equal to the timestamp of every entry kept. -/
theorem eviction_selection (cfg : Config) (s : State)
    (hwf : (s.cache.map Prod.fst).Nodup) :
    (s.cache.length ≤ cfg.maxCacheSize → enforceCacheLimit cfg s = s) ∧
    (cfg.maxCacheSize < s.cache.length →
      (enforceCacheLimit cfg s).cache.length = cfg.maxCacheSize ∧
      (enforceCacheLimit cfg s).cache.Sublist s.cache ∧
      (s.cache.filter (fun p => decide (p ∉ (enforceCacheLimit cfg s).cache))).length =
        s.cache.length - cfg.maxCacheSize ∧
      ∀ r ∈ s.cache, r ∉ (enforceCacheLimit cfg s).cache →
        ∀ k ∈ (enforceCacheLimit cfg s).cache, r.2.timestamp ≤ k.2.timestamp) := by
  constructor
  · intro hle
    simp [enforceCacheLimit, hle]
  · intro hlt
    have hlen : (enforceCacheLimit cfg s).cache.length = cfg.maxCacheSize := by
      rw [(enforceCacheLimit_perm cfg s hwf).length_eq, List.length_drop,
        (sortByTimestamp_perm s.cache).length_eq]
      omega
    have hsub : (enforceCacheLimit cfg s).cache.Sublist s.cache := by
      rw [enforceCacheLimit_cache cfg s hwf]
      exact List.filter_sublist _
    refine ⟨hlen, hsub, ?_, ?_⟩
    · have hcongr : s.cache.filter (fun p => decide (p ∉ (enforceCacheLimit cfg s).cache)) =
          s.cache.filter (fun p => !decide (p ∉ toRemove cfg s)) := by
        apply List.filter_congr
        intro p hp
        rw [enforceCacheLimit_cache cfg s hwf]
        simp [List.mem_filter, hp]
      have hadd := List.length_eq_length_filter_add (l := s.cache)
        (fun p => decide (p ∉ toRemove cfg s))
      rw [← enforceCacheLimit_cache cfg s hwf, hlen] at hadd
      rw [hcongr]
      omega
    · intro r hr hrn k hk
      have hr' : r ∈ toRemove cfg s := by
        rw [enforceCacheLimit_cache cfg s hwf] at hrn
        by_contra hnot
        exact hrn (List.mem_filter.2 ⟨hr, by simpa using hnot⟩)
      have hk' : k ∈ (sortByTimestamp s.cache).drop (s.cache.length - cfg.maxCacheSize) :=
        (enforceCacheLimit_perm cfg s hwf).subset hk
      have hsorted := sortByTimestamp_sorted s.cache
      rw [← List.take_append_drop (s.cache.length - cfg.maxCacheSize)
        (sortByTimestamp s.cache), List.pairwise_append] at hsorted
      exact hsorted.2.2 r hr' k hk'

/-- C9 on the cache `{x: 1, y: 5, z: 3}` with room for two entries: two
entries are left, and they are `y` and `z`. -/
theorem eviction_selection_witness :
    (enforceCacheLimit { CONFIG with maxCacheSize := 2 } xyz).cache.length = 2 ∧
      (enforceCacheLimit { CONFIG with maxCacheSize := 2 } xyz).cache.map Prod.fst
        = ["y", "z"] :=
  ⟨((eviction_selection { CONFIG with maxCacheSize := 2 } xyz (by decide)).2
      (by decide)).1, by decide⟩

/-- C10, counterexample: the cache holds twenty-one entries, one more than
`CONFIG.maxCacheSize`; the entry of `v1` has status `'loading'` and the
smallest timestamp, and `enforceCacheLimit` removes it. -/
theorem eviction_floor_counterexample :
    (mapGet overfull.cache "v1").map (fun e => e.status) = some "loading" ∧
      mapGet (enforceCacheLimit CONFIG overfull).cache "v1" = none := by
  decide

/-- C10 as amended: `enforceCacheLimit` does not look at the status.  An
entry of the cache, ready or not, is kept if and only if it is not among the
first `size - maxCacheSize` entries in ascending timestamp order; every
entry is kept when the cache holds at most `maxCacheSize` entries. -/
theorem eviction_by_timestamp_only (cfg : Config) (s : State)
    (hwf : (s.cache.map Prod.fst).Nodup) (p : String × Entry) (hp : p ∈ s.cache) :
    (p ∈ (enforceCacheLimit cfg s).cache ↔ p ∉ toRemove cfg s) ∧
      (s.cache.length ≤ cfg.maxCacheSize → p ∈ (enforceCacheLimit cfg s).cache) := by
  constructor
  · rw [enforceCacheLimit_cache cfg s hwf]
    simp [List.mem_filter, hp]
  · intro hle
    simpa [enforceCacheLimit, hle] using hp

/-- C10 as amended, on a cache over its limit: the loading entry with the
larger timestamp is kept. -/
theorem eviction_by_timestamp_only_witness :
    loadingAt 1 "y" 5 ∈
      (enforceCacheLimit { CONFIG with maxCacheSize := 1 }
        { init with cache := [readyAt 0 "x" 1, loadingAt 1 "y" 5] }).cache :=
  (eviction_by_timestamp_only { CONFIG with maxCacheSize := 1 }
    { init with cache := [readyAt 0 "x" 1, loadingAt 1 "y" 5] }
    (by decide) (loadingAt 1 "y" 5) (by decide)).1.2 (by decide)



/-! ## The window of `preloadAround` -/

theorem arrayAt_natCast (urls : List String) (n : Nat) : arrayAt urls (n : Int) = urls[n]? := by
  simp [arrayAt]

theorem arrayAt_eq_some {urls : List String} {index : Int} {b : String}
    (h : arrayAt urls index = some b) : ∃ n : Nat, (n : Int) = index ∧ urls[n]? = some b := by
  unfold arrayAt at h
  split at h
  · rename_i h0
    exact ⟨index.toNat, Int.toNat_of_nonneg h0, h⟩
  · exact absurd h (by simp)

/-- What one round of the first loop pushes. -/
theorem aheadStep_eq_some {urls : List String} {currentIndex : Int} {i : Nat} {b : String}
    (h : (if currentIndex + (i : Int) < (urls.length : Int) ∧
            truthy (arrayAt urls (currentIndex + (i : Int))) = true
          then arrayAt urls (currentIndex + (i : Int)) else none) = some b) :
    ∃ n : Nat, (n : Int) = currentIndex + (i : Int) ∧ urls[n]? = some b := by
  split at h
  · exact arrayAt_eq_some h
  · exact absurd h (by simp)

/-- What one round of the second loop pushes. -/
theorem behindStep_eq_some {urls : List String} {currentIndex : Int} {i : Nat} {b : String}
    (h : (if 0 ≤ currentIndex - (i : Int) ∧
            truthy (arrayAt urls (currentIndex - (i : Int))) = true
          then arrayAt urls (currentIndex - (i : Int)) else none) = some b) :
    ∃ n : Nat, (n : Int) = currentIndex - (i : Int) ∧ urls[n]? = some b := by
  split at h
  · exact arrayAt_eq_some h
  · exact absurd h (by simp)

theorem getElem?_inj_of_nodup {urls : List String} (hnd : urls.Nodup) {n m : Nat} {b : String}
    (hn : urls[n]? = some b) (hm : urls[m]? = some b) : n = m := by
  have hlt : n < urls.length := by
    by_contra hge
    rw [List.getElem?_eq_none (Nat.le_of_not_lt hge)] at hn
    exact absurd hn (by simp)
  exact List.getElem?_inj hlt hnd (hn.trans hm.symm)

theorem truthy_of_nonempty {urls : List String} (hne : ∀ u ∈ urls, u ≠ "") (n : Nat) {b : String}
    (h : urls[n]? = some b) : truthy (urls[n]?) = true := by
  rw [h]
  simp [truthy, hne b (List.getElem?_mem h)]

theorem mem_aheadKeys {urls : List String} (hne : ∀ u ∈ urls, u ≠ "") (c ahead : Nat)
    (k : String) :
    k ∈ aheadKeys urls (c : Int) ahead ↔ ∃ i, 1 ≤ i ∧ i ≤ ahead ∧ urls[c + i]? = some k := by
  unfold aheadKeys
  simp only [List.mem_filterMap, List.mem_range'_1]
  constructor
  · rintro ⟨i, ⟨h1, h2⟩, h⟩
    obtain ⟨n, hn, hk⟩ := aheadStep_eq_some h
    have : n = c + i := by omega
    subst this
    exact ⟨i, h1, by omega, hk⟩
  · rintro ⟨i, h1, h2, hk⟩
    refine ⟨i, ⟨h1, by omega⟩, ?_⟩
    have hcast : (c : Int) + (i : Int) = ((c + i : Nat) : Int) := by push_cast; rfl
    have hlt : c + i < urls.length := by
      by_contra hge
      rw [List.getElem?_eq_none (Nat.le_of_not_lt hge)] at hk
      exact absurd hk (by simp)
    rw [hcast, arrayAt_natCast, if_pos ⟨by exact_mod_cast hlt, truthy_of_nonempty hne _ hk⟩]
    exact hk

theorem mem_behindKeys {urls : List String} (hne : ∀ u ∈ urls, u ≠ "") (c behind : Nat)
    (k : String) :
    k ∈ behindKeys urls (c : Int) behind ↔
      ∃ i, 1 ≤ i ∧ i ≤ behind ∧ i ≤ c ∧ urls[c - i]? = some k := by
  unfold behindKeys
  simp only [List.mem_filterMap, List.mem_range'_1]
  constructor
  · rintro ⟨i, ⟨h1, h2⟩, h⟩
    obtain ⟨n, hn, hk⟩ := behindStep_eq_some h
    have hic : i ≤ c := by omega
    have : n = c - i := by omega
    subst this
    exact ⟨i, h1, by omega, hic, hk⟩
  · rintro ⟨i, h1, h2, hic, hk⟩
    refine ⟨i, ⟨h1, by omega⟩, ?_⟩
    have hcast : (c : Int) - (i : Int) = ((c - i : Nat) : Int) := by omega
    rw [hcast, arrayAt_natCast, if_pos ⟨by omega, truthy_of_nonempty hne _ hk⟩]
    exact hk

/-- C11, counterexample: on `[A, B, C, D]` with current index 3, two ahead and
one behind, `preloadAround` submits `C` only; `A`, the key at index
`(3 + 1) mod 4`, is not submitted. -/
theorem window_wraparound_counterexample :
    toPreload ["A", "B", "C", "D"] 3 2 1 = ["C"] ∧
      ["A", "B", "C", "D"][(3 + 1) % 4]? = some "A" ∧
      "A" ∉ toPreload ["A", "B", "C", "D"] 3 2 1 := by
  decide

/-- C11 as amended: for a catalog of non-empty keys and a current index `c`,
a key is submitted by `preloadAround` if and only if it is `urls[c + i]` for
some `1 ≤ i ≤ ahead` with `c + i` inside the catalog, or `urls[c - i]` for some
`1 ≤ i ≤ behind` with `c - i ≥ 0`: the window stops at both ends of the
catalog. -/
theorem window_clamped (urls : List String) (hne : ∀ u ∈ urls, u ≠ "") (c ahead behind : Nat)
    (k : String) :
    k ∈ toPreload urls (c : Int) ahead behind ↔
      (∃ i, 1 ≤ i ∧ i ≤ ahead ∧ urls[c + i]? = some k) ∨
      (∃ i, 1 ≤ i ∧ i ≤ behind ∧ i ≤ c ∧ urls[c - i]? = some k) := by
  unfold toPreload
  rw [List.mem_append, mem_aheadKeys hne, mem_behindKeys hne]

/-- C11 as amended, on `[A, B, C, D]` with current index 1: `C` is submitted
as the key one ahead. -/
theorem window_clamped_witness :
    "C" ∈ toPreload ["A", "B", "C", "D"] ((1 : Nat) : Int) 2 1 :=
  (window_clamped ["A", "B", "C", "D"] (by decide) 1 2 1 "C").2
    (Or.inl ⟨1, by decide, by decide, by decide⟩)

/-- C12: for a catalog of pairwise distinct keys, every current index and
every `ahead` and `behind`, the list `preloadAround` hands to
`preloadMultiple` holds no key twice. -/
theorem window_nodup (urls : List String) (hnd : urls.Nodup) (currentIndex : Int)
    (ahead behind : Nat) : (toPreload urls currentIndex ahead behind).Nodup := by
  unfold toPreload
  refine List.Nodup.append ?_ ?_ ?_
  · unfold aheadKeys
    refine List.Nodup.filterMap ?_ (List.nodup_range' 1 ahead)
    intro i j b hi hj
    obtain ⟨n, hn, hkn⟩ := aheadStep_eq_some (Option.mem_def.1 hi)
    obtain ⟨m, hm, hkm⟩ := aheadStep_eq_some (Option.mem_def.1 hj)
    have := getElem?_inj_of_nodup hnd hkn hkm
    omega
  · unfold behindKeys
    refine List.Nodup.filterMap ?_ (List.nodup_range' 1 behind)
    intro i j b hi hj
    obtain ⟨n, hn, hkn⟩ := behindStep_eq_some (Option.mem_def.1 hi)
    obtain ⟨m, hm, hkm⟩ := behindStep_eq_some (Option.mem_def.1 hj)
    have := getElem?_inj_of_nodup hnd hkn hkm
    omega
  · intro b hb1 hb2
    unfold aheadKeys at hb1
    unfold behindKeys at hb2
    simp only [List.mem_filterMap, List.mem_range'_1] at hb1 hb2
    obtain ⟨i, ⟨hi1, _⟩, hi⟩ := hb1
    obtain ⟨j, ⟨hj1, _⟩, hj⟩ := hb2
    obtain ⟨n, hn, hkn⟩ := aheadStep_eq_some hi
    obtain ⟨m, hm, hkm⟩ := behindStep_eq_some hj
    have := getElem?_inj_of_nodup hnd hkn hkm
    omega

/-- C12 on four distinct keys with `ahead + behind` larger than the
catalog. -/
theorem window_nodup_witness : (toPreload ["A", "B", "C", "D"] 1 5 5).Nodup :=
  window_nodup ["A", "B", "C", "D"] (by decide) 1 5 5

theorem toPreload_nil (currentIndex : Int) (ahead behind : Nat) :
    toPreload [] currentIndex ahead behind = [] := by
  have h : ∀ index : Int, arrayAt [] index = none := by
    intro index
    unfold arrayAt
    split <;> rfl
  unfold toPreload aheadKeys behindKeys
  simp [h, truthy]

/-- C13, evaluation at the failing input: with the not-found index `-1`, two
ahead and one behind, `preloadAround` submits the first two keys of the
catalog `[A, B]`.  On the empty catalog it submits nothing. -/
theorem window_not_found_submits :
    toPreload ["A", "B"] (-1) 2 1 = ["A", "B"] ∧
      ∀ (currentIndex : Int) (ahead behind : Nat),
        toPreload [] currentIndex ahead behind = [] :=
  ⟨by decide, toPreload_nil⟩

/-! ## Cache hit -/

theorem mapGet_isSome_of_isCached {s : State} {k : String} (h : isCached s k = true) :
    ∃ e, mapGet s.cache k = some e ∧ e.status = "ready" := by
  unfold isCached at h
  cases hg : mapGet s.cache k with
  | none => simp [hg] at h
  | some e =>
    simp only [hg, decide_eq_true_eq] at h
    exact ⟨e, rfl, h⟩

theorem mem_keys_of_mapGet {m : List (String × Entry)} {k : String} {e : Entry}
    (h : mapGet m k = some e) : k ∈ m.map Prod.fst :=
  List.mem_map.2 ⟨(k, e), mapGet_some_mem h, rfl⟩

theorem updateTimestamp_keys (s : State) (u : String) :
    (updateTimestamp s u).cache.map Prod.fst = s.cache.map Prod.fst := by
  unfold updateTimestamp
  cases hg : mapGet s.cache u with
  | none => rfl
  | some e => exact mapSet_keys_of_mem _ _ _ (mem_keys_of_mapGet hg)

theorem updateTimestamp_isCached (s : State) (u v : String) :
    isCached (updateTimestamp s u) v = isCached s v := by
  by_cases h : u = v
  · subst h
    cases hg : mapGet s.cache u with
    | none => simp [updateTimestamp, hg]
    | some e => simp [isCached, updateTimestamp_mapGet_self s u e hg, hg]
  · simp [isCached, updateTimestamp_mapGet_ne s u v h]

/-- C14: for every state and every non-empty key `k` with `isCached(k)`,
`cacheVideo(k, p)` returns the entry object stored for `k` with its timestamp
set to the clock reading, stores it under `k`, starts no load, and leaves the
queue, `state.loading`, the keys of the cache, which keys are cached and the
entry of every other key unchanged. -/
theorem cache_hit (cfg : Config) (s : State) (k p : String) (hk : k ≠ "")
    (hc : isCached s k = true) :
    ∃ e, mapGet s.cache k = some e ∧
      (cacheVideo cfg s k p).2 = Outcome.resolved (some { e with timestamp := s.now }) ∧
      mapGet (cacheVideo cfg s k p).1.cache k = some { e with timestamp := s.now } ∧
      (cacheVideo cfg s k p).1.events = s.events ∧
      (cacheVideo cfg s k p).1.queue = s.queue ∧
      (cacheVideo cfg s k p).1.loading = s.loading ∧
      (cacheVideo cfg s k p).1.cache.map Prod.fst = s.cache.map Prod.fst ∧
      (∀ u, isCached (cacheVideo cfg s k p).1 u = isCached s u) ∧
      (∀ u, u ≠ k → mapGet (cacheVideo cfg s k p).1.cache u = mapGet s.cache u) := by
  obtain ⟨e, he, _⟩ := mapGet_isSome_of_isCached hc
  have hcv : cacheVideo cfg s k p =
      (updateTimestamp s k, Outcome.resolved (mapGet (updateTimestamp s k).cache k)) := by
    unfold cacheVideo
    simp [hk, hc]
  rw [hcv]
  refine ⟨e, he, ?_, updateTimestamp_mapGet_self s k e he, updateTimestamp_events s k,
    updateTimestamp_queue s k, updateTimestamp_loading s k, updateTimestamp_keys s k,
    updateTimestamp_isCached s k, ?_⟩
  · simp only
    rw [updateTimestamp_mapGet_self s k e he]
  · intro u hu
    exact updateTimestamp_mapGet_ne s k u (Ne.symm hu)

/-- C14 at the shipped configuration: `k` is loaded, the clock advances by 7
and `k` is requested again; no second load is started. -/
theorem cache_hit_witness :
    ∃ e, mapGet (run CONFIG [Op.cacheVideo "k" "normal", Op.tick 7] init).cache "k" = some e ∧
      (cacheVideo CONFIG (run CONFIG [Op.cacheVideo "k" "normal", Op.tick 7] init)
          "k" "high").2 = Outcome.resolved (some { e with timestamp := 7 }) :=
  let ⟨e, he, hr, _⟩ := cache_hit CONFIG (run CONFIG [Op.cacheVideo "k" "normal", Op.tick 7] init)
    "k" "high" (by decide) (by decide)
  ⟨e, he, hr⟩

/-! ## Batch filter -/

theorem processQueue_mapGet_ready (cfg : Config) (s : State) (k : String) (e : Entry)
    (h : mapGet s.cache k = some e) (hr : e.status = "ready") :
    mapGet (processQueue cfg s).cache k = some e :=
  processQueue_preserves cfg (fun x => mapGet x.cache k = some e)
    (fun _ _ _ h _ _ => h)
    (fun x url h _ hc _ => by
      have hne : url ≠ k := by
        intro hh
        subst hh
        simp [isCached, h, hr] at hc
      show mapGet (loadVideoCore x url).1.cache k = some e
      rw [loadVideoCore_mapGet_ne x url k hne]
      exact h)
    s h

/-- A request for another key leaves a ready entry as it is. -/
theorem cacheVideo_mapGet_ready (cfg : Config) (s : State) (u p k : String) (e : Entry)
    (h : mapGet s.cache k = some e) (hr : e.status = "ready") (hne : u ≠ k) :
    mapGet (cacheVideo cfg s u p).1.cache k = some e := by
  unfold cacheVideo
  by_cases h0 : u = ""
  · simpa [h0] using h
  · rw [if_neg h0]
    cases hc : isCached s u with
    | true =>
      simp only [if_true]
      rw [updateTimestamp_mapGet_ne s u k hne]
      exact h
    | false =>
      cases hl : isLoading s u with
      | true => simpa using h
      | false =>
        cases hq : isQueued s u with
        | true => simpa using h
        | false =>
          by_cases hsat : s.loading.length ≥ cfg.maxConcurrentLoads
          · simpa [hsat, enqueue_cache] using h
          · simp only [hsat, if_false, Bool.false_eq_true, loadVideo]
            apply processQueue_mapGet_ready cfg _ k e _ hr
            rw [loadVideoCore_mapGet_ne s u k hne]
            exact h

theorem foldl_cacheVideo_mapGet_ready (cfg : Config) (p k : String) (e : Entry)
    (hr : e.status = "ready") (urls : List String) (hne : ∀ u ∈ urls, u ≠ k) :
    ∀ s : State, mapGet s.cache k = some e →
      mapGet (urls.foldl (fun st url => (cacheVideo cfg st url p).1) s).cache k = some e := by
  induction urls with
  | nil => intro s h; exact h
  | cons u rest ih =>
    intro s h
    exact ih (fun v hv => hne v (List.mem_cons_of_mem _ hv)) _
      (cacheVideo_mapGet_ready cfg s u p k e h hr (hne u (List.mem_cons_self _ _)))

theorem requestAll_map (cfg : Config) (p : String) (urls : List String) :
    ∀ s : State, requestAll cfg (urls.map (fun k => (k, p))) s =
      urls.foldl (fun st url => (cacheVideo cfg st url p).1) s := by
  induction urls with
  | nil => intro s; rfl
  | cons u rest ih =>
    intro s
    simp only [List.map_cons, List.foldl_cons, requestAll]
    exact ih _

/-- C15: for every state and every list of keys, `preloadMultiple(keys, p)`
is the series of calls `cacheVideo(k, p)` for the non-empty keys of the list
that are neither cached, nor loading, nor queued when it is called, in list
order; and the entry of a key that is ready when it is called, timestamp
included, is the same afterwards. -/
theorem batch_filter (cfg : Config) (s : State) (keys : List String) (p : String) :
    preloadMultiple cfg s keys p =
        requestAll cfg ((keys.filter (needsRequest s)).map (fun k => (k, p))) s ∧
      ∀ k e, mapGet s.cache k = some e → e.status = "ready" →
        mapGet (preloadMultiple cfg s keys p).cache k = some e := by
  have hfilter : keys.filter (fun url => decide (url ≠ "") && !isCached s url &&
      !isLoading s url && !isQueued s url) = keys.filter (needsRequest s) := by
    apply List.filter_congr
    intro u _
    unfold needsRequest
    cases isCached s u <;> cases isLoading s u <;> cases isQueued s u <;>
      by_cases h0 : u = "" <;> simp [h0]
  have hpm : preloadMultiple cfg s keys p =
      (keys.filter (needsRequest s)).foldl (fun st url => (cacheVideo cfg st url p).1) s := by
    unfold preloadMultiple
    simp only [hfilter]
    split
    · rfl
    · rename_i hlen
      have : keys.filter (needsRequest s) = [] := by
        apply List.eq_nil_of_length_eq_zero
        omega
      rw [this]
      rfl
  refine ⟨by rw [hpm, requestAll_map], ?_⟩
  intro k e hk hr
  rw [hpm]
  apply foldl_cacheVideo_mapGet_ready cfg p k e hr _ _ s hk
  intro u hu hh
  subst hh
  have := (List.mem_filter.1 hu).2
  simp [needsRequest, isCached, hk, hr] at this

/-- C15 at the shipped configuration: `a` is ready; a batch naming `a`, the
empty key, `b` twice and `c` requests `b`, `b`, `c` and leaves the entry of
`a` as it was. -/
theorem batch_filter_witness :
    preloadMultiple CONFIG (run CONFIG [Op.cacheVideo "a" "normal", Op.tick 5] init)
        ["a", "", "b", "b", "c"] "normal" =
      requestAll CONFIG [("b", "normal"), ("b", "normal"), ("c", "normal")]
        (run CONFIG [Op.cacheVideo "a" "normal", Op.tick 5] init) :=
  (batch_filter CONFIG (run CONFIG [Op.cacheVideo "a" "normal", Op.tick 5] init)
    ["a", "", "b", "b", "c"] "normal").1

/-! ## The budget after a load -/

theorem setDelete_setAdd_eq (l : List String) (u : String) :
    setDelete (setAdd l u) u = setDelete l u := by
  by_cases h : u ∈ l
  · simp [setAdd, h]
  · rw [setDelete_setAdd l u h]
    unfold setDelete
    symm
    apply List.filter_eq_self.2
    intro a ha
    simp only [ne_eq, decide_not, Bool.not_eq_eq_eq_not, Bool.not_true, decide_eq_false_iff_not]
    exact fun hh => h (hh ▸ ha)

theorem not_mem_setDelete (l : List String) (u : String) : u ∉ setDelete l u := by
  simp [setDelete]

theorem processQueue_loading (cfg : Config) (s : State) :
    (processQueue cfg s).loading = s.loading :=
  processQueue_preserves cfg (fun x => x.loading = s.loading)
    (fun _ _ _ h _ _ => h)
    (fun x url h _ _ hl => by
      show (loadVideoCore x url).1.loading = s.loading
      rw [loadVideoCore_loading_of_not_mem x url (by simpa [isLoading] using hl)]
      exact h)
    s rfl

theorem loadVideo_loading (cfg : Config) (s : State) (k : String) :
    (loadVideo cfg s k).1.loading = setDelete s.loading k := by
  unfold loadVideo
  simp only
  rw [processQueue_loading, loadVideoCore_loading, setDelete_setAdd_eq]

theorem loadVideo_isCached (cfg : Config) (s : State) (k : String) :
    isCached (loadVideo cfg s k).1 k = true := by
  unfold loadVideo
  exact processQueue_isCached cfg _ k (loadVideoCore_isCached s k)

/-- C16: for every state and key `k`, once `loadVideo(k)` has returned, `k` is
not in `state.loading` and `k` is cached, whatever becomes of the media load,
which no statement of `loadVideo` waits for.  Called as the code calls it,
with `k` not loading, it leaves `state.loading`, and so its size, as before
the call; and if budget was left before the call, a following
`cacheVideo(other)` for a new key returns a ready entry with `other`
cached. -/
theorem budget_restored (cfg : Config) (s : State) (k : String) :
    k ∉ (loadVideo cfg s k).1.loading ∧
      isCached (loadVideo cfg s k).1 k = true ∧
      (isLoading s k = false →
        (loadVideo cfg s k).1.loading = s.loading ∧
        (loadVideo cfg s k).1.loading.length = s.loading.length) ∧
      (isLoading s k = false → s.loading.length < cfg.maxConcurrentLoads →
        ∀ other p, other ≠ "" → isCached (loadVideo cfg s k).1 other = false →
          isLoading (loadVideo cfg s k).1 other = false →
          isQueued (loadVideo cfg s k).1 other = false →
          isCached (cacheVideo cfg (loadVideo cfg s k).1 other p).1 other = true ∧
            ∃ e, (cacheVideo cfg (loadVideo cfg s k).1 other p).2 = Outcome.resolved (some e) ∧
              e.status = "ready") := by
  have hsame : isLoading s k = false → (loadVideo cfg s k).1.loading = s.loading := by
    intro hl
    have hl' : k ∉ s.loading := by simpa [isLoading] using hl
    rw [loadVideo_loading]
    unfold setDelete
    apply List.filter_eq_self.2
    intro a ha
    simp only [ne_eq, decide_not, Bool.not_eq_eq_eq_not, Bool.not_true, decide_eq_false_iff_not]
    exact fun hh => hl' (hh ▸ ha)
  refine ⟨?_, loadVideo_isCached cfg s k, ?_, ?_⟩
  · rw [loadVideo_loading]
    exact not_mem_setDelete _ _
  · intro hl
    exact ⟨hsame hl, by rw [hsame hl]⟩
  · intro hl hlt other p h0 hc hlo hq
    have hsat : ¬ (loadVideo cfg s k).1.loading.length ≥ cfg.maxConcurrentLoads := by
      rw [hsame hl]
      exact Nat.not_le.2 hlt
    have hcv : cacheVideo cfg (loadVideo cfg s k).1 other p =
        ((loadVideo cfg (loadVideo cfg s k).1 other).1,
          Outcome.resolved (some (loadVideo cfg (loadVideo cfg s k).1 other).2)) := by
      conv_lhs => unfold cacheVideo
      simp [h0, hc, hlo, hq, hsat]
    rw [hcv]
    exact ⟨loadVideo_isCached cfg _ other, _, rfl, rfl⟩

/-- C16 at the shipped configuration: after the load of `k` from the initial
state, the request for `other` leaves `other` cached. -/
theorem budget_restored_witness :
    isCached (cacheVideo CONFIG (loadVideo CONFIG init "k").1 "other" "normal").1 "other"
      = true :=
  ((budget_restored CONFIG init "k").2.2.2 (by decide) (by decide) "other" "normal" (by decide)
    (by decide) (by decide) (by decide)).1

/-! ## The entries `loadVideo` stores -/

/-- C17, counterexample: the entry `loadVideo` stores when the load of `k`
starts has status `'loading'` and a null video handle. -/
theorem handle_invariant_counterexample :
    (mapGet (loadVideoBegin init "k").cache "k").map (fun e => (e.status, e.video))
      = some ("loading", none) := by
  decide

theorem loadVideoBegin_mapGet (s : State) (k : String) :
    mapGet (loadVideoBegin s k).cache k =
      some { oid := s.nextId, blobUrl := none, video := none, status := "loading",
             timestamp := s.now } := by
  unfold loadVideoBegin
  exact mapGet_mapSet_self _ _ _

/-- C17 as amended: `loadVideo` stores two entries.  The one stored when the
load starts has status `'loading'` and a null video handle; the one stored
when it completes has status `'ready'` and the video element.  So an entry
stored by `loadVideo` has a non-null handle if and only if its status is
`'ready'`, and `getCachedVideo` is null during the load and the element after
it. -/
theorem handle_iff_ready (s : State) (k : String) :
    (∃ e0 e1, storedEntries s k = [e0, e1] ∧
        e0.status = "loading" ∧ e0.video = none ∧
        e1.status = "ready" ∧ e1.video = some (createVideo k)) ∧
      (∀ e ∈ storedEntries s k, e.video ≠ none ↔ e.status = "ready") ∧
      getCachedVideo (loadVideoBegin s k) k = none ∧
      getCachedVideo (loadVideoCore s k).1 k = some (createVideo k) := by
  have hst : storedEntries s k =
      [{ oid := s.nextId, blobUrl := none, video := none, status := "loading",
         timestamp := s.now }, (loadVideoCore s k).2] := by
    unfold storedEntries
    rw [loadVideoBegin_mapGet]
    rfl
  refine ⟨⟨_, _, hst, rfl, rfl, rfl, rfl⟩, ?_, ?_, ?_⟩
  · intro e he
    rw [hst] at he
    simp only [List.mem_cons, List.mem_singleton, List.not_mem_nil, or_false] at he
    rcases he with he | he
    · subst he
      simp
    · subst he
      simp [loadVideoCore_entry]
  · simp [getCachedVideo, loadVideoBegin_mapGet]
  · simp [getCachedVideo, loadVideoCore_cache, mapGet_mapSet_self, loadVideoCore_entry]

/-! ## Empty key -/

/-- C18: for every state, `cacheVideo` with a falsy key (empty or missing)
returns `null` and leaves the whole state, so the cache, `state.loading` and
the queue, unchanged; `ensureReady` with a falsy key resolves `false` at once
and leaves the state unchanged, so no request is issued. -/
theorem empty_key_rejected {α : Type} [LE α] [DecidableRel (fun a b : α => a ≤ b)] [Add α]
    [Zero α] (cfg : Config) (s : State) (p : String) (minSeconds : α) (media : Media α)
    (polls : List (Nat × Media α)) :
    cacheVideo cfg s "" p = (s, Outcome.null) ∧
      ensureReady cfg s "" minSeconds media polls = (s, Readiness.resolved false s.now) := by
  constructor
  · simp [cacheVideo]
  · simp [ensureReady]

/-! ## Buffer coverage -/

theorem bufferLoop_iff {α : Type} [LE α] [DecidableRel (fun a b : α => a ≤ b)] [Add α]
    (t m : α) (ranges : List (α × α)) :
    bufferLoop t m ranges = true ↔ ∃ r ∈ ranges, r.1 ≤ t ∧ t + m ≤ r.2 := by
  induction ranges with
  | nil => simp [bufferLoop]
  | cons r rest ih =>
    obtain ⟨start, stop⟩ := r
    unfold bufferLoop
    by_cases h : start ≤ t ∧ t + m ≤ stop
    · simp only [h, and_self, if_true, List.mem_cons, true_iff]
      exact ⟨(start, stop), Or.inl rfl, h⟩
    · rw [if_neg h, ih]
      constructor
      · rintro ⟨r, hr, hr2⟩
        exact ⟨r, List.mem_cons_of_mem _ hr, hr2⟩
      · rintro ⟨r, hr, hr2⟩
        rcases List.mem_cons.1 hr with hr | hr
        · subst hr
          exact absurd hr2 h
        · exact ⟨r, hr, hr2⟩

/-- C19: for every video element, with `t` its current position (0 when
unset), and every `minSeconds` `m`, `hasEnoughBuffer(video, m)` is true if and
only if some buffered range `(start, end)` has `start ≤ t` and `t + m ≤ end`;
it is false for a null handle, for an element without `buffered` and for an
empty range list.  The times are of any number type with its own `≤` and
`+`. -/
theorem buffer_coverage {α : Type} [LE α] [DecidableRel (fun a b : α => a ≤ b)] [Add α]
    [Zero α] (video : Media α) (m : α) :
    (hasEnoughBuffer (some video) m = true ↔
        ∃ ranges, video.buffered = some ranges ∧
          ∃ r ∈ ranges, r.1 ≤ video.currentTime.getD 0 ∧ video.currentTime.getD 0 + m ≤ r.2) ∧
      hasEnoughBuffer (none : Option (Media α)) m = false ∧
      (video.buffered = none → hasEnoughBuffer (some video) m = false) ∧
      (video.buffered = some [] → hasEnoughBuffer (some video) m = false) := by
  refine ⟨?_, rfl, ?_, ?_⟩
  · cases hb : video.buffered with
    | none => simp [hasEnoughBuffer, hb]
    | some ranges =>
      have hE : hasEnoughBuffer (some video) m =
          (if ranges.length = 0 then false
           else bufferLoop (video.currentTime.getD 0) m ranges) := by
        simp only [hasEnoughBuffer, hb]
      rw [hE]
      simp only [Option.some.injEq, exists_eq_left']
      by_cases hlen : ranges.length = 0
      · have : ranges = [] := List.eq_nil_of_length_eq_zero hlen
        subst this
        simp
      · rw [if_neg hlen]
        exact bufferLoop_iff _ _ _
  · intro hb
    simp [hasEnoughBuffer, hb]
  · intro hb
    simp [hasEnoughBuffer, hb]

/-- C19 on an element at position 2 with ranges `(0, 1)` and `(1, 5)`: two
seconds from the position are buffered. -/
theorem buffer_coverage_witness :
    hasEnoughBuffer
      (some ({ currentTime := some 2, buffered := some [(0, 1), (1, 5)], readyState := 0 } :
        Media Nat)) 2 = true :=
  (buffer_coverage
    ({ currentTime := some 2, buffered := some [(0, 1), (1, 5)], readyState := 0 } : Media Nat)
    2).1.2 ⟨[(0, 1), (1, 5)], rfl, (1, 5), by decide, by decide, by decide⟩

/-! ## Readiness timeout -/

theorem checkPolls_never {α : Type} [LE α] [DecidableRel (fun a b : α => a ≤ b)] [Add α]
    [Zero α] (cfg : Config) (m : α) (start : Nat) (polls : List (Nat × Media α))
    (hnever : ∀ q ∈ polls, hasEnoughBuffer (some q.2) m = false ∧ q.2.readyState < 3) :
    checkPolls cfg m start polls =
      match polls.find? (fun q => decide ((q.1 : Int) - (start : Int) > (cfg.bufferTimeout : Int)))
        with
      | some q => Readiness.resolved false q.1
      | none => Readiness.pending := by
  induction polls with
  | nil => rfl
  | cons q rest ih =>
    obtain ⟨now, video⟩ := q
    have hq := hnever (now, video) (List.mem_cons_self _ _)
    have ih' := ih (fun q hq => hnever q (List.mem_cons_of_mem _ hq))
    unfold checkPolls
    by_cases ht : (now : Int) - (start : Int) > (cfg.bufferTimeout : Int)
    · simp [ht, List.find?_cons]
    · have hrs : ¬ video.readyState ≥ 3 := Nat.not_le.2 hq.2
      simp only [ht, if_false, hq.1, hrs, decide_False, Bool.or_self, Bool.false_eq_true,
        List.find?_cons]
      exact ih'

/-- C20, counterexample: `k` is cached and its element never buffers; the
call passes `timeoutMs = 100` and polls run every 30 ms.  At the poll at
120 ms the promise is still pending; it resolves `false` at the poll at
1530 ms, the first later than `CONFIG.bufferTimeout`. -/
theorem readiness_timeout_counterexample :
    (ensureReadyWithTimeout CONFIG (cacheVideo CONFIG init "k" "high").1 "k" (1 / 2) 100
        neverBuffers (pollsEvery30 4)).2 = Readiness.pending ∧
      (ensureReadyWithTimeout CONFIG (cacheVideo CONFIG init "k" "high").1 "k" (1 / 2) 100
        neverBuffers (pollsEvery30 51)).2 = Readiness.resolved false 1530 := by
  decide

/-- C20 as amended: for every cached non-empty key `k` with a video element
that never has enough buffer and never reaches `readyState` 3, and whatever
third argument the call passes, `ensureReady` leaves the state unchanged and
resolves `false` at the first poll at which more than `CONFIG.bufferTimeout`
milliseconds have passed since the wait began, and at no earlier poll; it is
pending as long as no such poll has run. -/
theorem readiness_timeout {α : Type} [LE α] [DecidableRel (fun a b : α => a ≤ b)] [Add α]
    [Zero α] (cfg : Config) (s : State) (k : String) (m : α) (timeoutMs : Nat)
    (media : Media α) (polls : List (Nat × Media α))
    (hk : k ≠ "") (hc : isCached s k = true) (hv : getCachedVideo s k ≠ none)
    (h0 : hasEnoughBuffer (some media) m = false ∧ media.readyState < 3)
    (hnever : ∀ q ∈ polls, hasEnoughBuffer (some q.2) m = false ∧ q.2.readyState < 3) :
    ensureReadyWithTimeout cfg s k m timeoutMs media polls =
      (s, match polls.find?
          (fun q => decide ((q.1 : Int) - (s.now : Int) > (cfg.bufferTimeout : Int))) with
        | some q => Readiness.resolved false q.1
        | none => Readiness.pending) := by
  unfold ensureReadyWithTimeout ensureReady
  rw [if_neg hk]
  simp only [hc, Bool.not_true, Bool.false_eq_true, if_false]
  unfold waitForBuffer
  cases hg : getCachedVideo s k with
  | none => exact absurd hg hv
  | some v =>
    simp only [h0.1, Bool.false_eq_true, if_false]
    have hall : ∀ q ∈ (s.now, media) :: polls,
        hasEnoughBuffer (some q.2) m = false ∧ q.2.readyState < 3 := by
      intro q hq
      rcases List.mem_cons.1 hq with hq | hq
      · subst hq
        exact h0
      · exact hnever q hq
    rw [checkPolls_never cfg m s.now _ hall]
    have hfirst : ¬ ((s.now : Int) - (s.now : Int) > (cfg.bufferTimeout : Int)) := by
      omega
    simp [List.find?_cons, hfirst]

/-- C20 as amended, at the shipped configuration with `timeoutMs = 100`:
the promise resolves `false` at 1530 ms. -/
theorem readiness_timeout_witness :
    ensureReadyWithTimeout CONFIG (cacheVideo CONFIG init "k" "high").1 "k" (1 / 2) 100
        neverBuffers (pollsEvery30 51) =
      ((cacheVideo CONFIG init "k" "high").1, Readiness.resolved false 1530) :=
  (readiness_timeout CONFIG (cacheVideo CONFIG init "k" "high").1 "k" (1 / 2) 100
    neverBuffers (pollsEvery30 51) (by decide) (by decide) (by decide) (by decide)
    (by decide)).trans (by decide)



/-! ## Timers leave the cache state alone -/

theorem setTimeout_state (w : World) (cb : Callback) (delay : Nat) :
    (setTimeout w cb delay).1.state = w.state := rfl

theorem setTimeout_submitted (w : World) (cb : Callback) (delay : Nat) :
    (setTimeout w cb delay).1.submitted = w.submitted := rfl

theorem scheduleSubmissions_state (uncached : List String) (w : World) :
    (scheduleSubmissions w uncached).state = w.state := by
  unfold scheduleSubmissions
  generalize uncached.enum = l
  induction l generalizing w with
  | nil => rfl
  | cons p rest ih =>
    rw [List.foldl_cons, ih]
    rfl

theorem markInteraction_state (cfg : Config) (w : World) :
    ∃ a, (markInteraction cfg w).state =
      { w.state with idleTimer := a, isIdlePreloading := false,
                     lastInteraction := w.state.now } := by
  refine ⟨some w.nextTimerId, ?_⟩
  unfold markInteraction
  simp only
  cases w.state.idleTimer with
  | none => rfl
  | some id =>
    simp only
    split <;> rfl

theorem startIdlePreload_state (w : World) :
    (startIdlePreload w).state = w.state ∨
      (startIdlePreload w).state = { w.state with isIdlePreloading := true } := by
  unfold startIdlePreload
  split
  · exact Or.inl rfl
  · simp only
    cases w.registry with
    | none => exact Or.inr rfl
    | some allUrls =>
      simp only
      split
      · exact Or.inr rfl
      · exact Or.inr (scheduleSubmissions_state _ _)

theorem fire_apply (cfg : Config) (w : World) (t : Timer) :
    (Step.fire t).apply cfg w =
      if t ∈ w.timers ∧ t.due ≤ w.state.now then
        runCallback cfg { w with timers := w.timers.erase t } t.callback
      else w := rfl

/-- A property of the cache state that every call keeps, that `clearCache`
and the clock keep and that does not read the idle fields is kept by every
step. -/
theorem step_state_preserves (cfg : Config) (P : State → Prop) (hcall : CallInvariant cfg P)
    (hclear : ∀ s, P s → P (clearCache s))
    (htick : ∀ s ms, P s → P { s with now := s.now + ms })
    (hidle : ∀ s a b c, P s →
      P { s with idleTimer := a, isIdlePreloading := b, lastInteraction := c })
    (w : World) (st : Step) (hP : P w.state) : P (st.apply cfg w).state := by
  cases st with
  | markInteraction =>
    obtain ⟨a, ha⟩ := markInteraction_state cfg w
    show P (markInteraction cfg w).state
    rw [ha]
    exact hidle _ _ _ _ hP
  | fire t =>
    rw [fire_apply]
    split
    · cases hcb : t.callback with
      | startIdlePreload =>
        simp only [runCallback]
        rcases startIdlePreload_state { w with timers := w.timers.erase t } with h | h
        · rw [h]; exact hP
        · rw [h]; exact hidle w.state w.state.idleTimer true w.state.lastInteraction hP
      | submission url =>
        simp only [runCallback]
        split
        · exact callInvariant_cacheVideo hcall w.state url "normal" hP
        · exact hP
    · exact hP
  | call op => exact callInvariant_apply hcall hclear htick w.state op hP
  | preloadAround urls c ahead behind =>
    exact callInvariant_preloadMultiple hcall w.state _ "normal" hP

theorem runSteps_state_preserves (cfg : Config) (P : State → Prop)
    (hcall : CallInvariant cfg P) (hclear : ∀ s, P s → P (clearCache s))
    (htick : ∀ s ms, P s → P { s with now := s.now + ms })
    (hidle : ∀ s a b c, P s →
      P { s with idleTimer := a, isIdlePreloading := b, lastInteraction := c })
    (steps : List Step) : ∀ w : World, P w.state → P (runSteps cfg steps w).state := by
  induction steps with
  | nil => intro w h; exact h
  | cons st rest ih =>
    intro w h
    exact ih _ (step_state_preserves cfg P hcall hclear htick hidle w st h)

/-! ## Idle cancel -/

theorem updateTimestamp_isIdlePreloading (s : State) (u : String) :
    (updateTimestamp s u).isIdlePreloading = s.isIdlePreloading := by
  unfold updateTimestamp; split <;> rfl

theorem enqueue_isIdlePreloading (s : State) (u p : String) :
    (enqueue s u p).isIdlePreloading = s.isIdlePreloading := by
  unfold enqueue; split <;> rfl

/-- No call of the cache interface changes `state.isIdlePreloading`. -/
theorem flag_callInvariant (cfg : Config) (b : Bool) :
    CallInvariant cfg (fun s => s.isIdlePreloading = b) where
  timestamp := by
    intro s u h _
    simpa [updateTimestamp_isIdlePreloading] using h
  enqueue := by
    intro s u p h _ _ _ _ _
    simpa [enqueue_isIdlePreloading] using h
  shift := fun _ _ _ h _ _ => h
  load := fun _ _ h _ _ _ => h

/-- A step other than the expiry of an idle countdown keeps the scheduler
active. -/
theorem step_stays_active (cfg : Config) (w : World) (st : Step)
    (hst : st.isIdleExpiry = false) (h : w.state.isIdlePreloading = false) :
    (st.apply cfg w).state.isIdlePreloading = false := by
  cases st with
  | markInteraction =>
    obtain ⟨a, ha⟩ := markInteraction_state cfg w
    show (markInteraction cfg w).state.isIdlePreloading = false
    rw [ha]
  | fire t =>
    rw [fire_apply]
    split
    · cases hcb : t.callback with
      | startIdlePreload => simp [Step.isIdleExpiry, hcb] at hst
      | submission url => simp [runCallback, h]
    · exact h
  | call op =>
    exact callInvariant_apply (flag_callInvariant cfg false) (fun _ hs => hs)
      (fun _ _ hs => hs) w.state op h
  | preloadAround urls c ahead behind =>
    exact callInvariant_preloadMultiple (flag_callInvariant cfg false) w.state _ "normal" h

theorem runSteps_stays_active (cfg : Config) (steps : List Step)
    (hact : ∀ st ∈ steps, st.isIdleExpiry = false) :
    ∀ w : World, w.state.isIdlePreloading = false →
      (runSteps cfg steps w).state.isIdlePreloading = false := by
  induction steps with
  | nil => intro w h; exact h
  | cons st rest ih =>
    intro w h
    exact ih (fun s hs => hact s (List.mem_cons_of_mem _ hs)) _
      (step_stays_active cfg w st (hact st (List.mem_cons_self _ _)) h)

/-- C21: `markInteraction` is called in any world, with whatever submissions
`startIdlePreload` has scheduled still pending, and any steps follow among
which no idle countdown expires.  Then the scheduler is still active, and a
submission timer that fires now makes no `cacheVideo` call and leaves the
whole module state, so the cache, the queue and `state.loading`,
unchanged. -/
theorem idle_cancel (cfg : Config) (w : World) (steps : List Step)
    (hact : ∀ st ∈ steps, st.isIdleExpiry = false) (t : Timer) (url : String)
    (ht : t.callback = Callback.submission url) :
    (runSteps cfg steps (markInteraction cfg w)).state.isIdlePreloading = false ∧
      ((Step.fire t).apply cfg (runSteps cfg steps (markInteraction cfg w))).submitted =
        (runSteps cfg steps (markInteraction cfg w)).submitted ∧
      ((Step.fire t).apply cfg (runSteps cfg steps (markInteraction cfg w))).state =
        (runSteps cfg steps (markInteraction cfg w)).state := by
  have h0 : (markInteraction cfg w).state.isIdlePreloading = false := by
    obtain ⟨a, ha⟩ := markInteraction_state cfg w
    rw [ha]
  have h1 := runSteps_stays_active cfg steps hact _ h0
  refine ⟨h1, ?_, ?_⟩
  · rw [fire_apply]
    split
    · simp [ht, runCallback, h1]
    · rfl
  · rw [fire_apply]
    split
    · simp [ht, runCallback, h1]
    · rfl

/-- C21 at the shipped configuration: the first countdown has scheduled `a`,
`b`, `c`; after the interaction and 500 ms the timer of `a` fires and submits
nothing. -/
theorem idle_cancel_witness :
    ((Step.fire { id := 2, due := 500, callback := Callback.submission "a" }).apply CONFIG
      (runSteps CONFIG [Step.call (Op.tick 400)]
        (markInteraction CONFIG (runSteps CONFIG (staleRun.take 2)
          (World.init CONFIG (some ["a", "b", "c"])))))).submitted = [] :=
  (idle_cancel CONFIG (runSteps CONFIG (staleRun.take 2) (World.init CONFIG (some ["a", "b", "c"])))
    [Step.call (Op.tick 400)] (by decide)
    { id := 2, due := 500, callback := Callback.submission "a" } "a" rfl).2.1.trans (by decide)

/-- C22, evaluation at the failing input: timer 4, scheduled for `c` by the
first expiry, is pending when `markInteraction` is called; after the
countdown has expired again it fires at 1500 ms and calls
`cacheVideo('c', 'normal')`, which loads `c`. -/
theorem stale_submission_fires :
    staleTimer ∈ (runSteps CONFIG (staleRun.take 2)
        (World.init CONFIG (some ["a", "b", "c"]))).timers ∧
      staleRun.get? 2 = some Step.markInteraction ∧
      (runSteps CONFIG staleRun (World.init CONFIG (some ["a", "b", "c"]))).submitted = ["a"] ∧
      ((Step.fire staleTimer).apply CONFIG
        (runSteps CONFIG staleRun (World.init CONFIG (some ["a", "b", "c"])))).submitted
        = ["a", "c"] ∧
      loads ((Step.fire staleTimer).apply CONFIG
        (runSteps CONFIG staleRun (World.init CONFIG (some ["a", "b", "c"])))).state
        = ["a", "c"] := by
  decide

/-! ## The settled state and the cached url, over all steps -/

theorem settled_callInvariant (cfg : Config) (hcfg : 1 ≤ cfg.maxConcurrentLoads) :
    CallInvariant cfg Settled where
  timestamp := fun _ u h _ => settled_updateTimestamp h u
  enqueue := by
    intro s u p h _ _ _ _ hsat
    rw [h.1] at hsat
    simp only [List.length_nil, Nat.le_zero_eq] at hsat
    omega
  shift := by
    intro s url rest h hq _
    rw [h.2.1] at hq
    exact absurd hq (by simp)
  load := fun _ url h _ _ _ => settled_loadVideoCore h url

/-- C26: for `maxConcurrentLoads ≥ 1`, in every state reached from the
initial state by calls of `cacheVideo`, `preloadMultiple`, `preloadAround`,
`processQueue` and `clearCache`, activity events and fired timers (idle
countdowns and idle submissions), `state.loading` is empty, `state.queue` is
empty, and every cache entry has status `'ready'` and a video element. -/
theorem settled_after_every_step (cfg : Config) (hcfg : 1 ≤ cfg.maxConcurrentLoads)
    (registry : Option (List String)) (steps : List Step) :
    (runSteps cfg steps (World.init cfg registry)).state.loading = [] ∧
      (runSteps cfg steps (World.init cfg registry)).state.queue = [] ∧
      ∀ p ∈ (runSteps cfg steps (World.init cfg registry)).state.cache,
        p.2.status = "ready" ∧ p.2.video ≠ none := by
  have h := runSteps_state_preserves cfg Settled (settled_callInvariant cfg hcfg)
    (fun s _ => by simp [clearCache, Settled]) (fun _ _ hs => hs) (fun _ _ _ _ hs => hs)
    steps (World.init cfg registry) (by simp [World.init, Settled, init])
  exact ⟨h.1, h.2.1, h.2.2.2⟩

/-- C26 at the shipped configuration, after the stale-submission run. -/
theorem settled_after_every_step_witness :
    (runSteps CONFIG staleRun (World.init CONFIG (some ["a", "b", "c"]))).state.loading = [] :=
  (settled_after_every_step CONFIG (by decide) (some ["a", "b", "c"]) staleRun).1

theorem blobInv_callInvariant (cfg : Config) : CallInvariant cfg BlobInv where
  timestamp := by
    intro s u h _ p hp
    unfold updateTimestamp at hp
    cases hg : mapGet s.cache u with
    | none =>
      rw [hg] at hp
      exact h p hp
    | some e =>
      rw [hg] at hp
      rcases mem_mapSet hp with hp | hp
      · exact h p hp
      · subst hp
        exact h (u, e) (mapGet_some_mem hg)
  enqueue := by
    intro s u p h _ _ _ _ _ q hq
    rw [enqueue_cache] at hq
    exact h q hq
  shift := fun _ _ _ h _ _ => h
  load := by
    intro s url h _ _ _ p hp
    rw [loadVideoCore_cache] at hp
    rcases mem_mapSet hp with hp | hp
    · exact h p hp
    · subst hp
      exact Or.inr rfl

theorem getCachedUrl_of_blobInv {s : State} (h : BlobInv s) (url : String) :
    getCachedUrl s url = url := by
  unfold getCachedUrl
  cases hg : mapGet s.cache url with
  | none => rfl
  | some e =>
    simp only
    rcases h (url, e) (mapGet_some_mem hg) with hb | hb
    · simp only at hb
      rw [hb]
    · simp only at hb
      rw [hb]
      simp

/-- C23: in every state reached from the initial state by calls of
`cacheVideo`, `preloadMultiple`, `preloadAround`, `processQueue` and
`clearCache` (and by activity events and fired timers), for every
configuration and every url, cached or not, `getCachedUrl(url)` is `url`. -/
theorem streaming_passthrough (cfg : Config) (registry : Option (List String))
    (steps : List Step) (url : String) :
    getCachedUrl (runSteps cfg steps (World.init cfg registry)).state url = url :=
  getCachedUrl_of_blobInv
    (runSteps_state_preserves cfg BlobInv (blobInv_callInvariant cfg)
      (fun s _ p hp => by simp [clearCache] at hp) (fun _ _ hs => hs) (fun _ _ _ _ hs => hs)
      steps (World.init cfg registry) (fun p hp => by simp [World.init, init] at hp))
    url

end VideoCache

namespace ProjectPlayer

theorem aheadIndex_valid (c n : Int) (i : Nat) (hc : 0 ≤ c) (hn : 0 < n) :
    0 ≤ aheadIndex c n i ∧ aheadIndex c n i < n := by
  unfold aheadIndex
  exact ⟨Int.tmod_nonneg _ (by omega), Int.tmod_lt_of_pos _ hn⟩

theorem behindIndex_valid (c n : Int) (i : Nat) (hi : (i : Int) ≤ c + n) (hn : 0 < n) :
    0 ≤ behindIndex c n i ∧ behindIndex c n i < n := by
  unfold behindIndex
  exact ⟨Int.tmod_nonneg _ (by omega), Int.tmod_lt_of_pos _ hn⟩

theorem prevIndex_eq (c n : Int) (hc : 0 ≤ c) (hcn : c < n) :
    prevIndex c n = (c - 1 + n) % n := by
  unfold prevIndex
  split
  · rw [Int.add_emod_self, Int.emod_eq_of_lt (by omega) (by omega)]
  · have : c = 0 := by omega
    subst this
    rw [Int.emod_eq_of_lt (by omega) (by omega)]
    omega

theorem nextIndex_eq (c n : Int) (hc : 0 ≤ c) (hcn : c < n) :
    nextIndex c n = (c + 1) % n := by
  unfold nextIndex
  split
  · rw [Int.emod_eq_of_lt (by omega) (by omega)]
  · have : c + 1 = n := by omega
    rw [this, Int.emod_self]

theorem prevIndex_eq_behindIndex (c n : Int) (hc : 0 ≤ c) (hcn : c < n) :
    prevIndex c n = behindIndex c n 1 := by
  rw [prevIndex_eq c n hc hcn]
  unfold behindIndex
  rw [Int.tmod_eq_emod (by omega) (by omega)]
  rfl

theorem nextIndex_eq_aheadIndex (c n : Int) (hc : 0 ≤ c) (hcn : c < n) :
    nextIndex c n = aheadIndex c n 1 := by
  rw [nextIndex_eq c n hc hcn]
  unfold aheadIndex
  rw [Int.tmod_eq_emod (by omega) (by omega)]
  rfl

/-- C24: for every list length `N ≥ 1` and every current index in range,
the previous index of `setupNavigation` is `(currentIndex - 1 + N) mod N`, its
next index is `(currentIndex + 1) mod N`, and every index the ahead and
behind loops of `preloadAdjacentProjects` compute with the shipped `CONFIG`
lies in `[0, N)`. -/
theorem circular_navigation (n c : Int) (hn : 1 ≤ n) (hc : 0 ≤ c) (hcn : c < n) :
    prevIndex c n = (c - 1 + n) % n ∧
      nextIndex c n = (c + 1) % n ∧
      ∀ index ∈ loopIndices CONFIG c n, 0 ≤ index ∧ index < n := by
  refine ⟨prevIndex_eq c n hc hcn, nextIndex_eq c n hc hcn, ?_⟩
  intro index hmem
  unfold loopIndices at hmem
  rcases List.mem_append.1 hmem with h | h
  · obtain ⟨i, _, rfl⟩ := List.mem_map.1 h
    exact aheadIndex_valid c n i hc (by omega)
  · obtain ⟨i, hi, rfl⟩ := List.mem_map.1 h
    have hi' : 1 ≤ i ∧ i < 1 + CONFIG.preload.behind := List.mem_range'_1.1 hi
    have : i = 1 := by
      have hb : CONFIG.preload.behind = 1 := rfl
      omega
    subst this
    exact behindIndex_valid c n 1 (by omega) (by omega)

/-- C24 on four projects at the last index: the next index wraps to 0. -/
theorem circular_navigation_witness : nextIndex 3 4 = (3 + 1) % 4 :=
  (circular_navigation 4 3 (by decide) (by decide) (by decide)).2.1

theorem mem_pagesFor_of_mem_loopIndices (cfg : Config) (projects : List String) (c : Int)
    (hc : 0 ≤ c) (hlen : projects.length ≠ 0) (index : Int)
    (h : index ∈ loopIndices cfg c projects.length) :
    pageUrl cfg (VideoCache.arrayAt projects index) ∈ pagesFor cfg projects c := by
  unfold pagesFor
  have : ¬ (c = -1 ∨ projects.length = 0) := by
    intro hh
    rcases hh with hh | hh
    · omega
    · exact hlen hh
  rw [if_neg this]
  exact List.mem_map.2 ⟨index, h, rfl⟩

/-- C28: for every project list and every current index in range, with the
shipped `ahead = 3` and `behind = 1`, the hrefs `setupNavigation` gives the
previous and the next button are both among the pages
`preloadAdjacentProjects` passes to `prefetchPage`. -/
theorem nav_targets_prefetched (projects : List String) (c : Int) (hc : 0 ≤ c)
    (hcn : c < projects.length) :
    ∃ prev next, navHrefs CONFIG projects c = (some prev, some next) ∧
      prev ∈ pagesFor CONFIG projects c ∧ next ∈ pagesFor CONFIG projects c := by
  have hlen : projects.length ≠ 0 := by
    intro h
    rw [h] at hcn
    omega
  have hnav : ¬ (projects.length = 0 ∨ c = -1) := by
    intro hh
    rcases hh with hh | hh
    · exact hlen hh
    · omega
  refine ⟨_, _, by unfold navHrefs; rw [if_neg hnav], ?_, ?_⟩
  · rw [prevIndex_eq_behindIndex c _ hc hcn]
    apply mem_pagesFor_of_mem_loopIndices CONFIG projects c hc hlen
    unfold loopIndices
    exact List.mem_append_right _ (List.mem_map.2 ⟨1, by decide, rfl⟩)
  · rw [nextIndex_eq_aheadIndex c _ hc hcn]
    apply mem_pagesFor_of_mem_loopIndices CONFIG projects c hc hlen
    unfold loopIndices
    exact List.mem_append_left _ (List.mem_map.2 ⟨1, by decide, rfl⟩)

/-- C28 on three projects at index 0: the previous page is the last
project. -/
theorem nav_targets_prefetched_witness :
    ∃ prev next, navHrefs CONFIG ["a", "b", "c"] 0 = (some prev, some next) ∧
      prev ∈ pagesFor CONFIG ["a", "b", "c"] 0 ∧ next ∈ pagesFor CONFIG ["a", "b", "c"] 0 :=
  nav_targets_prefetched ["a", "b", "c"] 0 (by decide) (by decide)

end ProjectPlayer

namespace HomeHero

/-! ## Category sort order (src/homeHero.js) -/

theorem getProjectOrder_unset (g : String → String) (p : String → Option Int) (b : Item)
    (tag : String)
    (hb : datasetGet b (g tag) = none ∨ datasetGet b (g tag) = some "") :
    getProjectOrder g p b tag = 9999 := by
  unfold getProjectOrder
  rcases hb with hb | hb <;> simp [hb]

theorem getProjectOrder_set (g : String → String) (p : String → Option Int) (a : Item)
    (tag s : String) (v : Int) (ha : datasetGet a (g tag) = some s) (hs : s ≠ "")
    (hv : p s = some v) (h0 : v ≠ 0) :
    getProjectOrder g p a tag = v := by
  unfold getProjectOrder
  simp [ha, hs, hv, h0]

theorem orderLe_iff (g : String → String) (p : String → Option Int) (tag : String)
    (a b : Item) :
    orderLe g p tag a b ↔ getProjectOrder g p a tag ≤ getProjectOrder g p b tag := by
  unfold orderLe
  omega

theorem orderLe_total (g : String → String) (p : String → Option Int) (tag : String) :
    IsTotal Item (orderLe g p tag) :=
  ⟨fun a b => by rw [orderLe_iff, orderLe_iff]; exact le_total _ _⟩

theorem orderLe_trans (g : String → String) (p : String → Option Int) (tag : String) :
    IsTrans Item (orderLe g p tag) :=
  ⟨fun a b c => by rw [orderLe_iff, orderLe_iff, orderLe_iff]; exact le_trans⟩

theorem result_eq (g : String → String) (p : String → Option Int) (projects : List Item)
    (tag : String) :
    (sortProjectsByOrder g p projects tag).result
      = projects.insertionSort (orderLe g p tag) := rfl

theorem result_pairwise (g : String → String) (p : String → Option Int)
    (projects : List Item) (tag : String) :
    (sortProjectsByOrder g p projects tag).result.Pairwise
      (fun a b => getProjectOrder g p a tag ≤ getProjectOrder g p b tag) := by
  rw [result_eq]
  haveI := orderLe_total g p tag
  haveI := orderLe_trans g p tag
  have h := List.sorted_insertionSort (orderLe g p tag) projects
  exact List.Pairwise.imp (fun {a b} hab => (orderLe_iff g p tag a b).1 hab) h

theorem result_perm (g : String → String) (p : String → Option Int) (projects : List Item)
    (tag : String) :
    (sortProjectsByOrder g p projects tag).result.Perm projects := by
  rw [result_eq]
  exact List.perm_insertionSort _ _

/-- In the result a project of smaller order stands at a smaller position. -/
theorem index_lt_of_order_lt (g : String → String) (p : String → Option Int)
    (projects : List Item) (tag : String) (a b : Item) (i j : Nat)
    (hi : (sortProjectsByOrder g p projects tag).result[i]? = some a)
    (hj : (sortProjectsByOrder g p projects tag).result[j]? = some b)
    (hlt : getProjectOrder g p a tag < getProjectOrder g p b tag) : i < j := by
  have hp := result_pairwise g p projects tag
  rw [List.pairwise_iff_getElem] at hp
  obtain ⟨hil, hia⟩ := List.getElem?_eq_some_iff.1 hi
  obtain ⟨hjl, hjb⟩ := List.getElem?_eq_some_iff.1 hj
  by_contra hcon
  rcases Nat.lt_or_eq_of_le (Nat.le_of_not_lt hcon) with h | h
  · have := hp j i hjl hil h
    rw [hia, hjb] at this
    omega
  · subst h
    have hab : a = b := by rw [← hia, ← hjb]
    subst hab
    omega

/-- Of the projects of one order value the result keeps the input sequence. -/
theorem result_filter (g : String → String) (p : String → Option Int)
    (projects : List Item) (tag : String) (v : Int) :
    (sortProjectsByOrder g p projects tag).result.filter
        (fun x => decide (getProjectOrder g p x tag = v))
      = projects.filter (fun x => decide (getProjectOrder g p x tag = v)) := by
  rw [result_eq]
  set q : Item → Bool := fun x => decide (getProjectOrder g p x tag = v) with hq
  have hsub : List.Sublist (projects.filter q) projects := List.filter_sublist _
  have hpw : (projects.filter q).Pairwise (orderLe g p tag) := by
    rw [List.pairwise_iff_forall_sublist]
    intro a b hab
    have ha : a ∈ projects.filter q := hab.subset (by simp)
    have hb : b ∈ projects.filter q := hab.subset (by simp)
    rw [List.mem_filter] at ha hb
    have ha2 : getProjectOrder g p a tag = v := by simpa [hq] using ha.2
    have hb2 : getProjectOrder g p b tag = v := by simpa [hq] using hb.2
    rw [orderLe_iff, ha2, hb2]
  have h1 : List.Sublist (projects.filter q) (projects.insertionSort (orderLe g p tag)) :=
    List.sublist_insertionSort hpw hsub
  have h2 : List.Sublist ((projects.filter q).filter q)
      ((projects.insertionSort (orderLe g p tag)).filter q) := h1.filter q
  rw [List.filter_filter] at h2
  simp only [Bool.and_self] at h2
  have h3 : ((projects.insertionSort (orderLe g p tag)).filter q).length
      = (projects.filter q).length :=
    ((List.perm_insertionSort (orderLe g p tag) projects).filter q).length_eq
  exact (h2.eq_of_length h3.symm).symm

/-- C25, evaluation at the failing input: with the list [a project with no
order value, a project with `data-order-selected="10000"`] and the tag
`Selected`, the result keeps the project with no order value (order 9999) in
front of the project whose order value is the integer 10000, although the
number 9999 is returned "to push to end". -/
theorem unordered_before_late :
    (sortProjectsByOrder asciiOrderAttributeName parseIntDecimal
        [itemUnordered, itemLate] "Selected").result = [itemUnordered, itemLate]
      ∧ datasetGet itemUnordered (asciiOrderAttributeName "Selected") = none
      ∧ datasetGet itemLate (asciiOrderAttributeName "Selected") = some "10000"
      ∧ parseIntDecimal "10000" = some 10000 := by
  decide

/-- Where the number 9999 does push to the end: a project `b` with no order
value for the tag (attribute missing or empty) stands after every project `a`
whose order value for the tag is an integer `v` with `v ≠ 0` and `v < 9999`;
wherever `a` is at position `i` and `b` at position `j`, `i < j`. -/
theorem unordered_after_ordered (getOrderAttributeName : String → String)
    (parseInt : String → Option Int) (projects : List Item) (filterTag : String)
    (a b : Item) (s : String) (v : Int) (i j : Nat)
    (ha : datasetGet a (getOrderAttributeName filterTag) = some s) (hs : s ≠ "")
    (hv : parseInt s = some v) (h0 : v ≠ 0) (hlt : v < 9999)
    (hb : datasetGet b (getOrderAttributeName filterTag) = none
      ∨ datasetGet b (getOrderAttributeName filterTag) = some "")
    (hi : (sortProjectsByOrder getOrderAttributeName parseInt projects filterTag).result[i]?
      = some a)
    (hj : (sortProjectsByOrder getOrderAttributeName parseInt projects filterTag).result[j]?
      = some b) :
    i < j := by
  apply index_lt_of_order_lt getOrderAttributeName parseInt projects filterTag a b i j hi hj
  rw [getProjectOrder_set getOrderAttributeName parseInt a filterTag s v ha hs hv h0,
    getProjectOrder_unset getOrderAttributeName parseInt b filterTag hb]
  exact hlt

/-- The set order value 0 is taken for no order: `parseInt("0", 10) || 9999`
is 9999, so the project with order 0 is sorted behind the project with
order 2, and an earlier project with no order value stays in front of it. -/
theorem zero_order_sorts_last :
    (sortProjectsByOrder asciiOrderAttributeName parseIntDecimal
        [itemZero, itemSecond] "Selected").result = [itemSecond, itemZero]
      ∧ (sortProjectsByOrder asciiOrderAttributeName parseIntDecimal
        [itemUnordered, itemZero] "Selected").result = [itemUnordered, itemZero]
      ∧ parseIntDecimal "0" = some 0 := by
  decide

theorem unordered_after_ordered_witness :
    (sortProjectsByOrder asciiOrderAttributeName parseIntDecimal
        [itemUnordered, itemSecond] "Selected").result = [itemSecond, itemUnordered]
      ∧ (0 : Nat) < 1 :=
  ⟨by decide,
   unordered_after_ordered asciiOrderAttributeName parseIntDecimal
     [itemUnordered, itemSecond] "Selected" itemSecond itemUnordered "2" 2 0 1
     (by decide) (by decide) (by decide) (by decide) (by decide) (Or.inl (by decide))
     (by decide) (by decide)⟩

/-- C27: for every list of projects and every filter tag, the array that
`sortProjectsByOrder` returns is a permutation of the input, is in
non-decreasing `getProjectOrder` order, holds the projects of each order value
in the sequence they have in the input (the sort is stable), and the caller's
array is what it was. -/
theorem sort_stable_copy (getOrderAttributeName : String → String)
    (parseInt : String → Option Int) (projects : List Item) (filterTag : String) :
    (sortProjectsByOrder getOrderAttributeName parseInt projects filterTag).result.Perm
        projects
      ∧ (sortProjectsByOrder getOrderAttributeName parseInt projects filterTag).result.Pairwise
          (fun a b => getProjectOrder getOrderAttributeName parseInt a filterTag
            ≤ getProjectOrder getOrderAttributeName parseInt b filterTag)
      ∧ (∀ v : Int,
          (sortProjectsByOrder getOrderAttributeName parseInt projects filterTag).result.filter
              (fun x => decide (getProjectOrder getOrderAttributeName parseInt x filterTag = v))
            = projects.filter
              (fun x => decide (getProjectOrder getOrderAttributeName parseInt x filterTag = v)))
      ∧ (sortProjectsByOrder getOrderAttributeName parseInt projects filterTag).projects
          = projects :=
  ⟨result_perm _ _ _ _, result_pairwise _ _ _ _, result_filter _ _ _ _, rfl⟩

end HomeHero

namespace BtsPopup

/-! ## Grid padding (src/btsPopup.js) -/

theorem forLoop_spec {α : Type} (cfg : Config) (sourceImages : List α) :
    ∀ (rest pre acc : List α) (k : Nat), sourceImages = pre ++ rest →
      acc.length = sourceImages.length * k + pre.length → Cyclic sourceImages acc →
      Cyclic sourceImages (forLoop cfg rest acc)
        ∧ (∀ j, acc.length < j → j < (forLoop cfg rest acc).length → ¬ fullGrid cfg j)
        ∧ ((fullGrid cfg (forLoop cfg rest acc).length
              ∧ acc.length < (forLoop cfg rest acc).length)
            ∨ (forLoop cfg rest acc).length = acc.length + rest.length) := by
  intro rest
  induction rest with
  | nil =>
    intro pre acc k _ _ hc
    refine ⟨hc, ?_, Or.inr (by simp [forLoop])⟩
    intro j h1 h2
    simp only [forLoop] at h2
    omega
  | cons x rest ih =>
    intro pre acc k hsrc hlen hc
    have hn : sourceImages.length = pre.length + (rest.length + 1) := by
      rw [hsrc]; simp
    have hcyc : Cyclic sourceImages (acc ++ [x]) := by
      intro i hi
      simp only [List.length_append, List.length_singleton] at hi
      rcases Nat.lt_or_eq_of_le (Nat.le_of_lt_succ hi) with h | h
      · rw [List.getElem?_append_left h]
        exact hc i h
      · subst h
        rw [List.getElem?_append_right (Nat.le_refl _)]
        have hmod : acc.length % sourceImages.length = pre.length := by
          rw [hlen, Nat.mul_add_mod]
          exact Nat.mod_eq_of_lt (by omega)
        rw [hmod]
        conv_rhs => rw [hsrc]
        rw [List.getElem?_append_right (Nat.le_refl _)]
        simp
    have hlen2 : (acc ++ [x]).length = sourceImages.length * k + (pre ++ [x]).length := by
      simp only [List.length_append, List.length_singleton]
      omega
    have hsrc2 : sourceImages = (pre ++ [x]) ++ rest := by
      rw [hsrc]; simp
    have hax : (acc ++ [x]).length = acc.length + 1 := by simp
    unfold forLoop
    simp only
    split
    · rename_i hg
      refine ⟨hcyc, ?_, Or.inl ⟨hg, by omega⟩⟩
      intro j h1 h2
      omega
    · rename_i hg
      obtain ⟨h1, h2, h3⟩ := ih (pre ++ [x]) (acc ++ [x]) k hsrc2 hlen2 hcyc
      refine ⟨h1, ?_, ?_⟩
      · intro j hj1 hj2
        by_cases hj : j = (acc ++ [x]).length
        · rw [hj]; exact hg
        · exact h2 j (by omega) hj2
      · rcases h3 with ⟨h3, h4⟩ | h3
        · exact Or.inl ⟨h3, by omega⟩
        · right
          rw [h3, hax, List.length_cons]
          omega

theorem whileLoop_spec {α : Type} (cfg : Config) (sourceImages : List α)
    (hn : 0 < sourceImages.length) (target : Nat) (htarget : fullGrid cfg target) :
    ∀ (fuel : Nat) (acc : List α) (k : Nat),
      acc.length = sourceImages.length * k → Cyclic sourceImages acc →
      acc.length ≤ target →
      (∀ j, acc.length ≤ j → j < target → ¬ fullGrid cfg j) →
      target - acc.length < fuel →
      ∃ result, whileLoop cfg sourceImages fuel acc = some result
        ∧ result.length = target ∧ Cyclic sourceImages result := by
  intro fuel
  induction fuel with
  | zero => intro acc k _ _ _ _ hf; omega
  | succ fuel ih =>
    intro acc k hlen hc hle hmin hf
    unfold whileLoop
    by_cases hg : fullGrid cfg acc.length
    · have hcond : ¬ (acc.length < cfg.minImages ∨ acc.length % cfg.columns ≠ 0) := by
        unfold fullGrid at hg
        omega
      rw [if_neg hcond]
      refine ⟨acc, rfl, ?_, hc⟩
      by_contra hne
      exact hmin acc.length (Nat.le_refl _) (by omega) hg
    · have hcond : acc.length < cfg.minImages ∨ acc.length % cfg.columns ≠ 0 := by
        unfold fullGrid at hg
        omega
      rw [if_pos hcond]
      have hlt : acc.length < target := by
        rcases Nat.lt_or_eq_of_le hle with h | h
        · exact h
        · rw [h] at hg; exact absurd htarget hg
      obtain ⟨h1, h2, h3⟩ := forLoop_spec cfg sourceImages sourceImages [] acc k
        (by simp) (by simpa using hlen) hc
      have hbelow : ∀ j, acc.length < j → j < (forLoop cfg sourceImages acc).length →
          j < target := by
        intro j hj1 hj2
        by_contra hcon
        exact h2 target (by omega) (by omega) htarget
      rcases h3 with ⟨h3, h4⟩ | h3
      · -- the loop stopped at a full grid
        have heq : (forLoop cfg sourceImages acc).length = target := by
          by_contra hne
          rcases Nat.lt_or_gt_of_ne hne with h | h
          · exact hmin _ (by omega) h h3
          · exact h2 target hlt h htarget
        cases fuel with
        | zero => omega
        | succ fuel =>
          refine ⟨forLoop cfg sourceImages acc, ?_, heq, h1⟩
          unfold whileLoop
          have hcond2 : ¬ ((forLoop cfg sourceImages acc).length < cfg.minImages
              ∨ (forLoop cfg sourceImages acc).length % cfg.columns ≠ 0) := by
            unfold fullGrid at h3
            omega
          rw [if_neg hcond2]
      · -- a whole pass was added
        have hle2 : (forLoop cfg sourceImages acc).length ≤ target := by
          by_contra hcon
          exact h2 target hlt (by omega) htarget
        apply ih (forLoop cfg sourceImages acc) (k + 1)
        · rw [h3, hlen, Nat.mul_succ]
        · exact h1
        · exact hle2
        · intro j hj1 hj2
          exact hmin j (by omega) hj2
        · omega

theorem whileLoop_mono {α : Type} (cfg : Config) (sourceImages : List α) :
    ∀ (fuel : Nat) (acc result : List α),
      whileLoop cfg sourceImages fuel acc = some result →
      ∀ more, fuel ≤ more → whileLoop cfg sourceImages more acc = some result := by
  intro fuel
  induction fuel with
  | zero => intro acc result h; simp [whileLoop] at h
  | succ fuel ih =>
    intro acc result h more hmore
    cases more with
    | zero => omega
    | succ more =>
      unfold whileLoop at h ⊢
      split
      · rename_i hc
        rw [if_pos hc] at h
        exact ih _ _ h more (by omega)
      · rename_i hc
        rw [if_neg hc] at h
        exact h

/-- C29: for every non-empty list of `n` source images (and every `CONFIG`
with `columns >= 1`, the shipped one has 5 and 15), the padding loop of
`populateGrid` terminates: with enough fuel it always gives the same list.  Its
length is a multiple of `columns`, is at least `max(n, minImages)` and is the
least such number, and position `i` holds the source image at `i mod n`. -/
theorem grid_padding {α : Type} (cfg : Config) (sourceImages : List α)
    (hcol : 0 < cfg.columns) (hne : sourceImages ≠ []) :
    ∃ result : List α,
      (∀ fuel, cfg.columns * max sourceImages.length cfg.minImages < fuel →
          imagesToUse cfg sourceImages fuel = some result)
        ∧ cfg.columns ∣ result.length
        ∧ max sourceImages.length cfg.minImages ≤ result.length
        ∧ (∀ L, cfg.columns ∣ L → max sourceImages.length cfg.minImages ≤ L →
            result.length ≤ L)
        ∧ ∀ i, i < result.length → result[i]? = sourceImages[i % sourceImages.length]? := by
  have hn : 0 < sourceImages.length := List.length_pos.2 hne
  have hex : ∃ j, sourceImages.length ≤ j ∧ cfg.minImages ≤ j ∧ j % cfg.columns = 0 := by
    refine ⟨cfg.columns * max sourceImages.length cfg.minImages, ?_, ?_, Nat.mul_mod_right _ _⟩
    · exact le_trans (le_max_left _ _) (Nat.le_mul_of_pos_left _ hcol)
    · exact le_trans (le_max_right _ _) (Nat.le_mul_of_pos_left _ hcol)
  have hspec := Nat.find_spec hex
  have hmin : ∀ j, j < Nat.find hex →
      ¬ (sourceImages.length ≤ j ∧ cfg.minImages ≤ j ∧ j % cfg.columns = 0) :=
    fun j hj => Nat.find_min hex hj
  have hle : Nat.find hex ≤ cfg.columns * max sourceImages.length cfg.minImages := by
    apply Nat.find_min' hex
    refine ⟨?_, ?_, Nat.mul_mod_right _ _⟩
    · exact le_trans (le_max_left _ _) (Nat.le_mul_of_pos_left _ hcol)
    · exact le_trans (le_max_right _ _) (Nat.le_mul_of_pos_left _ hcol)
  generalize Nat.find hex = target at hspec hmin hle
  obtain ⟨result, hres, hlen, hcyc⟩ :=
    whileLoop_spec cfg sourceImages hn target ⟨hspec.2.1, hspec.2.2⟩
      (target - sourceImages.length + 1) sourceImages 1 (by simp)
      (fun i hi => by rw [Nat.mod_eq_of_lt hi]) hspec.1
      (fun j hj1 hj2 hg => hmin j hj2 ⟨hj1, hg.1, hg.2⟩) (by omega)
  refine ⟨result, ?_, ?_, ?_, ?_, hcyc⟩
  · intro fuel hfuel
    exact whileLoop_mono cfg sourceImages _ _ _ hres fuel (by omega)
  · rw [hlen]
    exact Nat.dvd_of_mod_eq_zero hspec.2.2
  · rw [hlen]
    exact max_le hspec.1 hspec.2.1
  · intro L hdvd hL
    rw [hlen]
    by_contra hcon
    exact hmin L (by omega) ⟨le_trans (le_max_left _ _) hL, le_trans (le_max_right _ _) hL,
      Nat.mod_eq_zero_of_dvd hdvd⟩

theorem grid_padding_witness :
    0 < CONFIG.columns ∧ ["a", "b", "c", "d", "e", "f", "g"] ≠ []
      ∧ imagesToUse CONFIG ["a", "b", "c", "d", "e", "f", "g"] 3
          = some ["a", "b", "c", "d", "e", "f", "g", "a", "b", "c", "d", "e", "f", "g", "a"]
      ∧ ∃ result : List String,
        (∀ fuel, CONFIG.columns * max ["a", "b", "c", "d", "e", "f", "g"].length
              CONFIG.minImages < fuel →
            imagesToUse CONFIG ["a", "b", "c", "d", "e", "f", "g"] fuel = some result)
          ∧ CONFIG.columns ∣ result.length
          ∧ max ["a", "b", "c", "d", "e", "f", "g"].length CONFIG.minImages ≤ result.length
          ∧ (∀ L, CONFIG.columns ∣ L →
              max ["a", "b", "c", "d", "e", "f", "g"].length CONFIG.minImages ≤ L →
              result.length ≤ L)
          ∧ ∀ i, i < result.length →
              result[i]? = ["a", "b", "c", "d", "e", "f", "g"][i %
                ["a", "b", "c", "d", "e", "f", "g"].length]? :=
  ⟨by decide, by decide, by decide,
   grid_padding CONFIG ["a", "b", "c", "d", "e", "f", "g"] (by decide) (by decide)⟩

end BtsPopup

namespace PopupManager

/-! ## Overlay and active popup (src/popupManager.js) -/

/-- The empty name is falsy: on a page that has a popup with the empty name,
after `togglePopup('')` and the end of the transition the popup `''` is active
with the overlay; `togglePopup('bts')` then takes the branch "opening fresh",
and after the end of the transition `state.isAnimating` is false,
`state.activePopup` is `'bts'` and the overlay is still active. -/
theorem overlay_stays_over_bts :
    (run emptyNamePage init (emptyNameRun.take 2)).isAnimating = false
      ∧ (run emptyNamePage init (emptyNameRun.take 2)).activePopup = some ""
      ∧ (run emptyNamePage init (emptyNameRun.take 2)).overlayActive = true
      ∧ (run emptyNamePage init emptyNameRun).isAnimating = false
      ∧ (run emptyNamePage init emptyNameRun).timers = []
      ∧ (run emptyNamePage init emptyNameRun).activePopup = some "bts"
      ∧ (run emptyNamePage init emptyNameRun).overlayActive = true := by
  decide

/-- C30, the claim as written fails: on a page without an overlay element
`showOverlay` does nothing, so after `togglePopup('info')` and the end of the
transition `state.isAnimating` is false, `state.activePopup` is `'info'` and no
overlay is active. -/
theorem overlay_absent_counterexample :
    (run noOverlayPage init
        [Event.togglePopup "info" (some 1), Event.expire]).isAnimating = false
      ∧ (run noOverlayPage init
        [Event.togglePopup "info" (some 1), Event.expire]).activePopup = some "info"
      ∧ (run noOverlayPage init
        [Event.togglePopup "info" (some 1), Event.expire]).overlayActive = false := by
  decide

theorem overlayInv_init : OverlayInv init := by
  unfold OverlayInv init
  simp

theorem overlayInv_openPopup (page : Page) (hov : page.overlay = true)
    (hname : "" ∉ page.popupTargets) (s : State) (name : String) (toggle : Option Nat)
    (isSwitch : Bool) (hsw : isSwitch = truthy s.activePopup) (h : OverlayInv s) :
    OverlayInv (openPopup page s name toggle isSwitch) := by
  unfold openPopup
  split
  · exact h
  · rename_i hanim
    split
    · exact h
    · rename_i hactive
      split
      · exact h
      · rename_i htarget
        have hmem : name ∈ page.popupTargets := by
          simpa [getPopupTarget] using htarget
        have hne : name ≠ "" := fun he => hname (he ▸ hmem)
        obtain ⟨h0, hphase⟩ := h
        rcases hphase with ⟨_, ht, hov2⟩ | ⟨ha, _, _⟩ | ⟨ha, _, _⟩
        · subst hsw
          cases hp : s.activePopup with
          | none =>
            rw [hp] at hov2
            have hoff : s.overlayActive = false := by
              cases hq : s.overlayActive
              · rfl
              · exact absurd (hov2.1 hq) (by simp)
            by_cases hb : name = "bts"
            · subst hb
              simp [OverlayInv, truthy, showOverlay, hideOverlay, hov, ht, hoff]
            · simp [OverlayInv, truthy, showOverlay, hideOverlay, hov, ht, hoff, hb, hne]
          | some prev =>
            rw [hp] at hov2 h0
            have hprev : prev ≠ "" := fun he => h0 (by rw [he])
            by_cases hb : name = "bts"
            · subst hb
              by_cases hpb : prev = "bts"
              · subst hpb
                have hoff : s.overlayActive = false := by
                  cases hq : s.overlayActive
                  · rfl
                  · exact absurd (hov2.1 hq) (by simp)
                simp [OverlayInv, truthy, showOverlay, hideOverlay, hov, ht, hoff]
              · simp [OverlayInv, truthy, showOverlay, hideOverlay, hov, ht, hpb, hprev]
            · by_cases hpb : prev = "bts"
              · subst hpb
                simp [OverlayInv, truthy, showOverlay, hideOverlay, hov, ht, hb, hne]
              · have hon : s.overlayActive = true := hov2.2 ⟨prev, rfl, hpb⟩
                simp [OverlayInv, truthy, showOverlay, hideOverlay, hov, ht, hb, hne, hpb,
                  hprev, hon]
        · rw [ha] at hanim
          exact absurd rfl hanim
        · rw [ha] at hanim
          exact absurd rfl hanim

theorem overlayInv_closeActive (page : Page) (hov : page.overlay = true) (s : State)
    (name : String) (hs : s.activePopup = some name) (h : OverlayInv s) :
    OverlayInv (closePopup page s name false) := by
  unfold closePopup
  split
  · exact h
  · rename_i hanim
    split
    · exact h
    · obtain ⟨h0, hphase⟩ := h
      rcases hphase with ⟨_, ht, hov2⟩ | ⟨ha, _, _⟩ | ⟨ha, _, _⟩
      · by_cases hb : name = "bts"
        · subst hb
          have hoff : s.overlayActive = false := by
            cases hq : s.overlayActive
            · rfl
            · obtain ⟨n, hn1, hn2⟩ := hov2.1 hq
              rw [hs] at hn1
              exact absurd (Option.some.inj hn1).symm hn2
          simp [OverlayInv, hideOverlay, hov, ht, hoff, h0]
        · simp [OverlayInv, hideOverlay, hov, ht, hb, h0]
      · rw [ha] at hanim
        exact absurd rfl hanim
      · rw [ha] at hanim
        exact absurd rfl hanim

theorem overlayInv_step (page : Page) (hov : page.overlay = true)
    (hname : "" ∉ page.popupTargets) (s : State) (e : Event) (h : OverlayInv s) :
    OverlayInv (step page s e) := by
  cases e with
  | togglePopup name newToggle =>
    simp only [step, togglePopup]
    split
    · rename_i hs
      exact overlayInv_closeActive page hov s name hs h
    · split
      · rename_i ht
        exact overlayInv_openPopup page hov hname s name newToggle true ht.symm h
      · rename_i ht
        exact overlayInv_openPopup page hov hname s name newToggle false
          (by simpa using ht) h
  | closeActivePopup =>
    simp only [step, closeActivePopup]
    split
    · rename_i name hs
      split
      · exact overlayInv_closeActive page hov s name hs h
      · exact h
    · exact h
  | expire =>
    simp only [step]
    obtain ⟨h0, hphase⟩ := h
    rcases hphase with ⟨ha, ht, hov2⟩ | ⟨ha, ht, hov2⟩ | ⟨ha, ht, hov2⟩
    · rw [ht]
      exact ⟨h0, Or.inl ⟨ha, ht, hov2⟩⟩
    · rw [ht]
      refine ⟨h0, Or.inl ⟨rfl, rfl, hov2⟩⟩
    · rw [ht]
      refine ⟨by simp [runCallback], Or.inl ⟨rfl, rfl, ?_⟩⟩
      simp [runCallback, hov2]

theorem overlayInv_run (page : Page) (hov : page.overlay = true)
    (hname : "" ∉ page.popupTargets) (events : List Event) :
    ∀ s, OverlayInv s → OverlayInv (run page s events) := by
  induction events with
  | nil => intro s h; exact h
  | cons e rest ih =>
    intro s h
    exact ih _ (overlayInv_step page hov hname s e h)

/-- C30, amended: on a page that has an overlay element and no popup with the
empty name, in every state reachable from the initial state (no popup, overlay
hidden) through `togglePopup`, `closeActivePopup` and the expiry of transition
timers, whenever `state.isAnimating` is false the overlay is active if and only
if `state.activePopup` is non-null and is not `bts`. -/
theorem overlay_matches (page : Page) (hov : page.overlay = true)
    (hname : "" ∉ page.popupTargets) (events : List Event)
    (hidle : (run page init events).isAnimating = false) :
    (run page init events).overlayActive = true
      ↔ ∃ n, (run page init events).activePopup = some n ∧ n ≠ "bts" := by
  obtain ⟨_, hphase⟩ := overlayInv_run page hov hname events init overlayInv_init
  rcases hphase with ⟨_, _, h⟩ | ⟨ha, _, _⟩ | ⟨ha, _, _⟩
  · exact h
  · rw [ha] at hidle; exact absurd hidle (by simp)
  · rw [ha] at hidle; exact absurd hidle (by simp)

theorem overlay_matches_witness :
    overlayPage.overlay = true ∧ "" ∉ overlayPage.popupTargets
      ∧ (run overlayPage init
          [Event.togglePopup "info" (some 1), Event.expire]).isAnimating = false
      ∧ (run overlayPage init
          [Event.togglePopup "info" (some 1), Event.expire]).overlayActive = true
      ∧ ((run overlayPage init
            [Event.togglePopup "info" (some 1), Event.expire]).overlayActive = true
          ↔ ∃ n, (run overlayPage init
              [Event.togglePopup "info" (some 1), Event.expire]).activePopup = some n
            ∧ n ≠ "bts") :=
  ⟨by decide, by decide, by decide, by decide,
   overlay_matches overlayPage (by decide) (by decide)
     [Event.togglePopup "info" (some 1), Event.expire] (by decide)⟩

end PopupManager
